import Mathlib

/-!
# Fitness tracker (`src/main.go`): embedding and verified properties

The program computes distance, mean speed and burnt calories for three kinds
of workout and prints a report.  Everything it computes is `float64`, `int`
and `time.Duration` arithmetic, so the embedding consists of

* a model of IEEE-754 binary64 with round-to-nearest-even (`F64`), covering
  the operations the program uses (`+`, `*`, `/`, `<`, `math.Abs`,
  `math.Pow(·, 2)`, `float64(int)`, `int(float64)`);
* Go's `int` as a 64-bit two's-complement integer (`Int` with `wrap64`);
* `time.Duration` as a count of nanoseconds with the library's `Hours` and
  `Minutes`;
* the verbs `%s`, `%v` and `%.2f` of `fmt.Sprintf`, for `InfoMessage.String`;
* the methods of `main.go`, one definition each, under the source's names.

A method that can stop with a runtime panic (integer division by zero) returns
`Option`; `none` is the panic.  Floating-point expressions are evaluated
operation by operation in the order Go's grammar gives them, without fused
multiply-add.
-/

/-! ## Binary64 -/

/-- Number of binary digits of `n`, by halving at most `fuel` times. -/
def bitLenAux : Nat → Nat → Nat
  | 0, _ => 0
  | fuel + 1, n => if n = 0 then 0 else bitLenAux fuel (n / 2) + 1

/-- Number of binary digits of `n` (`0` for `0`). -/
def bitLen (n : Nat) : Nat := bitLenAux n n

/-- A binary64 value.  `fin neg m e` is `(-1)^neg * m * 2^e`; the values the
operations below produce are canonical: `e = -1074` and `m < 2^52` (zero and
subnormals) or `2^52 ≤ m < 2^53` and `-1074 ≤ e ≤ 971` (normal numbers). -/
inductive F64 where
  | nan : F64
  | inf (neg : Bool) : F64
  | fin (neg : Bool) (m : Nat) (e : Int) : F64
deriving DecidableEq

namespace F64

/-- Positive zero, the value of the literal `0` as a `float64`. -/
def zero : F64 := fin false 0 (-1074)

/-- The integer `⌊log₂ (n / d)⌋` for positive `n` and `d`. -/
def floorLog2 (n d : Nat) : Int :=
  let k : Int := (bitLen n : Int) - (bitLen d : Int)
  if d * 2 ^ k.toNat ≤ n * 2 ^ (-k).toNat then k else k - 1

/-- The integer nearest to `N / D`, ties to the even one. -/
def roundEven (N D : Nat) : Nat :=
  let q := N / D
  let r := N % D
  if 2 * r < D then q
  else if D < 2 * r then q + 1
  else if q % 2 = 0 then q else q + 1

/-- Final step of rounding: renormalise a significand that was rounded up to
`2^53` and replace what exceeds the largest finite number by infinity. -/
def pack (neg : Bool) (m : Nat) (e : Int) : F64 :=
  if m = 2 ^ 53 then
    (if e + 1 > 971 then inf neg else fin neg (2 ^ 52) (e + 1))
  else if e > 971 then inf neg else fin neg m e

/-- The binary64 nearest to `(-1)^neg * n / d` (round to nearest, ties to
even), with gradual underflow and overflow to infinity. -/
def round (neg : Bool) (n d : Nat) : F64 :=
  if n = 0 then fin neg 0 (-1074)
  else
    let e : Int := max (floorLog2 n d - 52) (-1074)
    pack neg (roundEven (n * 2 ^ (-e).toNat) (d * 2 ^ e.toNat)) e

/-- Conversion `float64(i)` of an integer. -/
def ofInt (i : Int) : F64 := round (decide (i < 0)) i.natAbs 1

/-- The `float64` value of a non-negative decimal constant `n / d`. -/
def ofRatio (n d : Nat) : F64 := round false n d

/-- Absolute value, `math.Abs`: clears the sign. -/
def abs : F64 → F64
  | nan => nan
  | inf _ => inf false
  | fin _ m e => fin false m e

/-- The integer `(-1)^neg * m`. -/
def signed (neg : Bool) (m : Nat) : Int := if neg then -(m : Int) else (m : Int)

/-- Addition `x + y`. -/
def add : F64 → F64 → F64
  | nan, _ => nan
  | _, nan => nan
  | inf a, inf b => if a = b then inf a else nan
  | inf a, fin _ _ _ => inf a
  | fin _ _ _, inf b => inf b
  | fin a m1 e1, fin b m2 e2 =>
    let e := min e1 e2
    let s : Int := signed a (m1 * 2 ^ (e1 - e).toNat) + signed b (m2 * 2 ^ (e2 - e).toNat)
    if s = 0 then fin (a && b) 0 (-1074)
    else round (decide (s < 0)) (s.natAbs * 2 ^ e.toNat) (2 ^ (-e).toNat)

/-- Multiplication `x * y`. -/
def mul : F64 → F64 → F64
  | nan, _ => nan
  | _, nan => nan
  | inf a, inf b => inf (xor a b)
  | inf a, fin b m _ => if m = 0 then nan else inf (xor a b)
  | fin a m _, inf b => if m = 0 then nan else inf (xor a b)
  | fin a m1 e1, fin b m2 e2 =>
    round (xor a b) (m1 * m2 * 2 ^ (e1 + e2).toNat) (2 ^ (-(e1 + e2)).toNat)

/-- Division `x / y` (floating-point division never panics). -/
def div : F64 → F64 → F64
  | nan, _ => nan
  | _, nan => nan
  | inf _, inf _ => nan
  | inf a, fin b _ _ => inf (xor a b)
  | fin a _ _, inf b => fin (xor a b) 0 (-1074)
  | fin a m1 e1, fin b m2 e2 =>
    if m2 = 0 then (if m1 = 0 then nan else inf (xor a b))
    else round (xor a b) (m1 * 2 ^ (e1 - e2).toNat) (m2 * 2 ^ (e2 - e1).toNat)

/-- Comparison `x < y`; false when either side is NaN. -/
def lt : F64 → F64 → Bool
  | nan, _ => false
  | _, nan => false
  | inf a, inf b => a && !b
  | inf a, fin _ _ _ => a
  | fin _ _ _, inf b => !b
  | fin a m1 e1, fin b m2 e2 =>
    let e := min e1 e2
    decide (signed a (m1 * 2 ^ (e1 - e).toNat) < signed b (m2 * 2 ^ (e2 - e).toNat))

/-- Conversion `int(x)`: the fraction is discarded (truncation toward zero).
For NaN, infinities and values outside the `int` range Go leaves the result
to the implementation; the value here is the one amd64 produces. -/
def toInt : F64 → Int
  | nan => -2 ^ 63
  | inf _ => -2 ^ 63
  | fin neg m e =>
    let t : Nat := m * 2 ^ e.toNat / 2 ^ (-e).toNat
    let i := signed neg t
    if -2 ^ 63 ≤ i ∧ i < 2 ^ 63 then i else -2 ^ 63

/-- The call `math.Pow(x, 2)`, following the library's portable
implementation: the special cases first, then the significand of `x` is
squared and rounded to 53 bits, and the result is scaled back by `Ldexp`,
which rounds once more when the result is subnormal. -/
def powTwo : F64 → F64
  | nan => nan
  | inf _ => inf false
  | fin neg m e =>
    if m = 0 then zero
    else if fin neg m e = fin false (2 ^ 52) (-52) then fin false (2 ^ 52) (-52)
    else
      let p := m * m
      let s := bitLen p - 53
      let r := roundEven p (2 ^ s)
      round false (r * 2 ^ ((s : Int) + 2 * e).toNat) (2 ^ (-((s : Int) + 2 * e)).toNat)

/-- The real number a value stands for; `none` for NaN and the infinities. -/
def toRat : F64 → Option ℚ
  | nan => none
  | inf _ => none
  | fin neg m e => some ((signed neg m : ℚ) * (2 : ℚ) ^ e)

/-- The value in hundredths, rounded to the nearest integer (ties to even):
the digits that `%.2f` prints. -/
def hundredths : F64 → Option Int
  | nan => none
  | inf _ => none
  | fin neg m e => some (signed neg (roundEven (100 * m * 2 ^ e.toNat) (2 ^ (-e).toNat)))

end F64

namespace F64

/-- The comparison `x ≤ y` of the spec's wording: both are numbers and `y < x`
does not hold. -/
def le : F64 → F64 → Bool
  | nan, _ => false
  | _, nan => false
  | x, y => !(lt y x)

end F64

namespace F64

/-- Canonical form of the values that a `float64` can hold: zero and the
subnormal numbers have exponent `-1074` and a significand below `2^52`, the
normal numbers a significand in `[2^52, 2^53)` and an exponent in
`-1074 … 971`. -/
def wf : F64 → Bool
  | nan => true
  | inf _ => true
  | fin _ m e =>
    (decide (m < 2 ^ 52) && decide (e = -1074)) ||
      (decide (2 ^ 52 ≤ m) && decide (m < 2 ^ 53) && decide (-1074 ≤ e) && decide (e ≤ 971))

end F64

/-! ## Go's `int` and `time.Duration` -/

/-- Reduction of an integer to the 64-bit two's-complement range of `int`. -/
def wrap64 (i : Int) : Int := (i + 2 ^ 63) % 2 ^ 64 - 2 ^ 63

/-- Integer division `a / b` of Go for `b ≠ 0`: truncated, wrapping around
in the one case that overflows. -/
def intDiv (a b : Int) : Int := wrap64 (Int.tdiv a b)

/-- Nanoseconds in an hour, `time.Hour`. -/
def Hour : Int := 3600000000000

/-- Nanoseconds in a minute, `time.Minute`. -/
def Minute : Int := 60000000000

/-- The library's `Duration.Hours`:
`float64(d / Hour) + float64(d % Hour) / (60 * 60 * 1e9)`. -/
def Duration.Hours (d : Int) : F64 :=
  F64.add (F64.ofInt (Int.tdiv d Hour)) (F64.div (F64.ofInt (Int.tmod d Hour)) (F64.ofInt 3600000000000))

/-! ## Constants of `main.go` -/

/-- Metres in a kilometre. -/
def MInKm : Int := 1000

/-- Minutes in an hour. -/
def MinInHours : Int := 60

/-- Length of one step, `0.65`. -/
def LenStep : F64 := F64.ofRatio 65 100

/-- Centimetres in a metre. -/
def CmInM : Int := 100

/-- Threshold under which a duration counts as zero, `1e-8`. -/
def eps : F64 := F64.ofRatio 1 100000000

/-- Multiplier of the mean speed in the running formula. -/
def CaloriesMeanSpeedMultiplier : Int := 18

/-- Shift of the mean speed in the running formula, `1.79`. -/
def CaloriesMeanSpeedShift : F64 := F64.ofRatio 179 100

/-- Declared weight multiplier for walking, `0.035` (no method uses it). -/
def CaloriesWeightMultiplier : F64 := F64.ofRatio 35 1000

/-- Height multiplier for walking, `0.029`. -/
def CaloriesSpeedHeightMultiplier : F64 := F64.ofRatio 29 1000

/-- Declared km/h to m/s factor, `0.278` (no method uses it). -/
def KmHInMsec : F64 := F64.ofRatio 278 1000

/-- Length of one stroke, `1.38`. -/
def SwimmingLenStep : F64 := F64.ofRatio 138 100

/-- Shift of the mean speed in the swimming formula, `1.1`. -/
def SwimmingCaloriesMeanSpeedShift : F64 := F64.ofRatio 11 10

/-- Multiplier of the weight in the swimming formula. -/
def SwimmingCaloriesWeightMultiplier : Int := 2

/-! ## Data model -/

/-- Common record of every workout. -/
structure Training where
  TrainingType : String
  Action : Int
  LenStep : F64
  Duration : Int
  Weight : F64
deriving DecidableEq

/-- Summary of a workout. -/
structure InfoMessage where
  TrainingType : String
  Duration : Int
  Distance : F64
  Speed : F64
  Calories : F64
deriving DecidableEq

/-- A running workout. -/
structure Running where
  Training : Training
deriving DecidableEq

/-- A walking workout. -/
structure Walking where
  Training : Training
  Height : F64
deriving DecidableEq

/-- A swimming workout. -/
structure Swimming where
  Training : Training
  LengthPool : Int
  CountPool : Int
deriving DecidableEq

/-- The values of the interface `CaloriesCalculator`: the types of `main.go`
that have both a `Calories` and a `TrainingInfo` method. -/
inductive CaloriesCalculator where
  | training (t : Training) : CaloriesCalculator
  | running (r : Running) : CaloriesCalculator
  | walking (w : Walking) : CaloriesCalculator
  | swimming (s : Swimming) : CaloriesCalculator
deriving DecidableEq

/-! ## Methods -/

/-- `Training.distance`: `float64(t.Action) * t.LenStep / MInKm`. -/
def Training.distance (t : Training) : F64 :=
  F64.div (F64.mul (F64.ofInt t.Action) t.LenStep) (F64.ofInt MInKm)

/-- `Training.meanSpeed`: `0` under the guard `math.Abs(hours) < eps`,
otherwise `distance() / hours`. -/
def Training.meanSpeed (t : Training) : F64 :=
  if F64.lt (F64.abs (Duration.Hours t.Duration)) eps = true then F64.zero
  else F64.div t.distance (Duration.Hours t.Duration)

/-- `Training.Calories`: the base default, `0`. -/
def Training.Calories (_t : Training) : F64 := F64.zero

/-- `Training.TrainingInfo`. -/
def Training.TrainingInfo (t : Training) : InfoMessage :=
  { TrainingType := t.TrainingType
    Duration := t.Duration
    Distance := t.distance
    Speed := t.meanSpeed
    Calories := t.Calories }

/-- `Running.Calories`:
`(18*meanSpeed + 1.79) * Weight / MInKm * hours * MinInHours`, left to right. -/
def Running.Calories (r : Running) : F64 :=
  F64.mul
    (F64.mul
      (F64.div
        (F64.mul
          (F64.add (F64.mul (F64.ofInt CaloriesMeanSpeedMultiplier) r.Training.meanSpeed)
            CaloriesMeanSpeedShift)
          r.Training.Weight)
        (F64.ofInt MInKm))
      (Duration.Hours r.Training.Duration))
    (F64.ofInt MinInHours)

/-- `Running.TrainingInfo`: every field comes from the embedded `Training`,
the calorie field from `r.Training.Calories()`. -/
def Running.TrainingInfo (r : Running) : InfoMessage :=
  { TrainingType := r.Training.TrainingType
    Duration := r.Training.Duration
    Distance := r.Training.distance
    Speed := r.Training.meanSpeed
    Calories := r.Training.Calories }

/-- `Walking.Calories`: by Go's precedence the sum of `18*Weight` and of the
product `Pow(meanSpeed, 2) / (Height*CmInM) * 0.029 * Weight * hours * MinInHours`. -/
def Walking.Calories (w : Walking) : F64 :=
  F64.add
    (F64.mul (F64.ofInt CaloriesMeanSpeedMultiplier) w.Training.Weight)
    (F64.mul
      (F64.mul
        (F64.mul
          (F64.mul
            (F64.div (F64.powTwo w.Training.meanSpeed) (F64.mul w.Height (F64.ofInt CmInM)))
            CaloriesSpeedHeightMultiplier)
          w.Training.Weight)
        (Duration.Hours w.Training.Duration))
      (F64.ofInt MinInHours))

/-- `Walking.TrainingInfo`. -/
def Walking.TrainingInfo (w : Walking) : InfoMessage :=
  { TrainingType := w.Training.TrainingType
    Duration := w.Training.Duration
    Distance := w.Training.distance
    Speed := w.Training.meanSpeed
    Calories := w.Training.Calories }

/-- `Swimming.meanSpeed`: `0` under the guard, otherwise the `int` expression
`LengthPool * CountPool / MInKm / int(hours)` converted to `float64`; `none`
is the panic of an integer division by zero. -/
def Swimming.meanSpeed (s : Swimming) : Option F64 :=
  if F64.lt (F64.abs (Duration.Hours s.Training.Duration)) eps = true then some F64.zero
  else
    let n := F64.toInt (Duration.Hours s.Training.Duration)
    if n = 0 then none
    else some (F64.ofInt (intDiv (intDiv (wrap64 (s.LengthPool * s.CountPool)) MInKm) n))

/-- `Swimming.Calories`:
`(meanSpeed() + 1.1) * 2 * Weight * hours`, left to right. -/
def Swimming.Calories (s : Swimming) : Option F64 :=
  (Swimming.meanSpeed s).map fun v =>
    F64.mul
      (F64.mul
        (F64.mul (F64.add v SwimmingCaloriesMeanSpeedShift)
          (F64.ofInt SwimmingCaloriesWeightMultiplier))
        s.Training.Weight)
      (Duration.Hours s.Training.Duration)

/-- `Swimming.TrainingInfo`: speed and calories come from the embedded
`Training`, not from the methods of `Swimming`. -/
def Swimming.TrainingInfo (s : Swimming) : InfoMessage :=
  { TrainingType := s.Training.TrainingType
    Duration := s.Training.Duration
    Distance := s.Training.distance
    Speed := s.Training.meanSpeed
    Calories := s.Training.Calories }

/-- Dynamic dispatch of `Calories()` on an interface value. -/
def CaloriesCalculator.Calories : CaloriesCalculator → Option F64
  | .training t => some t.Calories
  | .running r => some r.Calories
  | .walking w => some w.Calories
  | .swimming s => s.Calories

/-- Dynamic dispatch of `TrainingInfo()` on an interface value. -/
def CaloriesCalculator.TrainingInfo : CaloriesCalculator → InfoMessage
  | .training t => t.TrainingInfo
  | .running r => r.TrainingInfo
  | .walking w => w.TrainingInfo
  | .swimming s => s.TrainingInfo

/-- The summary that `ReadData` hands to `fmt.Sprint`: the calories are
computed first, then the draft of `TrainingInfo()` gets them as its calorie
field. -/
def ReadDataInfo (training : CaloriesCalculator) : Option InfoMessage :=
  training.Calories.map fun calories =>
    { training.TrainingInfo with Calories := calories }

/-! ## The workouts of `main` -/

/-- The swimming workout of `main`. -/
def mainSwimming : Swimming :=
  { Training :=
      { TrainingType := "Плавание"
        Action := 2000
        LenStep := SwimmingLenStep
        Duration := 90 * Minute
        Weight := F64.ofInt 85 }
    LengthPool := 50
    CountPool := 5 }

/-- The walking workout of `main`. -/
def mainWalking : Walking :=
  { Training :=
      { TrainingType := "Ходьба"
        Action := 20000
        LenStep := LenStep
        Duration := 3 * Hour + 45 * Minute
        Weight := F64.ofInt 85 }
    Height := F64.ofInt 185 }

/-- The running workout of `main`. -/
def mainRunning : Running :=
  { Training :=
      { TrainingType := "Бег"
        Action := 5000
        LenStep := LenStep
        Duration := 30 * Minute
        Weight := F64.ofInt 85 } }

/-- The swimming workout of `main` shortened to 30 minutes. -/
def halfHourSwimming : Swimming :=
  { mainSwimming with Training := { mainSwimming.Training with Duration := 30 * Minute } }

/-- A one-hour swim in a single pool length of `2^63 - 1` metres, the largest
`int`. -/
def longPoolSwimming : Swimming :=
  { Training := { mainSwimming.Training with Duration := Hour }
    LengthPool := 9223372036854775807
    CountPool := 1 }

/-- A one-hour swim of `2^32` crossings of a pool of `2^32` metres; the
product of the two is `2^64`. -/
def squarePoolSwimming : Swimming :=
  { Training := { mainSwimming.Training with Duration := Hour }
    LengthPool := 4294967296
    CountPool := 4294967296 }

/-- A swim of 100 crossings of a 50-metre pool in 2 h 30 min. -/
def poolSwimming : Swimming :=
  { Training := { mainSwimming.Training with Duration := 150 * Minute }
    LengthPool := 50
    CountPool := 100 }

/-! ## Formatting of `fmt.Sprintf` -/

/-- The library's `Duration.Minutes`:
`float64(d / Minute) + float64(d % Minute) / (60 * 1e9)`. -/
def Duration.Minutes (d : Int) : F64 :=
  F64.add (F64.ofInt (Int.tdiv d Minute)) (F64.div (F64.ofInt (Int.tmod d Minute)) (F64.ofInt 60000000000))

/-- The character of a decimal digit. -/
def digitChar (d : Nat) : Char :=
  match d with
  | 0 => '0'
  | 1 => '1'
  | 2 => '2'
  | 3 => '3'
  | 4 => '4'
  | 5 => '5'
  | 6 => '6'
  | 7 => '7'
  | 8 => '8'
  | _ => '9'

/-- Decimal digits of `n` in front of `acc`, most significant first. -/
def natDigitsAux : Nat → Nat → List Char → List Char
  | 0, _, acc => acc
  | fuel + 1, n, acc =>
    if n < 10 then digitChar n :: acc
    else natDigitsAux fuel (n / 10) (digitChar (n % 10) :: acc)

/-- Decimal digits of `n`; `0` has the single digit `0`. -/
def natDigits (n : Nat) : List Char := natDigitsAux (n + 1) n []

/-- Decimal digits of `n` padded on the left with zeros to at least `w`
digits. -/
def natDigitsPad (w n : Nat) : List Char :=
  List.replicate (w - (natDigits n).length) '0' ++ natDigits n

namespace F64

/-- The verb `%.2f`: sign, integer part, point and two decimals of the value
rounded to hundredths (ties to even on the exact value); `NaN`, `+Inf` and
`-Inf` for the values that are not numbers. -/
def fmtF2 : F64 → List Char
  | nan => ['N', 'a', 'N']
  | inf neg => if neg then ['-', 'I', 'n', 'f'] else ['+', 'I', 'n', 'f']
  | fin neg m e =>
    let h := roundEven (100 * m * 2 ^ e.toNat) (2 ^ (-e).toNat)
    (if neg then ['-'] else []) ++ natDigits (h / 100) ++ ['.'] ++ natDigitsPad 2 (h % 100)

/-- Search for the shortest decimal `D * 10^k` inside the rounding interval of
a positive number.  The number is `xn / xd`, the interval runs from `lo / xd`
to `hi / xd` and contains its ends when `incl` holds; `dp` is the position of
the decimal point of the number and `p` the number of digits tried.  With
`p` digits the number is cut to `D`; `D` or `D + 1` is taken when inside the
interval, the nearer one (ties to even) when both are.  Returns `(D, k)`. -/
def shortestAux (xn xd lo hi : Nat) (incl : Bool) (dp : Int) : Nat → Nat → Nat × Int
  | 0, p =>
    let k : Int := dp - p
    (roundEven (xn * 10 ^ (-k).toNat) (xd * 10 ^ k.toNat), k)
  | fuel + 1, p =>
    let k : Int := dp - p
    let num := xn * 10 ^ (-k).toNat
    let den := xd * 10 ^ k.toNat
    let dlo := num / den
    let down := dlo * den
    let up := (dlo + 1) * den
    let okdown := if incl then decide (lo * 10 ^ (-k).toNat ≤ down)
      else decide (lo * 10 ^ (-k).toNat < down)
    let okup := if incl then decide (up ≤ hi * 10 ^ (-k).toNat)
      else decide (up < hi * 10 ^ (-k).toNat)
    if num % den = 0 then (dlo, k)
    else if okdown && okup then (roundEven num den, k)
    else if okdown then (dlo, k)
    else if okup then (dlo + 1, k)
    else shortestAux xn xd lo hi incl dp fuel (p + 1)

/-- Position of the decimal point of the positive number `xn / xd`: the
integer `dp` with `10^(dp-1) ≤ xn / xd < 10^dp`, searched downwards from `dp`. -/
def pointPos (xn xd : Nat) : Nat → Int → Int
  | 0, dp => dp
  | fuel + 1, dp =>
    if xd * 10 ^ (dp - 1).toNat ≤ xn * 10 ^ (1 - dp).toNat then dp
    else pointPos xn xd fuel (dp - 1)

/-- Removal of the trailing zeros of a digit string `D * 10^k`. -/
def stripZeros : Nat → Nat → Int → Nat × Int
  | 0, D, k => (D, k)
  | fuel + 1, D, k =>
    if D ≠ 0 ∧ D % 10 = 0 then stripZeros fuel (D / 10) (k + 1) else (D, k)

/-- The shortest decimal `D * 10^k` that converts back to the positive number
`m * 2^e`, as `strconv` computes it: the rounding interval reaches half-way
to the neighbouring numbers and contains its ends when `m` is even. -/
def shortest (m : Nat) (e : Int) : Nat × Int :=
  let s := 2 ^ (e - 2).toNat
  let xd := 2 ^ (2 - e).toNat
  let xn := 4 * m * s
  let lo := (if m = 2 ^ 52 ∧ e ≠ -1074 then 4 * m - 1 else 4 * m - 2) * s
  let hi := (4 * m + 2) * s
  let dp := pointPos xn xd 700 (((natDigits (xn / xd)).length : Int) + 1)
  let r := shortestAux xn xd lo hi (decide (m % 2 = 0)) dp 16 1
  stripZeros 20 r.1 r.2

/-- The verb `%v` on a `float64`, which is `%g` with the shortest digits that
identify the value: plain decimal notation when the decimal exponent is in
`-4 … 5`, otherwise `d.ddde±xx` with at least two exponent digits. -/
def fmtV : F64 → List Char
  | nan => ['N', 'a', 'N']
  | inf neg => if neg then ['-', 'I', 'n', 'f'] else ['+', 'I', 'n', 'f']
  | fin neg m e =>
    let sign : List Char := if neg then ['-'] else []
    if m = 0 then sign ++ ['0']
    else
      let r := shortest m e
      let ds := natDigits r.1
      let nd : Int := ds.length
      let dp : Int := nd + r.2
      let x : Int := dp - 1
      if x < -4 ∨ x ≥ 6 then
        sign ++ ds.take 1 ++ (if ds.length > 1 then '.' :: ds.drop 1 else [])
          ++ ['e'] ++ (if x < 0 then ['-'] else ['+']) ++ natDigitsPad 2 x.natAbs
      else if dp ≤ 0 then
        sign ++ ['0', '.'] ++ List.replicate (-dp).toNat '0' ++ ds
      else if nd ≤ dp then
        sign ++ ds ++ List.replicate (dp - nd).toNat '0'
      else
        sign ++ ds.take dp.toNat ++ ['.'] ++ ds.drop dp.toNat

end F64

/-- `InfoMessage.String`: the `Sprintf` of the format
`"Тип тренировки: %s\nДлительность: %v мин\nДистанция: %.2f км. \nСр.скорость: %.2f км/ч\nПотрачено ккал: %.2f\n"`
on the label, `Duration.Minutes()`, the distance, the speed and the calories. -/
def InfoMessage.String (i : InfoMessage) : String :=
  "Тип тренировки: " ++ i.TrainingType
    ++ "\nДлительность: " ++ String.mk (F64.fmtV (Duration.Minutes i.Duration))
    ++ " мин\nДистанция: " ++ String.mk (F64.fmtF2 i.Distance)
    ++ " км. \nСр.скорость: " ++ String.mk (F64.fmtF2 i.Speed)
    ++ " км/ч\nПотрачено ккал: " ++ String.mk (F64.fmtF2 i.Calories)
    ++ "\n"

/-- `ReadData`: `fmt.Sprint` of the summary, which renders it through its
`String` method; `none` when `Calories()` panics. -/
def ReadData (training : CaloriesCalculator) : Option String :=
  (ReadDataInfo training).map InfoMessage.String

/-- The swimming workout of `main` with a duration of zero. -/
def zeroSwimming : Swimming :=
  { mainSwimming with Training := { mainSwimming.Training with Duration := 0 } }

/-- A walk of zero duration whose height was left at the zero value. -/
def zeroWalking : Walking :=
  { Training := { mainWalking.Training with Duration := 0 }
    Height := F64.zero }

/-- The running workout of `main` with a duration of zero and the weight
`+Inf`. -/
def infWeightRunning : Running :=
  { Training := { mainRunning.Training with Duration := 0, Weight := F64.inf false } }

/-- The record of the walking workout of `main` with a duration of zero. -/
def zeroDurationTraining : Training :=
  { mainWalking.Training with Duration := 0 }

/-- A one-hour swim of two crossings of a pool of `2^62` metres; the product
of the two is `2^63`, one more than the largest `int`. -/
def twoLengthSwimming : Swimming :=
  { Training := { mainSwimming.Training with Duration := Hour }
    LengthPool := 4611686018427387904
    CountPool := 2 }

/-! ## Lemmas on rounding, `Duration.Hours` and `int` arithmetic -/

/-- With enough fuel, `bitLenAux` brackets `n` between two powers of two. -/
theorem bitLenAux_spec (fuel : Nat) : ∀ n, n ≤ fuel →
    n < 2 ^ bitLenAux fuel n ∧ (n ≠ 0 → 2 ^ (bitLenAux fuel n - 1) ≤ n) := by
  induction fuel with
  | zero =>
    intro n hn
    have : n = 0 := by omega
    subst this
    simp [bitLenAux]
  | succ f ih =>
    intro n hn
    by_cases h0 : n = 0
    · subst h0
      simp [bitLenAux]
    · have hle : n / 2 ≤ f := by omega
      obtain ⟨h1, h2⟩ := ih (n / 2) hle
      simp only [bitLenAux, h0, if_false]
      constructor
      · rw [pow_succ]
        omega
      · intro _
        simp only [Nat.add_sub_cancel]
        by_cases h3 : n / 2 = 0
        · have : bitLenAux f (n / 2) = 0 := by
            rw [h3]
            cases f <;> simp [bitLenAux]
          rw [this]
          simp
          omega
        · have h4 := h2 h3
          have h5 : bitLenAux f (n / 2) ≠ 0 := by
            intro h6
            rw [h6] at h1
            simp at h1
            exact h3 h1
          obtain ⟨k, hk⟩ := Nat.exists_eq_succ_of_ne_zero h5
          rw [hk] at h4 ⊢
          simp only [Nat.succ_sub_one] at h4
          rw [pow_succ]
          omega

/-- Every number is below `2 ^ bitLen`. -/
theorem lt_two_pow_bitLen (n : Nat) : n < 2 ^ bitLen n :=
  (bitLenAux_spec n n (Nat.le_refl n)).1

/-- A non-zero number is at least `2 ^ (bitLen - 1)`. -/
theorem two_pow_bitLen_le (n : Nat) (h : n ≠ 0) : 2 ^ (bitLen n - 1) ≤ n :=
  (bitLenAux_spec n n (Nat.le_refl n)).2 h

/-- Rounding to an integer does not go below an integer lower bound of the quotient. -/
theorem roundEven_ge (N D k : Nat) (hD : 0 < D) (h : k * D ≤ N) : k ≤ F64.roundEven N D := by
  have h1 : k ≤ N / D := (Nat.le_div_iff_mul_le hD).mpr h
  unfold F64.roundEven
  simp only
  split_ifs <;> omega

/-- Rounding to an integer does not go above an integer upper bound of the quotient. -/
theorem roundEven_le (N D k : Nat) (hD : 0 < D) (h : N ≤ k * D) : F64.roundEven N D ≤ k := by
  have h1 : N / D ≤ k := by
    calc N / D ≤ k * D / D := Nat.div_le_div_right h
      _ = k := Nat.mul_div_cancel k hD
  unfold F64.roundEven
  simp only
  by_cases hr : N % D = 0
  · simp [hr, hD]
    exact h1
  · have h2 : N / D < k := by
      rcases Nat.lt_or_ge (N / D) k with h3 | h3
      · exact h3
      · exfalso
        have h4 : N / D = k := le_antisymm h1 h3
        have h5 := Nat.div_add_mod N D
        rw [h4] at h5
        have h6 : D * k = k * D := Nat.mul_comm D k
        omega
    split_ifs <;> omega

/-- Bit length of a number bounded by `d * 2 ^ p`. -/
theorem bitLen_le_of_le_mul_pow (n d p : Nat) (hn : n ≠ 0) (h : n ≤ d * 2 ^ p) :
    bitLen n ≤ bitLen d + p := by
  have h1 := two_pow_bitLen_le n hn
  have h2 := lt_two_pow_bitLen d
  have h3 : n < 2 ^ (bitLen d + p) := by
    rw [pow_add]
    calc n ≤ d * 2 ^ p := h
      _ < 2 ^ bitLen d * 2 ^ p := Nat.mul_lt_mul_of_pos_right h2 (by positivity)
  have h4 : 2 ^ (bitLen n - 1) < 2 ^ (bitLen d + p) := lt_of_le_of_lt h1 h3
  have h5 := (Nat.pow_lt_pow_iff_right (by norm_num : 1 < 2)).mp h4
  omega

/-- The exponent estimate of a quotient bounded by `2 ^ p` is at most `p`. -/
theorem floorLog2_le (n d p : Nat) (hn : n ≠ 0) (h : n ≤ d * 2 ^ p) :
    F64.floorLog2 n d ≤ p := by
  have h1 := bitLen_le_of_le_mul_pow n d p hn h
  unfold F64.floorLog2
  simp only
  split_ifs <;> omega

/-- Rounding keeps a quotient that is at most `2 ^ p` (and, if so, at least `1`) within
these bounds; the result is finite, non-negative, with a non-positive exponent. -/
theorem round_bounds (n d p : Nat) (hd : 0 < d) (h2 : n ≤ d * 2 ^ p) (hp : p ≤ 52) :
    ∃ m a : Nat, F64.round false n d = F64.fin false m (-(a : Int)) ∧
      m ≤ 2 ^ p * 2 ^ a ∧ (d ≤ n → 2 ^ a ≤ m) := by
  by_cases hn : n = 0
  · subst hn
    refine ⟨0, 1074, ?_, by positivity, ?_⟩
    · simp [F64.round]
    · intro h
      omega
  · have hfl := floorLog2_le n d p hn h2
    obtain ⟨a, ha⟩ : ∃ a : Nat, max (F64.floorLog2 n d - 52) (-1074) = -(a : Int) := by
      refine ⟨(-(max (F64.floorLog2 n d - 52) (-1074))).toNat, ?_⟩
      have : max (F64.floorLog2 n d - 52) (-1074) ≤ 0 := by
        apply max_le <;> omega
      omega
    have ha2 : a ≤ 1074 := by
      have : (-1074 : Int) ≤ max (F64.floorLog2 n d - 52) (-1074) := le_max_right _ _
      omega
    have hr1 : F64.roundEven (n * 2 ^ a) (d * 2 ^ 0) ≤ 2 ^ p * 2 ^ a := by
      apply roundEven_le _ _ _ (by positivity)
      calc n * 2 ^ a ≤ d * 2 ^ p * 2 ^ a := Nat.mul_le_mul_right _ h2
        _ = 2 ^ p * 2 ^ a * (d * 2 ^ 0) := by ring
    have hr2 : d ≤ n → 2 ^ a ≤ F64.roundEven (n * 2 ^ a) (d * 2 ^ 0) := by
      intro h1
      apply roundEven_ge _ _ _ (by positivity)
      calc 2 ^ a * (d * 2 ^ 0) = d * 2 ^ a := by ring
        _ ≤ n * 2 ^ a := Nat.mul_le_mul_right _ h1
    have hround : F64.round false n d
        = F64.pack false (F64.roundEven (n * 2 ^ a) (d * 2 ^ 0)) (-(a : Int)) := by
      simp only [F64.round, hn, if_false, ha, neg_neg, Int.toNat_ofNat]
      have : (-(a : Int)).toNat = 0 := by omega
      rw [this]
    rw [hround]
    generalize F64.roundEven (n * 2 ^ a) (d * 2 ^ 0) = r at hr1 hr2
    unfold F64.pack
    by_cases hc : r = 2 ^ 53
    · have hpa : 53 ≤ p + a := by
        rw [hc, ← pow_add] at hr1
        exact (Nat.pow_le_pow_iff_right (by norm_num : 1 < 2)).mp hr1
      obtain ⟨b, hb⟩ : ∃ b, a = b + 1 := ⟨a - 1, by omega⟩
      subst hb
      refine ⟨2 ^ 52, b, ?_, ?_, ?_⟩
      · have h1 : ¬ (-((b + 1 : Nat) : Int) + 1 > 971) := by omega
        have h3 : -((b + 1 : Nat) : Int) + 1 = -(b : Int) := by push_cast; ring
        have h5 : ¬ (-(b : Int) > 971) := by omega
        simp only [hc, if_true, h3, h5, if_false]
      · rw [← pow_add]
        apply Nat.pow_le_pow_right (by norm_num)
        omega
      · intro h
        have := hr2 h
        rw [hc] at this
        have h4 := (Nat.pow_le_pow_iff_right (by norm_num : 1 < 2)).mp this
        apply Nat.pow_le_pow_right (by norm_num)
        omega
    · refine ⟨r, a, ?_, hr1, hr2⟩
      have h1 : ¬ (-(a : Int) > 971) := by omega
      simp only [hc, if_false, h1]

/-- The sum of a number in `[1, 2^p1]` and a number in `[0, 2^p2]` stays in `[1, 2^p]`. -/
theorem add_bounds (m1 a1 m2 a2 p1 p2 p : Nat) (h1 : 2 ^ a1 ≤ m1) (h1u : m1 ≤ 2 ^ p1 * 2 ^ a1)
    (h2u : m2 ≤ 2 ^ p2 * 2 ^ a2) (hp : 2 ^ p1 + 2 ^ p2 ≤ 2 ^ p) (hp52 : p ≤ 52) :
    ∃ m a : Nat, F64.add (F64.fin false m1 (-(a1 : Int))) (F64.fin false m2 (-(a2 : Int)))
        = F64.fin false m (-(a : Int)) ∧ 2 ^ a ≤ m ∧ m ≤ 2 ^ p * 2 ^ a := by
  obtain ⟨B, hB, hB1, hB2⟩ : ∃ B : Nat, min (-(a1 : Int)) (-(a2 : Int)) = -(B : Int) ∧
      a1 ≤ B ∧ a2 ≤ B := by
    refine ⟨max a1 a2, ?_, le_max_left _ _, le_max_right _ _⟩
    rcases le_total a1 a2 with h | h
    · rw [max_eq_right h, min_eq_right (by omega)]
    · rw [max_eq_left h, min_eq_left (by omega)]
  have e1 : (-(a1 : Int) - -(B : Int)).toNat = B - a1 := by omega
  have e2 : (-(a2 : Int) - -(B : Int)).toNat = B - a2 := by omega
  have e3 : (-(B : Int)).toNat = 0 := by omega
  have e4 : (- -(B : Int)).toNat = B := by omega
  have hs1 : 2 ^ B ≤ m1 * 2 ^ (B - a1) := by
    calc 2 ^ B = 2 ^ a1 * 2 ^ (B - a1) := by rw [← pow_add]; congr 1; omega
      _ ≤ m1 * 2 ^ (B - a1) := Nat.mul_le_mul_right _ h1
  have hs2 : m1 * 2 ^ (B - a1) ≤ 2 ^ p1 * 2 ^ B := by
    calc m1 * 2 ^ (B - a1) ≤ 2 ^ p1 * 2 ^ a1 * 2 ^ (B - a1) := Nat.mul_le_mul_right _ h1u
      _ = 2 ^ p1 * 2 ^ B := by rw [mul_assoc, ← pow_add]; congr 2; omega
  have hs3 : m2 * 2 ^ (B - a2) ≤ 2 ^ p2 * 2 ^ B := by
    calc m2 * 2 ^ (B - a2) ≤ 2 ^ p2 * 2 ^ a2 * 2 ^ (B - a2) := Nat.mul_le_mul_right _ h2u
      _ = 2 ^ p2 * 2 ^ B := by rw [mul_assoc, ← pow_add]; congr 2; omega
  have hpos : 0 < 2 ^ B := by positivity
  set s : Nat := m1 * 2 ^ (B - a1) + m2 * 2 ^ (B - a2) with hs
  have hsl : 2 ^ B ≤ s := by omega
  have hsu : s ≤ 2 ^ B * 2 ^ p := by
    calc s ≤ 2 ^ p1 * 2 ^ B + 2 ^ p2 * 2 ^ B := by omega
      _ = (2 ^ p1 + 2 ^ p2) * 2 ^ B := by ring
      _ ≤ 2 ^ p * 2 ^ B := Nat.mul_le_mul_right _ hp
      _ = 2 ^ B * 2 ^ p := by ring
  obtain ⟨m, a, hr, hu, hl⟩ := round_bounds s (2 ^ B) p hpos hsu hp52
  refine ⟨m, a, ?_, hl hsl, hu⟩
  rw [← hr]
  have hsne : ((m1 * 2 ^ (B - a1) : Nat) : Int) + ((m2 * 2 ^ (B - a2) : Nat) : Int) ≠ 0 := by
    have : (0 : Int) < ((m1 * 2 ^ (B - a1) : Nat) : Int) + ((m2 * 2 ^ (B - a2) : Nat) : Int) := by
      have : 0 < s := by omega
      rw [hs] at this
      exact_mod_cast this
    omega
  have hnn : ¬ (((m1 * 2 ^ (B - a1) : Nat) : Int) + ((m2 * 2 ^ (B - a2) : Nat) : Int) < 0) := by
    have : (0 : Int) ≤ ((m1 * 2 ^ (B - a1) : Nat) : Int) + ((m2 * 2 ^ (B - a2) : Nat) : Int) := by
      positivity
    omega
  have hna : (((m1 * 2 ^ (B - a1) : Nat) : Int) + ((m2 * 2 ^ (B - a2) : Nat) : Int)).natAbs = s := by
    rw [hs]
    have : ((m1 * 2 ^ (B - a1) : Nat) : Int) + ((m2 * 2 ^ (B - a2) : Nat) : Int)
        = ((m1 * 2 ^ (B - a1) + m2 * 2 ^ (B - a2) : Nat) : Int) := by push_cast; ring
    rw [this, Int.natAbs_ofNat]
  simp only [F64.add, hB, e1, e2, e3, e4, F64.signed, Bool.false_eq_true, if_false, hsne, hnn,
    decide_False, hna, pow_zero, mul_one]

/-- Splitting of a power of two. -/
theorem two_pow_split (a b : Nat) (h : a ≤ b) : 2 ^ b = 2 ^ a * 2 ^ (b - a) := by
  rw [← pow_add]
  congr 1
  omega

/-- The conversion of an integer in `[0, 2^p]` stays in `[0, 2^p]`, and is at least `1` when
the integer is. -/
theorem ofInt_bounds (i : Int) (p : Nat) (h0 : 0 ≤ i) (hu : i ≤ 2 ^ p) (hp : p ≤ 52) :
    ∃ m a : Nat, F64.ofInt i = F64.fin false m (-(a : Int)) ∧
      m ≤ 2 ^ p * 2 ^ a ∧ (1 ≤ i → 2 ^ a ≤ m) := by
  have hneg : ¬ i < 0 := by omega
  have hn : i.natAbs ≤ 1 * 2 ^ p := by
    have : (i.natAbs : Int) ≤ ((1 * 2 ^ p : Nat) : Int) := by
      rw [Int.natAbs_of_nonneg h0]
      push_cast
      omega
    exact_mod_cast this
  obtain ⟨m, a, hr, hu', hl⟩ := round_bounds i.natAbs 1 p (by norm_num) hn hp
  refine ⟨m, a, ?_, hu', ?_⟩
  · simp only [F64.ofInt, hneg, decide_False]
    exact hr
  · intro h1
    apply hl
    omega

/-- A number of at most `2^42` divided by `3.6e12` is at most `2`. -/
theorem div_hour_bounds (m2 a2 : Nat) (h : m2 ≤ 2 ^ 42 * 2 ^ a2) :
    ∃ m a : Nat, F64.div (F64.fin false m2 (-(a2 : Int))) (F64.fin false 7372800000000000 (-11))
        = F64.fin false m (-(a : Int)) ∧ m ≤ 2 ^ 1 * 2 ^ a := by
  have e1 : (-(a2 : Int) + 11).toNat = 11 - a2 := by omega
  have e2 : ((-11 : Int) + (a2 : Int)).toNat = a2 - 11 := by omega
  have hb : m2 * 2 ^ (11 - a2) ≤ 7372800000000000 * 2 ^ (a2 - 11) * 2 ^ 1 := by
    rcases le_total a2 11 with h1 | h1
    · have e3 : a2 - 11 = 0 := by omega
      rw [e3]
      calc m2 * 2 ^ (11 - a2) ≤ 2 ^ 42 * 2 ^ a2 * 2 ^ (11 - a2) := Nat.mul_le_mul_right _ h
        _ = 2 ^ 42 * 2 ^ 11 := by rw [mul_assoc, ← pow_add]; congr 2; omega
        _ ≤ 7372800000000000 * 2 ^ 0 * 2 ^ 1 := by norm_num
    · have e3 : 11 - a2 = 0 := by omega
      rw [e3]
      calc m2 * 2 ^ 0 ≤ 2 ^ 42 * 2 ^ a2 := by simpa using h
        _ = 2 ^ 42 * 2 ^ 11 * 2 ^ (a2 - 11) := by
          rw [mul_assoc, two_pow_split 11 a2 h1]
        _ ≤ 14745600000000000 * 2 ^ (a2 - 11) := Nat.mul_le_mul_right _ (by norm_num)
        _ = 7372800000000000 * 2 ^ (a2 - 11) * 2 ^ 1 := by ring
  obtain ⟨m, a, hr, hu, _⟩ := round_bounds (m2 * 2 ^ (11 - a2))
    (7372800000000000 * 2 ^ (a2 - 11)) 1 (by positivity) hb (by norm_num)
  refine ⟨m, a, ?_, hu⟩
  rw [← hr]
  simp [F64.div, e1, e2]

/-- For a duration of at least one hour, `Duration.Hours` is a finite number in
`[1, 2^23]`. -/
theorem hours_bounds (d : Int) (h1 : Hour ≤ d) (h2 : d < 2 ^ 63) :
    ∃ m a : Nat, Duration.Hours d = F64.fin false m (-(a : Int)) ∧
      2 ^ a ≤ m ∧ m ≤ 2 ^ 23 * 2 ^ a := by
  unfold Hour at h1
  have hd0 : (0 : Int) ≤ d := by omega
  have hq : Int.tdiv d Hour = d / 3600000000000 := by
    unfold Hour
    exact Int.tdiv_eq_ediv hd0 (by norm_num)
  have hr : Int.tmod d Hour = d % 3600000000000 := by
    unfold Hour
    exact Int.tmod_eq_emod hd0 (by norm_num)
  obtain ⟨m1, a1, hx, hxu, hxl⟩ := ofInt_bounds (d / 3600000000000) 22 (by omega)
    (by norm_num; omega) (by norm_num)
  obtain ⟨m2, a2, hz, hzu, _⟩ := ofInt_bounds (d % 3600000000000) 42 (by omega)
    (by norm_num; omega) (by norm_num)
  have hc : F64.ofInt 3600000000000 = F64.fin false 7372800000000000 (-11) := by decide!
  obtain ⟨m3, a3, hy, hyu⟩ := div_hour_bounds m2 a2 hzu
  obtain ⟨m, a, hs, hl, hu⟩ := add_bounds m1 a1 m3 a3 22 1 23 (hxl (by omega)) hxu hyu
    (by norm_num) (by norm_num)
  refine ⟨m, a, ?_, hl, hu⟩
  rw [Duration.Hours, hq, hr, hx, hz, hc, hy, hs]

/-- Truncation of a number in `[1, 2^p]` is the integer quotient and lies in `[1, 2^p]`. -/
theorem toInt_bounds (m a p : Nat) (hl : 2 ^ a ≤ m) (hu : m ≤ 2 ^ p * 2 ^ a) (hp : p ≤ 62) :
    F64.toInt (F64.fin false m (-(a : Int))) = ((m / 2 ^ a : Nat) : Int) ∧
      1 ≤ m / 2 ^ a ∧ m / 2 ^ a ≤ 2 ^ p := by
  have hpos : 0 < 2 ^ a := by positivity
  have h1 : 1 ≤ m / 2 ^ a := (Nat.le_div_iff_mul_le hpos).mpr (by simpa using hl)
  have h2 : m / 2 ^ a ≤ 2 ^ p := by
    calc m / 2 ^ a ≤ 2 ^ p * 2 ^ a / 2 ^ a := Nat.div_le_div_right hu
      _ = 2 ^ p := Nat.mul_div_cancel _ hpos
  have h3 : 2 ^ p ≤ 2 ^ 62 := Nat.pow_le_pow_right (by norm_num) hp
  refine ⟨?_, h1, h2⟩
  have e1 : (-(a : Int)).toNat = 0 := by omega
  have hr : (-2 ^ 63 : Int) ≤ ((m / 2 ^ a : Nat) : Int) ∧ ((m / 2 ^ a : Nat) : Int) < 2 ^ 63 := by
    have : ((m / 2 ^ a : Nat) : Int) ≤ ((2 ^ 62 : Nat) : Int) := by
      exact_mod_cast le_trans h2 h3
    constructor
    · have : (0 : Int) ≤ ((m / 2 ^ a : Nat) : Int) := Int.ofNat_nonneg _
      omega
    · norm_num at this ⊢
      omega
  simp only [F64.toInt, e1, neg_neg, Int.toNat_ofNat, pow_zero, mul_one, F64.signed,
    Bool.false_eq_true, if_false]
  rw [if_pos hr]

/-- A number that is at least `1` does not pass the guard `math.Abs(x) < eps`. -/
theorem not_lt_eps (m a : Nat) (hl : 2 ^ a ≤ m) :
    F64.lt (F64.abs (F64.fin false m (-(a : Int)))) eps = false := by
  have he : eps = F64.fin false 6044629098073146 (-79) := by decide!
  obtain ⟨B, hB, hB1, hB2⟩ : ∃ B : Nat, min (-(a : Int)) (-79) = -(B : Int) ∧
      a ≤ B ∧ 79 ≤ B := by
    refine ⟨max a 79, ?_, le_max_left _ _, le_max_right _ _⟩
    rcases le_total a 79 with h | h
    · rw [max_eq_right h, min_eq_right (by omega)]
      rfl
    · rw [max_eq_left h, min_eq_left (by omega)]
  have e1 : (-(a : Int) - -(B : Int)).toNat = B - a := by omega
  have e2 : ((-79 : Int) - -(B : Int)).toNat = B - 79 := by omega
  have h1 : 2 ^ B ≤ m * 2 ^ (B - a) := by
    rw [two_pow_split a B hB1]
    exact Nat.mul_le_mul_right _ hl
  have h2 : 6044629098073146 * 2 ^ (B - 79) ≤ 2 ^ B := by
    rw [two_pow_split 79 B hB2]
    exact Nat.mul_le_mul_right _ (by norm_num)
  have h3 : ¬ (((m * 2 ^ (B - a) : Nat) : Int) < ((6044629098073146 * 2 ^ (B - 79) : Nat) : Int)) := by
    have : 6044629098073146 * 2 ^ (B - 79) ≤ m * 2 ^ (B - a) := le_trans h2 h1
    omega
  rw [he]
  simp only [F64.abs, F64.lt, hB, e1, e2, F64.signed, Bool.false_eq_true, if_false]
  exact decide_eq_false h3

/-- Reduction to 64 bits leaves the integers of the `int` range unchanged. -/
theorem wrap64_of_range (i : Int) (h1 : -2 ^ 63 ≤ i) (h2 : i < 2 ^ 63) : wrap64 i = i := by
  unfold wrap64
  norm_num at h1 h2 ⊢
  omega

/-- Below the overflow threshold `pack` keeps the value `m * 2^e`. -/
theorem pack_toRat (neg : Bool) (m : Nat) (e : Int) (he : e < 971) :
    F64.toRat (F64.pack neg m e) = some ((F64.signed neg m : ℚ) * (2 : ℚ) ^ e) := by
  unfold F64.pack
  by_cases hm : m = 2 ^ 53
  · have h1 : ¬ (e + 1 > 971) := by omega
    simp only [hm, if_true, h1, if_false, F64.toRat]
    congr 1
    rw [zpow_add_one₀ (by norm_num : (2 : ℚ) ≠ 0)]
    cases neg <;> simp [F64.signed] <;> ring
  · have h1 : ¬ (e > 971) := by omega
    simp only [hm, if_false, h1, F64.toRat]

/-- An integer rounds to itself. -/
theorem roundEven_one (N : Nat) : F64.roundEven N (1 * 2 ^ 0) = N := by
  apply le_antisymm
  · exact roundEven_le N _ N (by norm_num) (by norm_num)
  · exact roundEven_ge N _ N (by norm_num) (by norm_num)

/-- The conversion `float64(q)` is exact for `0 ≤ q < 2^53`. -/
theorem ofInt_exact (q : Int) (h0 : 0 ≤ q) (h : q < 2 ^ 53) :
    F64.toRat (F64.ofInt q) = some (q : ℚ) := by
  have hneg : ¬ q < 0 := by omega
  by_cases hq : q = 0
  · subst hq
    simp [F64.ofInt, F64.round, F64.toRat, F64.signed]
  · obtain ⟨n, rfl⟩ := Int.eq_ofNat_of_zero_le h0
    have hn : n ≠ 0 := by
      intro h1
      apply hq
      simp [h1]
    have hn53 : n < 2 ^ 53 := by exact_mod_cast h
    have hb1 : bitLen 1 = 1 := by decide
    have hb : bitLen n ≤ 53 := by
      have h1 := two_pow_bitLen_le n hn
      have h2 : 2 ^ (bitLen n - 1) < 2 ^ 53 := lt_of_le_of_lt h1 hn53
      have h3 := (Nat.pow_lt_pow_iff_right (by norm_num : 1 < 2)).mp h2
      omega
    have hfl : F64.floorLog2 n 1 ≤ 52 := by
      unfold F64.floorLog2
      simp only [hb1]
      split_ifs <;> omega
    obtain ⟨a, ha⟩ : ∃ a : Nat, max (F64.floorLog2 n 1 - 52) (-1074) = -(a : Int) := by
      refine ⟨(-(max (F64.floorLog2 n 1 - 52) (-1074))).toNat, ?_⟩
      have : max (F64.floorLog2 n 1 - 52) (-1074) ≤ 0 := by
        apply max_le <;> omega
      omega
    have e1 : (-(a : Int)).toNat = 0 := by omega
    have hround : F64.ofInt (n : Int) = F64.pack false (n * 2 ^ a) (-(a : Int)) := by
      simp only [F64.ofInt, hneg, decide_False, Int.natAbs_ofNat, F64.round, hn, if_false, ha,
        neg_neg, Int.toNat_ofNat, e1]
      rw [roundEven_one]
    rw [hround, pack_toRat _ _ _ (by omega)]
    congr 1
    simp only [F64.signed, Bool.false_eq_true, if_false]
    rw [zpow_neg, zpow_natCast]
    push_cast
    field_simp

/-- Scaling by a power of two, as a rational number. -/
theorem signed_scale_cast (a : Bool) (m : Nat) (e1 e : Int) (h : e ≤ e1) :
    ((F64.signed a (m * 2 ^ (e1 - e).toNat) : Int) : ℚ) * (2 : ℚ) ^ e
      = ((F64.signed a m : Int) : ℚ) * (2 : ℚ) ^ e1 := by
  have h2 : (2 : ℚ) ≠ 0 := by norm_num
  have hk : ((2 : ℚ) ^ (e1 - e).toNat) = (2 : ℚ) ^ (e1 - e) := by
    rw [← zpow_natCast]
    congr 1
    omega
  have hs : ((F64.signed a (m * 2 ^ (e1 - e).toNat) : Int) : ℚ)
      = ((F64.signed a m : Int) : ℚ) * (2 : ℚ) ^ (e1 - e).toNat := by
    cases a <;> simp [F64.signed]
  rw [hs, hk, mul_assoc, ← zpow_add₀ h2]
  congr 2
  omega

/-- The comparison of two finite numbers is the comparison of their values. -/
theorem lt_fin_iff (a b : Bool) (m1 m2 : Nat) (e1 e2 : Int) :
    F64.lt (F64.fin a m1 e1) (F64.fin b m2 e2) = true ↔
      ((F64.signed a m1 : Int) : ℚ) * (2 : ℚ) ^ e1 < ((F64.signed b m2 : Int) : ℚ) * (2 : ℚ) ^ e2 := by
  have hpos : (0 : ℚ) < (2 : ℚ) ^ (min e1 e2) := by positivity
  rw [← signed_scale_cast a m1 e1 (min e1 e2) (min_le_left _ _),
    ← signed_scale_cast b m2 e2 (min e1 e2) (min_le_right _ _)]
  rw [mul_lt_mul_right hpos]
  simp only [F64.lt, decide_eq_true_eq]
  exact Int.cast_lt.symm

/-- Truncation gives `0` exactly for the finite numbers of magnitude below `1`. -/
theorem toInt_eq_zero_iff (neg : Bool) (m : Nat) (e : Int) :
    F64.toInt (F64.fin neg m e) = 0 ↔ (m : ℚ) * (2 : ℚ) ^ e < 1 := by
  have hpos : 0 < 2 ^ (-e).toNat := by positivity
  have h1 : F64.toInt (F64.fin neg m e) = 0 ↔ m * 2 ^ e.toNat / 2 ^ (-e).toNat = 0 := by
    simp only [F64.toInt]
    generalize m * 2 ^ e.toNat / 2 ^ (-e).toNat = t
    constructor
    · intro h
      split_ifs at h with hr
      · cases neg <;> simp only [F64.signed, Bool.false_eq_true, if_false, if_true] at h <;> omega
      · norm_num at h
    · intro h
      rw [h]
      cases neg <;> simp [F64.signed]
  rw [h1, Nat.div_eq_zero_iff hpos]
  have h2 : (2 : ℚ) ≠ 0 := by norm_num
  have hq : (m : ℚ) * (2 : ℚ) ^ e
      = ((m * 2 ^ e.toNat : Nat) : ℚ) / ((2 ^ (-e).toNat : Nat) : ℚ) := by
    push_cast
    rw [← zpow_natCast, ← zpow_natCast, mul_div_assoc, ← zpow_sub₀ h2]
    congr 2
    omega
  rw [hq, div_lt_one (by positivity)]
  exact Nat.cast_lt.symm

/-- Case analysis of `Swimming.meanSpeed` on the value of `Duration.Hours`. -/
theorem swimming_meanSpeed_cases (s : Swimming) :
    (Swimming.meanSpeed s = none ↔
      (F64.le eps (F64.abs (Duration.Hours s.Training.Duration)) = true ∧
        F64.lt (F64.abs (Duration.Hours s.Training.Duration)) (F64.ofInt 1) = true)) ∧
    (F64.le (F64.ofInt 1) (F64.abs (Duration.Hours s.Training.Duration)) = true →
      F64.toInt (Duration.Hours s.Training.Duration) ≠ 0 ∧
      Swimming.meanSpeed s =
        some (F64.ofInt (intDiv (intDiv (wrap64 (s.LengthPool * s.CountPool)) 1000)
          (F64.toInt (Duration.Hours s.Training.Duration))))) := by
  have he : eps = F64.fin false 6044629098073146 (-79) := by decide!
  have h1 : F64.ofInt 1 = F64.fin false 4503599627370496 (-52) := by decide!
  simp only [Swimming.meanSpeed, MInKm]
  generalize Duration.Hours s.Training.Duration = h
  rw [he, h1]
  cases h with
  | nan =>
    simp [F64.abs, F64.lt, F64.le, F64.toInt]
  | inf b =>
    simp [F64.abs, F64.lt, F64.le, F64.toInt]
  | fin neg m e =>
    have hz := toInt_eq_zero_iff neg m e
    have hg := lt_fin_iff false false m 6044629098073146 e (-79)
    have ho := lt_fin_iff false false m 4503599627370496 e (-52)
    have ho2 : ((F64.signed false 4503599627370496 : Int) : ℚ) * (2 : ℚ) ^ (-52 : Int) = 1 := by
      norm_num [F64.signed]
    have hg2 : ((F64.signed false 6044629098073146 : Int) : ℚ) * (2 : ℚ) ^ (-79 : Int) < 1 := by
      norm_num [F64.signed]
    have hm : ((F64.signed false m : Int) : ℚ) = (m : ℚ) := by simp [F64.signed]
    rw [ho2, hm] at ho
    rw [hm] at hg
    simp only [F64.abs, F64.le]
    by_cases hgd : F64.lt (F64.fin false m e) (F64.fin false 6044629098073146 (-79)) = true
    · have hlt1 : (m : ℚ) * (2 : ℚ) ^ e < 1 := lt_trans (hg.mp hgd) hg2
      have hone : F64.lt (F64.fin false m e) (F64.fin false 4503599627370496 (-52)) = true :=
        ho.mpr hlt1
      simp [hgd, hone]
    · have hgd2 : F64.lt (F64.fin false m e) (F64.fin false 6044629098073146 (-79)) = false := by
        simpa using hgd
      by_cases h0 : F64.toInt (F64.fin neg m e) = 0
      · have hone : F64.lt (F64.fin false m e) (F64.fin false 4503599627370496 (-52)) = true :=
          ho.mpr (hz.mp h0)
        simp [hgd2, hone, h0]
      · have hone : F64.lt (F64.fin false m e) (F64.fin false 4503599627370496 (-52)) = false := by
          by_contra hc
          have hc2 : F64.lt (F64.fin false m e) (F64.fin false 4503599627370496 (-52)) = true := by
            simpa using hc
          exact h0 (hz.mpr (ho.mp hc2))
        simp [hgd2, hone, h0]

/-- A power of two with an integer exponent, split into its natural-number
numerator and denominator. -/
theorem two_zpow_split (k : Int) :
    ((2 ^ k.toNat : Nat) : ℚ) = (2 : ℚ) ^ k * ((2 ^ (-k).toNat : Nat) : ℚ) := by
  have h2 : (2 : ℚ) ≠ 0 := by norm_num
  push_cast
  rw [← zpow_natCast, ← zpow_natCast, ← zpow_add₀ h2]
  congr 1
  omega

/-- The scaled comparison used by the rounding functions, as a comparison of
rational numbers. -/
theorem scaled_le_iff (n d : Nat) (k : Int) (hd : 0 < d) :
    d * 2 ^ k.toNat ≤ n * 2 ^ (-k).toNat ↔ (2 : ℚ) ^ k ≤ (n : ℚ) / (d : ℚ) := by
  have hd' : (0 : ℚ) < (d : ℚ) := by exact_mod_cast hd
  have hp : (0 : ℚ) < ((2 ^ (-k).toNat : Nat) : ℚ) := by positivity
  rw [le_div_iff₀ hd', ← Nat.cast_le (α := ℚ)]
  push_cast
  have h := two_zpow_split k
  push_cast at h
  rw [h]
  constructor
  · intro h1
    have h2 : (2 : ℚ) ^ k * (d : ℚ) * (2 : ℚ) ^ (-k).toNat ≤ (n : ℚ) * (2 : ℚ) ^ (-k).toNat := by
      calc (2 : ℚ) ^ k * (d : ℚ) * (2 : ℚ) ^ (-k).toNat
          = (d : ℚ) * ((2 : ℚ) ^ k * (2 : ℚ) ^ (-k).toNat) := by ring
        _ ≤ (n : ℚ) * (2 : ℚ) ^ (-k).toNat := h1
    exact le_of_mul_le_mul_right h2 (by positivity)
  · intro h1
    calc (d : ℚ) * ((2 : ℚ) ^ k * (2 : ℚ) ^ (-k).toNat)
        = (2 : ℚ) ^ k * (d : ℚ) * (2 : ℚ) ^ (-k).toNat := by ring
      _ ≤ (n : ℚ) * (2 : ℚ) ^ (-k).toNat := mul_le_mul_of_nonneg_right h1 (by positivity)

/-- The bit length of a non-zero number brackets it between powers of two, as
rational numbers. -/
theorem bitLen_bracket (n : Nat) (hn : 0 < n) :
    (2 : ℚ) ^ ((bitLen n : Int) - 1) ≤ (n : ℚ) ∧ (n : ℚ) < (2 : ℚ) ^ (bitLen n : Int) := by
  have h1 := two_pow_bitLen_le n (by omega)
  have h2 := lt_two_pow_bitLen n
  have hb : 1 ≤ bitLen n := by
    by_contra hc
    have : bitLen n = 0 := by omega
    rw [this] at h2
    simp at h2
    omega
  constructor
  · have : ((bitLen n : Int) - 1) = ((bitLen n - 1 : Nat) : Int) := by omega
    rw [this, zpow_natCast]
    exact_mod_cast h1
  · rw [zpow_natCast]
    exact_mod_cast h2

/-- The exponent computed by `floorLog2` is the integer part of the binary
logarithm of `n / d`. -/
theorem floorLog2_spec (n d : Nat) (hn : 0 < n) (hd : 0 < d) :
    (2 : ℚ) ^ F64.floorLog2 n d ≤ (n : ℚ) / (d : ℚ) ∧
      (n : ℚ) / (d : ℚ) < (2 : ℚ) ^ (F64.floorLog2 n d + 1) := by
  have h2 : (2 : ℚ) ≠ 0 := by norm_num
  obtain ⟨hn1, hn2⟩ := bitLen_bracket n hn
  obtain ⟨hd1, hd2⟩ := bitLen_bracket d hd
  have hd' : (0 : ℚ) < (d : ℚ) := by exact_mod_cast hd
  have hn' : (0 : ℚ) < (n : ℚ) := by exact_mod_cast hn
  have hlow : (2 : ℚ) ^ ((bitLen n : Int) - (bitLen d : Int) - 1) ≤ (n : ℚ) / (d : ℚ) := by
    rw [le_div_iff₀ hd']
    calc (2 : ℚ) ^ ((bitLen n : Int) - (bitLen d : Int) - 1) * (d : ℚ)
        ≤ (2 : ℚ) ^ ((bitLen n : Int) - (bitLen d : Int) - 1) * (2 : ℚ) ^ (bitLen d : Int) :=
          mul_le_mul_of_nonneg_left (le_of_lt hd2) (by positivity)
      _ = (2 : ℚ) ^ ((bitLen n : Int) - 1) := by
          rw [← zpow_add₀ h2]
          congr 1
          ring
      _ ≤ (n : ℚ) := hn1
  have hupp : (n : ℚ) / (d : ℚ) < (2 : ℚ) ^ ((bitLen n : Int) - (bitLen d : Int) + 1) := by
    rw [div_lt_iff₀ hd']
    calc (n : ℚ) < (2 : ℚ) ^ (bitLen n : Int) := hn2
      _ = (2 : ℚ) ^ ((bitLen n : Int) - (bitLen d : Int) + 1) * (2 : ℚ) ^ ((bitLen d : Int) - 1) := by
          rw [← zpow_add₀ h2]
          congr 1
          ring
      _ ≤ (2 : ℚ) ^ ((bitLen n : Int) - (bitLen d : Int) + 1) * (d : ℚ) :=
          mul_le_mul_of_nonneg_left hd1 (by positivity)
  unfold F64.floorLog2
  simp only
  split_ifs with h
  · exact ⟨(scaled_le_iff n d _ hd).mp h, hupp⟩
  · refine ⟨hlow, ?_⟩
    have h3 := (scaled_le_iff n d ((bitLen n : Int) - (bitLen d : Int)) hd).not.mp h
    rw [sub_add_cancel]
    exact lt_of_not_le h3

/-- Uniqueness of the integer part of the binary logarithm. -/
theorem floorLog2_unique (n d : Nat) (f : Int) (hn : 0 < n) (hd : 0 < d)
    (h1 : (2 : ℚ) ^ f ≤ (n : ℚ) / (d : ℚ)) (h2 : (n : ℚ) / (d : ℚ) < (2 : ℚ) ^ (f + 1)) :
    F64.floorLog2 n d = f := by
  obtain ⟨g1, g2⟩ := floorLog2_spec n d hn hd
  have a1 : (2 : ℚ) ^ f < (2 : ℚ) ^ (F64.floorLog2 n d + 1) := lt_of_le_of_lt h1 g2
  have a2 : (2 : ℚ) ^ F64.floorLog2 n d < (2 : ℚ) ^ (f + 1) := lt_of_le_of_lt g1 h2
  have b1 := (zpow_lt_zpow_iff_right₀ (by norm_num : (1 : ℚ) < 2)).mp a1
  have b2 := (zpow_lt_zpow_iff_right₀ (by norm_num : (1 : ℚ) < 2)).mp a2
  omega

/-- The quotient that `round` hands to `roundEven`, as a rational number. -/
theorem scaled_ratio (n d : Nat) (e : Int) (hd : 0 < d) :
    ((n * 2 ^ (-e).toNat : Nat) : ℚ) / ((d * 2 ^ e.toNat : Nat) : ℚ)
      = (n : ℚ) / (d : ℚ) * (2 : ℚ) ^ (-e) := by
  have hd' : (d : ℚ) ≠ 0 := by
    have : (0 : ℚ) < (d : ℚ) := by exact_mod_cast hd
    exact ne_of_gt this
  have h := two_zpow_split (-e)
  rw [neg_neg] at h
  have hp : ((2 ^ e.toNat : Nat) : ℚ) ≠ 0 := by positivity
  rw [Nat.cast_mul, Nat.cast_mul, h]
  field_simp
  ring

/-- Rounding to an integer respects integer lower bounds given as rationals. -/
theorem roundEven_ge_q (N D k : Nat) (hD : 0 < D) (h : (k : ℚ) ≤ (N : ℚ) / (D : ℚ)) :
    k ≤ F64.roundEven N D := by
  apply roundEven_ge N D k hD
  have hD' : (0 : ℚ) < (D : ℚ) := by exact_mod_cast hD
  rw [le_div_iff₀ hD'] at h
  exact_mod_cast h

/-- Rounding to an integer respects integer upper bounds given as rationals. -/
theorem roundEven_le_q (N D k : Nat) (hD : 0 < D) (h : (N : ℚ) / (D : ℚ) ≤ (k : ℚ)) :
    F64.roundEven N D ≤ k := by
  apply roundEven_le N D k hD
  have hD' : (0 : ℚ) < (D : ℚ) := by exact_mod_cast hD
  rw [div_le_iff₀ hD'] at h
  exact_mod_cast h

/-- The shape of a rounded quotient: the exponent is at least `-1074`, the
significand is at most `2^53`, and it is at least `2^52` when the exponent is
not forced up to `-1074`. -/
theorem round_shape (neg : Bool) (n d : Nat) (hn : 0 < n) (hd : 0 < d) :
    ∃ (r : Nat) (e : Int), F64.round neg n d = F64.pack neg r e ∧
      e = max (F64.floorLog2 n d - 52) (-1074) ∧
      r = F64.roundEven (n * 2 ^ (-e).toNat) (d * 2 ^ e.toNat) ∧
      r ≤ 2 ^ 53 ∧ (-1074 ≤ F64.floorLog2 n d - 52 → 2 ^ 52 ≤ r) := by
  have h2 : (2 : ℚ) ≠ 0 := by norm_num
  obtain ⟨g1, g2⟩ := floorLog2_spec n d hn hd
  have hD : 0 < d * 2 ^ (max (F64.floorLog2 n d - 52) (-1074)).toNat := by positivity
  refine ⟨_, _, ?_, rfl, rfl, ?_, ?_⟩
  · have hn0 : n ≠ 0 := by omega
    simp only [F64.round, hn0, if_false]
  · apply roundEven_le_q _ _ _ hD
    rw [scaled_ratio n d _ hd]
    have he : F64.floorLog2 n d - 52 ≤ max (F64.floorLog2 n d - 52) (-1074) := le_max_left _ _
    calc (n : ℚ) / (d : ℚ) * (2 : ℚ) ^ (-(max (F64.floorLog2 n d - 52) (-1074)))
        ≤ (2 : ℚ) ^ (F64.floorLog2 n d + 1)
            * (2 : ℚ) ^ (-(max (F64.floorLog2 n d - 52) (-1074))) :=
          mul_le_mul_of_nonneg_right (le_of_lt g2) (by positivity)
      _ = (2 : ℚ) ^ (F64.floorLog2 n d + 1 - max (F64.floorLog2 n d - 52) (-1074)) := by
          rw [← zpow_add₀ h2]
          congr 1
      _ ≤ (2 : ℚ) ^ (53 : Int) := zpow_le_zpow_right₀ (by norm_num) (by omega)
      _ = ((2 ^ 53 : Nat) : ℚ) := by norm_num
  · intro he
    have he2 : max (F64.floorLog2 n d - 52) (-1074) = F64.floorLog2 n d - 52 := max_eq_left he
    apply roundEven_ge_q _ _ _ hD
    rw [scaled_ratio n d _ hd, he2]
    calc ((2 ^ 52 : Nat) : ℚ) = (2 : ℚ) ^ (52 : Int) := by norm_num
      _ = (2 : ℚ) ^ F64.floorLog2 n d * (2 : ℚ) ^ (-(F64.floorLog2 n d - 52)) := by
          rw [← zpow_add₀ h2]
          congr 1
          ring
      _ ≤ (n : ℚ) / (d : ℚ) * (2 : ℚ) ^ (-(F64.floorLog2 n d - 52)) :=
          mul_le_mul_of_nonneg_right g1 (by positivity)

/-- The result of `pack` on a significand in `[2^52, 2^53]`: infinity or a
normal number of the same value. -/
theorem pack_normal (neg : Bool) (r : Nat) (e : Int) (h1 : 2 ^ 52 ≤ r) (h2 : r ≤ 2 ^ 53)
    (he : -1074 ≤ e) :
    (F64.pack neg r e = F64.inf neg ∧ 971 ≤ e) ∨
    ∃ (m : Nat) (e' : Int), F64.pack neg r e = F64.fin neg m e' ∧ 2 ^ 52 ≤ m ∧ m < 2 ^ 53 ∧
      -1074 ≤ e' ∧ e' ≤ 971 ∧ e ≤ e' ∧ e' ≤ e + 1 ∧ (m : ℚ) * (2 : ℚ) ^ e' = (r : ℚ) * (2 : ℚ) ^ e := by
  unfold F64.pack
  by_cases hc : r = 2 ^ 53
  · by_cases ho : e + 1 > 971
    · left
      simp only [hc, if_true, ho]
      exact ⟨trivial, by omega⟩
    · right
      refine ⟨2 ^ 52, e + 1, ?_, le_refl _, by norm_num, by omega, by omega, by omega, le_refl _, ?_⟩
      · simp only [hc, if_true, ho, if_false]
      · rw [hc, zpow_add_one₀ (by norm_num : (2 : ℚ) ≠ 0)]
        push_cast
        ring
  · by_cases ho : e > 971
    · left
      simp only [hc, if_false, ho, if_true]
      exact ⟨trivial, by omega⟩
    · right
      refine ⟨r, e, ?_, h1, by omega, he, by omega, le_refl _, by omega, rfl⟩
      simp only [hc, if_false, ho]

/-- A quotient of at least `2^(-1022)` rounds to infinity or to a normal
number. -/
theorem round_normal (neg : Bool) (n d : Nat) (hn : 0 < n) (hd : 0 < d)
    (h : (2 : ℚ) ^ (-1022 : Int) ≤ (n : ℚ) / (d : ℚ)) :
    F64.round neg n d = F64.inf neg ∨
    ∃ (m : Nat) (e : Int), F64.round neg n d = F64.fin neg m e ∧ 2 ^ 52 ≤ m ∧ m < 2 ^ 53 ∧
      -1074 ≤ e ∧ e ≤ 971 := by
  obtain ⟨r, e, hr, he, _, hr2, hr3⟩ := round_shape neg n d hn hd
  obtain ⟨_, g2⟩ := floorLog2_spec n d hn hd
  have hfl : -1022 < F64.floorLog2 n d + 1 :=
    (zpow_lt_zpow_iff_right₀ (by norm_num : (1 : ℚ) < 2)).mp (lt_of_le_of_lt h g2)
  have he1 : -1074 ≤ e := by
    rw [he]
    exact le_max_right _ _
  rcases pack_normal neg r e (hr3 (by omega)) hr2 he1 with h1 | ⟨m, e', h1, h2, h3, h4, h5, _⟩
  · left
    rw [hr, h1.1]
  · right
    exact ⟨m, e', by rw [hr, h1], h2, h3, h4, h5⟩

/-- The conversion of a non-zero integer is not zero. -/
theorem ofInt_ne_zero (q : Int) (hq : q ≠ 0) (s : Bool) : F64.ofInt q ≠ F64.fin s 0 (-1074) := by
  have hn : 0 < q.natAbs := Int.natAbs_pos.mpr hq
  have h1 : (2 : ℚ) ^ (-1022 : Int) ≤ (q.natAbs : ℚ) / ((1 : Nat) : ℚ) := by
    have : (1 : ℚ) ≤ (q.natAbs : ℚ) := by exact_mod_cast hn
    calc (2 : ℚ) ^ (-1022 : Int) ≤ 1 := zpow_le_one_of_nonpos₀ (by norm_num) (by norm_num)
      _ ≤ (q.natAbs : ℚ) / ((1 : Nat) : ℚ) := by simpa using this
  unfold F64.ofInt
  rcases round_normal (decide (q < 0)) q.natAbs 1 hn (by norm_num) h1 with h | ⟨m, e, h, h2, _⟩
  · rw [h]
    intro hc
    cases hc
  · rw [h]
    intro hc
    injection hc with _ hm _
    omega

/-- The result of `wrap64` lies in the range of `int`. -/
theorem wrap64_range (i : Int) : -2 ^ 63 ≤ wrap64 i ∧ wrap64 i < 2 ^ 63 := by
  unfold wrap64
  norm_num
  omega

/-- The result of `int(x)` lies in the range of `int`. -/
theorem toInt_range (x : F64) : -2 ^ 63 ≤ F64.toInt x ∧ F64.toInt x < 2 ^ 63 := by
  cases x with
  | nan => simp [F64.toInt]
  | inf b => simp [F64.toInt]
  | fin neg m e =>
    simp only [F64.toInt]
    split_ifs with h
    · exact h
    · norm_num

/-- A number whose truncation is at least `1` has magnitude at least `1`. -/
theorem le_one_of_toInt_pos (h : F64) (hn : 1 ≤ F64.toInt h) :
    F64.le (F64.ofInt 1) (F64.abs h) = true := by
  have h1 : F64.ofInt 1 = F64.fin false 4503599627370496 (-52) := by decide!
  rw [h1]
  cases h with
  | nan => simp [F64.toInt] at hn
  | inf b => simp [F64.toInt] at hn
  | fin neg m e =>
    have hz := toInt_eq_zero_iff neg m e
    have ho := lt_fin_iff false false m 4503599627370496 e (-52)
    have ho2 : ((F64.signed false 4503599627370496 : Int) : ℚ) * (2 : ℚ) ^ (-52 : Int) = 1 := by
      norm_num [F64.signed]
    have hm : ((F64.signed false m : Int) : ℚ) = (m : ℚ) := by simp [F64.signed]
    rw [ho2, hm] at ho
    have hne : F64.toInt (F64.fin neg m e) ≠ 0 := by omega
    have hlt : F64.lt (F64.fin false m e) (F64.fin false 4503599627370496 (-52)) = false := by
      by_contra hc
      have hc2 : F64.lt (F64.fin false m e) (F64.fin false 4503599627370496 (-52)) = true := by
        simpa using hc
      exact hne (hz.mpr (ho.mp hc2))
    simp [F64.abs, F64.le, hlt]

/-- The remainder of a division, as a rational number. -/
theorem mod_cast_eq (N D : Nat) (hD : 0 < D) :
    ((N % D : Nat) : ℚ) = ((N : ℚ) / (D : ℚ) - ((N / D : Nat) : ℚ)) * (D : ℚ) := by
  have hD' : (D : ℚ) ≠ 0 := by
    have : (0 : ℚ) < (D : ℚ) := by exact_mod_cast hD
    exact ne_of_gt this
  have h := Nat.div_add_mod N D
  have h2 : (N : ℚ) = (D : ℚ) * ((N / D : Nat) : ℚ) + ((N % D : Nat) : ℚ) := by
    exact_mod_cast h.symm
  field_simp
  linarith

/-- The integer that `roundEven` returns depends only on the quotient `N / D`
as a rational number. -/
theorem roundEven_congr (N D N' D' : Nat) (hD : 0 < D) (hD' : 0 < D')
    (h : (N : ℚ) / (D : ℚ) = (N' : ℚ) / (D' : ℚ)) :
    F64.roundEven N D = F64.roundEven N' D' := by
  have hq : N / D = N' / D' := by
    rw [← Nat.floor_div_eq_div (α := ℚ) N D, ← Nat.floor_div_eq_div (α := ℚ) N' D', h]
  have hDq : (0 : ℚ) < (D : ℚ) := by exact_mod_cast hD
  have hDq' : (0 : ℚ) < (D' : ℚ) := by exact_mod_cast hD'
  have m1 := mod_cast_eq N D hD
  have m2 := mod_cast_eq N' D' hD'
  rw [← h, ← hq] at m2
  set t : ℚ := (N : ℚ) / (D : ℚ) - ((N / D : Nat) : ℚ) with ht
  have c1 : 2 * (N % D) < D ↔ 2 * t < 1 := by
    rw [← Nat.cast_lt (α := ℚ)]
    push_cast
    rw [m1]
    constructor
    · intro h1
      by_contra hc
      push_neg at hc
      nlinarith
    · intro h1
      nlinarith
  have c1' : 2 * (N' % D') < D' ↔ 2 * t < 1 := by
    rw [← Nat.cast_lt (α := ℚ)]
    push_cast
    rw [m2]
    constructor
    · intro h1
      by_contra hc
      push_neg at hc
      nlinarith
    · intro h1
      nlinarith
  have c2 : D < 2 * (N % D) ↔ 1 < 2 * t := by
    rw [← Nat.cast_lt (α := ℚ)]
    push_cast
    rw [m1]
    constructor
    · intro h1
      by_contra hc
      push_neg at hc
      nlinarith
    · intro h1
      nlinarith
  have c2' : D' < 2 * (N' % D') ↔ 1 < 2 * t := by
    rw [← Nat.cast_lt (α := ℚ)]
    push_cast
    rw [m2]
    constructor
    · intro h1
      by_contra hc
      push_neg at hc
      nlinarith
    · intro h1
      nlinarith
  unfold F64.roundEven
  simp only [c1, c1', c2, c2', hq]

/-- A quotient that is an integer rounds to that integer. -/
theorem roundEven_exact (N D m : Nat) (hD : 0 < D) (h : (N : ℚ) / (D : ℚ) = (m : ℚ)) :
    F64.roundEven N D = m :=
  le_antisymm (roundEven_le_q N D m hD (le_of_eq h)) (roundEven_ge_q N D m hD (le_of_eq h.symm))

/-- Below the overflow threshold `pack` returns a finite number of the value
`r * 2^e`, whose significand vanishes only if `r` does. -/
theorem pack_fin (neg : Bool) (r : Nat) (e : Int) (he : e < 971) :
    ∃ (m : Nat) (e' : Int), F64.pack neg r e = F64.fin neg m e' ∧
      (m : ℚ) * (2 : ℚ) ^ e' = (r : ℚ) * (2 : ℚ) ^ e ∧ (r ≠ 0 → m ≠ 0) ∧
      e ≤ e' ∧ e' ≤ e + 1 ∧ (r ≤ 2 ^ 53 → m < 2 ^ 53) ∧ (2 ^ 52 ≤ r → 2 ^ 52 ≤ m) := by
  unfold F64.pack
  by_cases hc : r = 2 ^ 53
  · have ho : ¬ (e + 1 > 971) := by omega
    refine ⟨2 ^ 52, e + 1, ?_, ?_, fun _ => by norm_num, by omega, le_refl _,
      fun _ => by norm_num, fun _ => le_refl _⟩
    · simp only [hc, if_true, ho, if_false]
    · rw [hc, zpow_add_one₀ (by norm_num : (2 : ℚ) ≠ 0)]
      push_cast
      ring
  · have ho : ¬ (e > 971) := by omega
    refine ⟨r, e, ?_, rfl, fun h => h, le_refl _, by omega, fun h => by omega, fun h => h⟩
    simp only [hc, if_false, ho]

/-- A number that is representable with a canonical significand and exponent
rounds to itself. -/
theorem round_exact (neg : Bool) (n d m : Nat) (e : Int) (hn : 0 < n) (hd : 0 < d)
    (hc : (m < 2 ^ 52 ∧ e = -1074) ∨ (2 ^ 52 ≤ m ∧ m < 2 ^ 53 ∧ -1074 ≤ e ∧ e ≤ 971))
    (h : (n : ℚ) / (d : ℚ) = (m : ℚ) * (2 : ℚ) ^ e) :
    F64.round neg n d = F64.fin neg m e := by
  have h2 : (2 : ℚ) ≠ 0 := by norm_num
  obtain ⟨r, e0, hr, he0, hr1, _, _⟩ := round_shape neg n d hn hd
  obtain ⟨g1, g2⟩ := floorLog2_spec n d hn hd
  have hee : e0 = e := by
    rcases hc with ⟨hm, he⟩ | ⟨hm1, hm2, he1, he2⟩
    · have hlt : (n : ℚ) / (d : ℚ) < (2 : ℚ) ^ (-1022 : Int) := by
        rw [h, he]
        calc (m : ℚ) * (2 : ℚ) ^ (-1074 : Int) < ((2 ^ 52 : Nat) : ℚ) * (2 : ℚ) ^ (-1074 : Int) := by
              apply mul_lt_mul_of_pos_right _ (by positivity)
              exact_mod_cast hm
          _ = (2 : ℚ) ^ (52 : Int) * (2 : ℚ) ^ (-1074 : Int) := by norm_num
          _ = (2 : ℚ) ^ (-1022 : Int) := by
              rw [← zpow_add₀ h2]
              norm_num
      have hfl := (zpow_lt_zpow_iff_right₀ (by norm_num : (1 : ℚ) < 2)).mp (lt_of_le_of_lt g1 hlt)
      rw [he0, he]
      exact max_eq_right (by omega)
    · have h52 : (2 : ℚ) ^ (52 : Int) ≤ (m : ℚ) := by
        have : ((2 ^ 52 : Nat) : ℚ) ≤ (m : ℚ) := by exact_mod_cast hm1
        calc (2 : ℚ) ^ (52 : Int) = ((2 ^ 52 : Nat) : ℚ) := by norm_num
          _ ≤ (m : ℚ) := this
      have h53 : (m : ℚ) < (2 : ℚ) ^ (53 : Int) := by
        have : (m : ℚ) < ((2 ^ 53 : Nat) : ℚ) := by exact_mod_cast hm2
        calc (m : ℚ) < ((2 ^ 53 : Nat) : ℚ) := this
          _ = (2 : ℚ) ^ (53 : Int) := by norm_num
      have hfl : F64.floorLog2 n d = e + 52 := by
        apply floorLog2_unique n d _ hn hd
        · rw [h]
          calc (2 : ℚ) ^ (e + 52) = (2 : ℚ) ^ (52 : Int) * (2 : ℚ) ^ e := by
                rw [← zpow_add₀ h2]
                congr 1
                ring
            _ ≤ (m : ℚ) * (2 : ℚ) ^ e := mul_le_mul_of_nonneg_right h52 (by positivity)
        · rw [h]
          calc (m : ℚ) * (2 : ℚ) ^ e < (2 : ℚ) ^ (53 : Int) * (2 : ℚ) ^ e :=
                mul_lt_mul_of_pos_right h53 (by positivity)
            _ = (2 : ℚ) ^ (e + 52 + 1) := by
                rw [← zpow_add₀ h2]
                congr 1
                ring
      rw [he0, hfl]
      have hs : e + 52 - 52 = e := by ring
      rw [hs]
      exact max_eq_left he1
  have hD : 0 < d * 2 ^ e0.toNat := by positivity
  have hrm : r = m := by
    rw [hr1]
    apply roundEven_exact _ _ _ hD
    rw [scaled_ratio n d _ hd, h, hee, mul_assoc, ← zpow_add₀ h2]
    simp
  rw [hr, hrm, hee]
  unfold F64.pack
  have hm53 : m ≠ 2 ^ 53 := by
    rcases hc with ⟨hm, _⟩ | ⟨_, hm2, _, _⟩ <;> omega
  have he971 : ¬ (e > 971) := by
    rcases hc with ⟨_, he⟩ | ⟨_, _, _, he2⟩ <;> omega
  simp only [hm53, if_false, he971]

/-- The result of rounding is infinity or a finite number in canonical form. -/
theorem round_canonical (neg : Bool) (n d : Nat) (hn : 0 < n) (hd : 0 < d) :
    F64.round neg n d = F64.inf neg ∨
    ∃ (m : Nat) (e : Int), F64.round neg n d = F64.fin neg m e ∧
      ((m < 2 ^ 52 ∧ e = -1074) ∨ (2 ^ 52 ≤ m ∧ m < 2 ^ 53 ∧ -1074 ≤ e ∧ e ≤ 971)) := by
  have h2 : (2 : ℚ) ≠ 0 := by norm_num
  obtain ⟨r, e0, hr, he0, hr1, hr2, hr3⟩ := round_shape neg n d hn hd
  obtain ⟨g1, g2⟩ := floorLog2_spec n d hn hd
  by_cases hfl : -1074 ≤ F64.floorLog2 n d - 52
  · have he1 : -1074 ≤ e0 := by
      rw [he0]
      exact le_max_right _ _
    rcases pack_normal neg r e0 (hr3 hfl) hr2 he1 with h1 | ⟨m, e', h1, h3, h4, h5, h6, _⟩
    · left
      rw [hr, h1.1]
    · right
      exact ⟨m, e', by rw [hr, h1], Or.inr ⟨h3, h4, h5, h6⟩⟩
  · have hee : e0 = -1074 := by
      rw [he0]
      exact max_eq_right (by omega)
    have hD : 0 < d * 2 ^ e0.toNat := by positivity
    have hr52 : r ≤ 2 ^ 52 := by
      rw [hr1]
      apply roundEven_le_q _ _ _ hD
      rw [scaled_ratio n d _ hd, hee]
      calc (n : ℚ) / (d : ℚ) * (2 : ℚ) ^ (-(-1074 : Int))
          ≤ (2 : ℚ) ^ (F64.floorLog2 n d + 1) * (2 : ℚ) ^ (-(-1074 : Int)) :=
            mul_le_mul_of_nonneg_right (le_of_lt g2) (by positivity)
        _ = (2 : ℚ) ^ (F64.floorLog2 n d + 1 + -(-1074 : Int)) := by rw [← zpow_add₀ h2]
        _ ≤ (2 : ℚ) ^ (52 : Int) := zpow_le_zpow_right₀ (by norm_num) (by omega)
        _ = ((2 ^ 52 : Nat) : ℚ) := by norm_num
    right
    refine ⟨r, -1074, ?_, ?_⟩
    · rw [hr, hee]
      unfold F64.pack
      have h53 : r ≠ 2 ^ 53 := by omega
      have ho : ¬ ((-1074 : Int) > 971) := by norm_num
      simp only [h53, if_false, ho]
    · rcases Nat.lt_or_ge r (2 ^ 52) with h | h
      · exact Or.inl ⟨h, rfl⟩
      · exact Or.inr ⟨h, by omega, le_refl _, by norm_num⟩

/-- A quotient of at least `2^(-1074)` does not round to zero. -/
theorem round_ne_zero (neg : Bool) (n d : Nat) (hn : 0 < n) (hd : 0 < d)
    (h : (2 : ℚ) ^ (-1074 : Int) ≤ (n : ℚ) / (d : ℚ)) (s : Bool) (e : Int) :
    F64.round neg n d ≠ F64.fin s 0 e := by
  have h2 : (2 : ℚ) ≠ 0 := by norm_num
  obtain ⟨r, e0, hr, he0, hr1, hr2, hr3⟩ := round_shape neg n d hn hd
  have hD : 0 < d * 2 ^ e0.toNat := by positivity
  have hr0 : 1 ≤ r := by
    by_cases hfl : -1074 ≤ F64.floorLog2 n d - 52
    · have := hr3 hfl
      omega
    · have hee : e0 = -1074 := by
        rw [he0]
        exact max_eq_right (by omega)
      rw [hr1]
      apply roundEven_ge_q _ _ _ hD
      rw [scaled_ratio n d _ hd, hee]
      calc ((1 : Nat) : ℚ) = (2 : ℚ) ^ (-1074 : Int) * (2 : ℚ) ^ (-(-1074 : Int)) := by
            rw [← zpow_add₀ h2]
            norm_num
        _ ≤ (n : ℚ) / (d : ℚ) * (2 : ℚ) ^ (-(-1074 : Int)) :=
            mul_le_mul_of_nonneg_right h (by positivity)
  rw [hr]
  intro hc
  unfold F64.pack at hc
  split_ifs at hc with c1 c2 c3
  · injection hc with _ hm _
    norm_num at hm
  · injection hc with _ hm _
    omega

/-- The quotient handed to `round` by a product of finite numbers. -/
theorem mul_ratio (m1 m2 : Nat) (e1 e2 : Int) :
    ((m1 * m2 * 2 ^ (e1 + e2).toNat : Nat) : ℚ) / ((2 ^ (-(e1 + e2)).toNat : Nat) : ℚ)
      = ((m1 : ℚ) * (2 : ℚ) ^ e1) * ((m2 : ℚ) * (2 : ℚ) ^ e2) := by
  have h2 : (2 : ℚ) ≠ 0 := by norm_num
  have h := two_zpow_split (e1 + e2)
  have hp : ((2 ^ (-(e1 + e2)).toNat : Nat) : ℚ) ≠ 0 := by positivity
  rw [Nat.cast_mul, h, zpow_add₀ h2]
  field_simp
  ring

/-- The quotient handed to `round` by a quotient of finite numbers. -/
theorem div_ratio (m1 m2 : Nat) (e1 e2 : Int) (hm2 : 0 < m2) :
    ((m1 * 2 ^ (e1 - e2).toNat : Nat) : ℚ) / ((m2 * 2 ^ (e2 - e1).toNat : Nat) : ℚ)
      = ((m1 : ℚ) * (2 : ℚ) ^ e1) / ((m2 : ℚ) * (2 : ℚ) ^ e2) := by
  have h2 : (2 : ℚ) ≠ 0 := by norm_num
  have h := two_zpow_split (e1 - e2)
  have hn : -(e1 - e2) = e2 - e1 := by ring
  rw [hn] at h
  have hp : ((2 ^ (e2 - e1).toNat : Nat) : ℚ) ≠ 0 := by positivity
  have hm : (m2 : ℚ) ≠ 0 := by
    have : (0 : ℚ) < (m2 : ℚ) := by exact_mod_cast hm2
    exact ne_of_gt this
  have hz : (2 : ℚ) ^ e2 ≠ 0 := by positivity
  rw [Nat.cast_mul, Nat.cast_mul, h, zpow_sub₀ h2]
  field_simp
  ring

/-- A quotient of at most `2^hi` rounds to a finite number of at most `2^hi`. -/
theorem round_fin_le (neg : Bool) (n d : Nat) (hi : Int) (hd : 0 < d)
    (hhi1 : -1074 ≤ hi) (hhi2 : hi ≤ 1022) (h2 : (n : ℚ) / (d : ℚ) ≤ (2 : ℚ) ^ hi) :
    ∃ (m : Nat) (e : Int), F64.round neg n d = F64.fin neg m e ∧
      (m : ℚ) * (2 : ℚ) ^ e ≤ (2 : ℚ) ^ hi := by
  have h20 : (2 : ℚ) ≠ 0 := by norm_num
  rcases Nat.eq_zero_or_pos n with hn0 | hn
  · subst hn0
    refine ⟨0, -1074, by simp [F64.round], ?_⟩
    simp only [Nat.cast_zero, zero_mul]
    positivity
  · obtain ⟨r, e0, hr, he0, hr1, _, _⟩ := round_shape neg n d hn hd
    obtain ⟨g1, _⟩ := floorLog2_spec n d hn hd
    have hfl : F64.floorLog2 n d ≤ hi :=
      (zpow_le_zpow_iff_right₀ (by norm_num : (1 : ℚ) < 2)).mp (le_trans g1 h2)
    have he1 : e0 ≤ hi := by
      rw [he0]
      exact max_le (by omega) hhi1
    have he2 : e0 < 971 := by
      have : e0 ≤ max (hi - 52) (-1074) := by
        rw [he0]
        exact max_le_max (by omega) (le_refl _)
      have h3 : max (hi - 52) (-1074) ≤ 970 := max_le (by omega) (by norm_num)
      omega
    have hD : 0 < d * 2 ^ e0.toNat := by positivity
    have hup : (r : ℚ) ≤ (2 : ℚ) ^ (hi - e0) := by
      have h3 : r ≤ 2 ^ (hi - e0).toNat := by
        rw [hr1]
        apply roundEven_le_q _ _ _ hD
        rw [scaled_ratio n d _ hd]
        calc (n : ℚ) / (d : ℚ) * (2 : ℚ) ^ (-e0) ≤ (2 : ℚ) ^ hi * (2 : ℚ) ^ (-e0) :=
              mul_le_mul_of_nonneg_right h2 (by positivity)
          _ = (2 : ℚ) ^ (((hi - e0).toNat : Nat) : Int) := by
              rw [← zpow_add₀ h20]
              congr 1
              omega
          _ = ((2 ^ (hi - e0).toNat : Nat) : ℚ) := by
              rw [zpow_natCast]
              push_cast
              rfl
      have : (r : ℚ) ≤ ((2 ^ (hi - e0).toNat : Nat) : ℚ) := by exact_mod_cast h3
      calc (r : ℚ) ≤ ((2 ^ (hi - e0).toNat : Nat) : ℚ) := this
        _ = (2 : ℚ) ^ (((hi - e0).toNat : Nat) : Int) := by
            rw [zpow_natCast]
            push_cast
            rfl
        _ = (2 : ℚ) ^ (hi - e0) := by
            congr 1
            omega
    obtain ⟨m, e', hp, hv, _⟩ := pack_fin neg r e0 he2
    refine ⟨m, e', by rw [hr, hp], ?_⟩
    rw [hv]
    calc (r : ℚ) * (2 : ℚ) ^ e0 ≤ (2 : ℚ) ^ (hi - e0) * (2 : ℚ) ^ e0 :=
          mul_le_mul_of_nonneg_right hup (by positivity)
      _ = (2 : ℚ) ^ hi := by
          rw [← zpow_add₀ h20]
          congr 1
          ring

/-- A product of finite numbers whose exact value is at most `2^hi` is
finite. -/
theorem mul_fin_le (a b : Bool) (m1 m2 : Nat) (e1 e2 hi : Int)
    (hhi1 : -1074 ≤ hi) (hhi2 : hi ≤ 1022)
    (h : ((m1 : ℚ) * (2 : ℚ) ^ e1) * ((m2 : ℚ) * (2 : ℚ) ^ e2) ≤ (2 : ℚ) ^ hi) :
    ∃ (m : Nat) (e : Int), F64.mul (F64.fin a m1 e1) (F64.fin b m2 e2) = F64.fin (xor a b) m e ∧
      (m : ℚ) * (2 : ℚ) ^ e ≤ (2 : ℚ) ^ hi := by
  simp only [F64.mul]
  apply round_fin_le _ _ _ hi (by positivity) hhi1 hhi2
  rw [mul_ratio]
  exact h

/-- A quotient of finite numbers, the divisor not zero, whose exact value is
at most `2^hi` is finite. -/
theorem div_fin_le (a b : Bool) (m1 m2 : Nat) (e1 e2 hi : Int) (hm2 : 0 < m2)
    (hhi1 : -1074 ≤ hi) (hhi2 : hi ≤ 1022)
    (h : ((m1 : ℚ) * (2 : ℚ) ^ e1) / ((m2 : ℚ) * (2 : ℚ) ^ e2) ≤ (2 : ℚ) ^ hi) :
    ∃ (m : Nat) (e : Int), F64.div (F64.fin a m1 e1) (F64.fin b m2 e2) = F64.fin (xor a b) m e ∧
      (m : ℚ) * (2 : ℚ) ^ e ≤ (2 : ℚ) ^ hi := by
  have hm : ¬ (m2 = 0) := by omega
  simp only [F64.div, hm, if_false]
  apply round_fin_le _ _ _ hi (by positivity) hhi1 hhi2
  rw [div_ratio _ _ _ _ hm2]
  exact h

/-- A product with a zero on the right is a zero. -/
theorem mul_zero_right (a b : Bool) (m : Nat) (e e0 : Int) :
    F64.mul (F64.fin a m e) (F64.fin b 0 e0) = F64.fin (xor a b) 0 (-1074) := by
  simp [F64.mul, F64.round]

/-- A product with a zero on the left is a zero. -/
theorem mul_zero_left (a b : Bool) (m : Nat) (e e0 : Int) :
    F64.mul (F64.fin a 0 e0) (F64.fin b m e) = F64.fin (xor a b) 0 (-1074) := by
  simp [F64.mul, F64.round]

/-- Adding a zero to a number in canonical form does not change its value. -/
theorem add_zero_right (a b : Bool) (m : Nat) (e : Int)
    (hc : (m < 2 ^ 52 ∧ e = -1074) ∨ (2 ^ 52 ≤ m ∧ m < 2 ^ 53 ∧ -1074 ≤ e ∧ e ≤ 971)) :
    F64.toRat (F64.add (F64.fin a m e) (F64.fin b 0 (-1074))) = F64.toRat (F64.fin a m e) := by
  have h20 : (2 : ℚ) ≠ 0 := by norm_num
  have he : -1074 ≤ e := by
    rcases hc with ⟨_, h⟩ | ⟨_, _, h, _⟩ <;> omega
  have hmin : min e (-1074) = -1074 := min_eq_right he
  have e1 : (e - -1074).toNat = (e + 1074).toNat := by congr 1
  have e2 : ((-1074 : Int) - -1074).toNat = 0 := by norm_num
  have e3 : (-1074 : Int).toNat = 0 := by decide
  have e4 : (-(-1074 : Int)).toNat = 1074 := by decide
  rcases Nat.eq_zero_or_pos m with hm0 | hm
  · subst hm0
    simp [F64.add, F64.signed, F64.toRat]
  · have hsne : F64.signed a (m * 2 ^ (e + 1074).toNat) ≠ 0 := by
      have : 0 < m * 2 ^ (e + 1074).toNat := by positivity
      cases a <;> simp only [F64.signed, Bool.false_eq_true, if_false, if_true] <;> omega
    have hsneg : decide (F64.signed a (m * 2 ^ (e + 1074).toNat) < 0) = a := by
      have : 0 < m * 2 ^ (e + 1074).toNat := by positivity
      cases a
      · simp only [F64.signed, Bool.false_eq_true, if_false, decide_eq_false_iff_not]
        omega
      · simp only [F64.signed, if_true, decide_eq_true_eq]
        omega
    have hsabs : (F64.signed a (m * 2 ^ (e + 1074).toNat)).natAbs = m * 2 ^ (e + 1074).toNat := by
      cases a <;> simp only [F64.signed, Bool.false_eq_true, if_false, if_true] <;> omega
    have hadd : F64.add (F64.fin a m e) (F64.fin b 0 (-1074))
        = F64.round a (m * 2 ^ (e + 1074).toNat) (2 ^ 1074) := by
      simp only [F64.add, hmin, e1, e2, e3, e4, pow_zero, mul_one, zero_mul]
      have hz : F64.signed b 0 = 0 := by cases b <;> simp [F64.signed]
      rw [hz, add_zero]
      simp only [hsne, if_false, hsneg, hsabs]
    rw [hadd]
    congr 1
    apply round_exact a _ _ m e (by positivity) (by positivity) hc
    simp only [Nat.cast_mul, Nat.cast_pow, Nat.cast_ofNat]
    have : (2 : ℚ) ^ (e + 1074).toNat = (2 : ℚ) ^ e * (2 : ℚ) ^ (1074 : Nat) := by
      rw [← zpow_natCast, ← zpow_natCast, ← zpow_add₀ h20]
      congr 1
      omega
    rw [this, ← mul_assoc]
    exact mul_div_cancel_right₀ _ (pow_ne_zero _ h20)

/-- A bounded product of finite numbers is a finite number in canonical form,
and not zero when the exact product is at least `2^(-1074)`. -/
theorem mul_fin_canonical (a b : Bool) (m1 m2 : Nat) (e1 e2 hi : Int)
    (hhi1 : -1074 ≤ hi) (hhi2 : hi ≤ 1022)
    (h : ((m1 : ℚ) * (2 : ℚ) ^ e1) * ((m2 : ℚ) * (2 : ℚ) ^ e2) ≤ (2 : ℚ) ^ hi) :
    ∃ (m : Nat) (e : Int), F64.mul (F64.fin a m1 e1) (F64.fin b m2 e2) = F64.fin (xor a b) m e ∧
      ((m < 2 ^ 52 ∧ e = -1074) ∨ (2 ^ 52 ≤ m ∧ m < 2 ^ 53 ∧ -1074 ≤ e ∧ e ≤ 971)) ∧
      ((2 : ℚ) ^ (-1074 : Int) ≤ ((m1 : ℚ) * (2 : ℚ) ^ e1) * ((m2 : ℚ) * (2 : ℚ) ^ e2) → m ≠ 0) := by
  obtain ⟨m, e, hm, _⟩ := mul_fin_le a b m1 m2 e1 e2 hi hhi1 hhi2 h
  refine ⟨m, e, hm, ?_, ?_⟩
  · rcases Nat.eq_zero_or_pos (m1 * m2 * 2 ^ (e1 + e2).toNat) with h0 | hpos
    · simp only [F64.mul, h0, F64.round, if_true] at hm
      injection hm with _ hm1 hm2
      left
      constructor
      · rw [← hm1]
        norm_num
      · exact hm2.symm
    · have hd : 0 < 2 ^ (-(e1 + e2)).toNat := by positivity
      rcases round_canonical (xor a b) _ _ hpos hd with hinf | ⟨m', e', hr, hc⟩
      · simp only [F64.mul] at hm
        rw [hinf] at hm
        cases hm
      · simp only [F64.mul] at hm
        rw [hr] at hm
        injection hm with _ hm1 hm2
        rw [← hm1, ← hm2]
        exact hc
  · intro hlo hm0
    subst hm0
    have hne : m1 * m2 * 2 ^ (e1 + e2).toNat ≠ 0 := by
      intro h0
      have : ((m1 : ℚ) * (2 : ℚ) ^ e1) * ((m2 : ℚ) * (2 : ℚ) ^ e2) = 0 := by
        rw [← mul_ratio, h0]
        simp
      rw [this] at hlo
      have : (0 : ℚ) < (2 : ℚ) ^ (-1074 : Int) := by positivity
      linarith
    have hpos : 0 < m1 * m2 * 2 ^ (e1 + e2).toNat := Nat.pos_of_ne_zero hne
    have hd : 0 < 2 ^ (-(e1 + e2)).toNat := by positivity
    have hr : (2 : ℚ) ^ (-1074 : Int)
        ≤ ((m1 * m2 * 2 ^ (e1 + e2).toNat : Nat) : ℚ) / ((2 ^ (-(e1 + e2)).toNat : Nat) : ℚ) := by
      rw [mul_ratio]
      exact hlo
    simp only [F64.mul] at hm
    exact round_ne_zero (xor a b) _ _ hpos hd hr (xor a b) e hm

/-- Zero divided by a height in centimetres that is a non-zero number is a
zero. -/
theorem zero_div_height (height : F64) (hH : F64.lt F64.zero (F64.abs height) = true)
    (hwf : F64.wf height = true) :
    ∃ s : Bool, F64.div F64.zero (F64.mul height (F64.ofInt CmInM)) = F64.fin s 0 (-1074) := by
  have h100 : F64.ofInt CmInM = F64.fin false 7036874417766400 (-46) := by decide!
  rw [h100]
  cases height with
  | nan => simp [F64.abs, F64.lt, F64.zero] at hH
  | inf b =>
    refine ⟨xor false (xor b false), ?_⟩
    simp [F64.mul, F64.div, F64.zero]
  | fin b m e =>
    have hlt := (lt_fin_iff false false 0 m (-1074) e).mp hH
    have hmpos : 0 < m := by
      rcases Nat.eq_zero_or_pos m with h0 | h
      · subst h0
        simp [F64.signed] at hlt
      · exact h
    have he : -1074 ≤ e := by
      simp only [F64.wf, Bool.or_eq_true, Bool.and_eq_true, decide_eq_true_eq] at hwf
      rcases hwf with ⟨_, h⟩ | ⟨⟨⟨_, _⟩, h⟩, _⟩ <;> omega
    have hpos : 0 < m * 7036874417766400 * 2 ^ (e + -46).toNat := by positivity
    have hd : 0 < 2 ^ (-(e + -46)).toNat := by positivity
    have hr : (2 : ℚ) ^ (-1074 : Int)
        ≤ ((m * 7036874417766400 * 2 ^ (e + -46).toNat : Nat) : ℚ)
          / ((2 ^ (-(e + -46)).toNat : Nat) : ℚ) := by
      rw [mul_ratio]
      have h1 : (1 : ℚ) ≤ (m : ℚ) := by exact_mod_cast hmpos
      have h2 : (2 : ℚ) ^ (-1074 : Int) ≤ (2 : ℚ) ^ e := zpow_le_zpow_right₀ (by norm_num) he
      have h3 : (1 : ℚ) ≤ ((7036874417766400 : Nat) : ℚ) * (2 : ℚ) ^ (-46 : Int) := by norm_num
      calc (2 : ℚ) ^ (-1074 : Int) = (1 * (2 : ℚ) ^ (-1074 : Int)) * 1 := by ring
        _ ≤ ((m : ℚ) * (2 : ℚ) ^ e) * (((7036874417766400 : Nat) : ℚ) * (2 : ℚ) ^ (-46 : Int)) :=
            mul_le_mul (mul_le_mul h1 h2 (by positivity) (by positivity)) h3 (by norm_num)
              (by positivity)
    have hprod : F64.mul (F64.fin b m e) (F64.fin false 7036874417766400 (-46))
        = F64.round (xor b false) (m * 7036874417766400 * 2 ^ (e + -46).toNat)
            (2 ^ (-(e + -46)).toNat) := by
      simp only [F64.mul]
    rw [hprod]
    rcases round_canonical (xor b false) _ _ hpos hd with hinf | ⟨m', e', hrd, _⟩
    · rw [hinf]
      exact ⟨xor false (xor b false), by simp [F64.div, F64.zero]⟩
    · have hm' : m' ≠ 0 := by
        intro h0
        subst h0
        exact round_ne_zero (xor b false) _ _ hpos hd hr (xor b false) e' hrd
      rw [hrd]
      exact ⟨xor false (xor b false), by simp [F64.div, F64.zero, hm', F64.round]⟩

/-- Lowering the exponent handed to `pack` lowers the exponent of a finite
result. -/
theorem pack_unshift (neg : Bool) (r m : Nat) (e0 e : Int) (j : Nat)
    (h : F64.pack neg r (e0 + j) = F64.fin neg m e) :
    F64.pack neg r e0 = F64.fin neg m (e - j) := by
  unfold F64.pack at h ⊢
  by_cases hc : r = 2 ^ 53
  · simp only [hc, if_true] at h ⊢
    split_ifs at h with h1
    injection h with _ hm hee
    have h2 : ¬ (e0 + 1 > 971) := by omega
    simp only [h2, if_false, hm]
    congr 1
    omega
  · simp only [hc, if_false] at h ⊢
    split_ifs at h with h1
    injection h with _ hm hee
    have h2 : ¬ (e0 > 971) := by omega
    simp only [h2, if_false, hm]
    congr 1
    omega

/-- Raising the exponent handed to `pack` keeps an overflow. -/
theorem pack_inf_shift (neg : Bool) (r : Nat) (e0 : Int) (j : Nat)
    (h : F64.pack neg r e0 = F64.inf neg) :
    F64.pack neg r (e0 + j) = F64.inf neg := by
  unfold F64.pack at h ⊢
  by_cases hc : r = 2 ^ 53
  · simp only [hc, if_true] at h ⊢
    split_ifs at h with h1
    have h2 : e0 + j + 1 > 971 := by omega
    simp only [h2, if_true]
  · simp only [hc, if_false] at h ⊢
    split_ifs at h with h1
    have h2 : e0 + j > 971 := by omega
    simp only [h2, if_true]

/-- Multiplying a quotient of the normal range by `2^j` keeps the rounded
significand and raises the exponent handed to `pack` by `j`. -/
theorem round_scale (neg : Bool) (n d n' d' j : Nat) (hn : 0 < n) (hd : 0 < d)
    (hn' : 0 < n') (hd' : 0 < d')
    (hr : (n' : ℚ) / (d' : ℚ) = (2 : ℚ) ^ j * ((n : ℚ) / (d : ℚ)))
    (hlo : (2 : ℚ) ^ (-1022 : Int) ≤ (n : ℚ) / (d : ℚ)) :
    ∃ (r : Nat) (e0 : Int), F64.round neg n d = F64.pack neg r e0 ∧
      F64.round neg n' d' = F64.pack neg r (e0 + j) := by
  have h2 : (2 : ℚ) ≠ 0 := by norm_num
  obtain ⟨r, e0, hr0, he0, hr1, _, _⟩ := round_shape neg n d hn hd
  obtain ⟨r', e0', hr0', he0', hr1', _, _⟩ := round_shape neg n' d' hn' hd'
  obtain ⟨g1, g2⟩ := floorLog2_spec n d hn hd
  have hfl : -1022 < F64.floorLog2 n d + 1 :=
    (zpow_lt_zpow_iff_right₀ (by norm_num : (1 : ℚ) < 2)).mp (lt_of_le_of_lt hlo g2)
  have hj : (2 : ℚ) ^ j = (2 : ℚ) ^ (j : Int) := (zpow_natCast 2 j).symm
  have hfl' : F64.floorLog2 n' d' = F64.floorLog2 n d + j := by
    apply floorLog2_unique n' d' _ hn' hd'
    · rw [hr, hj, zpow_add₀ h2, mul_comm]
      exact mul_le_mul_of_nonneg_left g1 (by positivity)
    · rw [hr, hj]
      have : F64.floorLog2 n d + (j : Int) + 1 = (j : Int) + (F64.floorLog2 n d + 1) := by ring
      rw [this, zpow_add₀ h2]
      exact mul_lt_mul_of_pos_left g2 (by positivity)
  have hee : e0 = F64.floorLog2 n d - 52 := by
    rw [he0]
    exact max_eq_left (by omega)
  have hee' : e0' = e0 + j := by
    rw [he0', hfl', hee]
    have : F64.floorLog2 n d + (j : Int) - 52 = F64.floorLog2 n d - 52 + j := by ring
    rw [this]
    exact max_eq_left (by omega)
  have hrr : r' = r := by
    rw [hr1', hr1]
    apply roundEven_congr _ _ _ _ (by positivity) (by positivity)
    rw [scaled_ratio n' d' _ hd', scaled_ratio n d _ hd, hr, hee', hj]
    have : (2 : ℚ) ^ (-(e0 + (j : Int))) = (2 : ℚ) ^ (-e0) * ((2 : ℚ) ^ (j : Int))⁻¹ := by
      rw [neg_add, zpow_add₀ h2, zpow_neg 2 (j : Int)]
    rw [this]
    have hp : (2 : ℚ) ^ (j : Int) ≠ 0 := by positivity
    field_simp
    ring
  exact ⟨r, e0, hr0, by rw [hr0', hrr, hee']⟩

/-- A quotient that rounds to infinity is at least `2^(-1022)`. -/
theorem round_inf_ratio (neg : Bool) (n d : Nat) (hd : 0 < d) (s : Bool)
    (h : F64.round neg n d = F64.inf s) :
    (2 : ℚ) ^ (-1022 : Int) ≤ (n : ℚ) / (d : ℚ) := by
  by_contra hc
  push_neg at hc
  obtain ⟨m, e, hr, _⟩ := round_fin_le neg n d (-1022) hd (by norm_num) (by norm_num) (le_of_lt hc)
  rw [hr] at h
  exact F64.noConfusion h

/-- The conversion of a power of two is exact. -/
theorem ofInt_two_pow (j : Nat) (hj : j ≤ 62) :
    F64.ofInt (2 ^ j) = F64.fin false 4503599627370496 ((j : Int) - 52) := by
  have hpos : (0 : Int) < 2 ^ j := by positivity
  have hs : decide ((2 : Int) ^ j < 0) = false := by
    simp only [decide_eq_false_iff_not, not_lt]
    exact le_of_lt hpos
  have hna : ((2 : Int) ^ j).natAbs = 2 ^ j := by
    rw [Int.natAbs_pow]
    rfl
  unfold F64.ofInt
  rw [hs, hna]
  apply round_exact false (2 ^ j) 1 4503599627370496 ((j : Int) - 52) (by positivity) (by norm_num)
  · right
    refine ⟨by norm_num, by norm_num, by omega, by omega⟩
  · have h52 : ((4503599627370496 : Nat) : ℚ) = (2 : ℚ) ^ (52 : Int) := by norm_num
    rw [h52, ← zpow_add₀ (by norm_num : (2 : ℚ) ≠ 0)]
    have : (52 : Int) + ((j : Int) - 52) = (j : Int) := by ring
    rw [this, zpow_natCast]
    push_cast
    simp

/-- The conversions of a non-zero integer `n` and of `2^j * n`, both in the
`int` range: the same significand, the exponents `j` apart. -/
theorem ofInt_scale (n : Int) (j : Nat) (hn0 : n ≠ 0)
    (hk1 : -2 ^ 63 ≤ 2 ^ j * n) (hk2 : 2 ^ j * n < 2 ^ 63) :
    ∃ (m : Nat) (e : Int), 0 < m ∧ F64.ofInt n = F64.fin (decide (n < 0)) m e ∧
      F64.ofInt (2 ^ j * n) = F64.fin (decide (n < 0)) m (e + j) := by
  have hpos : 0 < n.natAbs := Int.natAbs_pos.mpr hn0
  have hp2 : (0 : Int) < 2 ^ j := by positivity
  have hs : decide (2 ^ j * n < 0) = decide (n < 0) := by
    by_cases h : n < 0
    · have : 2 ^ j * n < 0 := mul_neg_of_pos_of_neg hp2 h
      simp [h, this]
    · have : ¬ 2 ^ j * n < 0 := not_lt.mpr (mul_nonneg (le_of_lt hp2) (not_lt.mp h))
      simp [h, this]
  have hna : (2 ^ j * n).natAbs = 2 ^ j * n.natAbs := by
    rw [Int.natAbs_mul, Int.natAbs_pow]
    rfl
  have hab : 2 ^ j * n.natAbs ≤ 2 ^ 63 := by
    rw [← hna]
    omega
  have h1 : (2 : ℚ) ^ (-1022 : Int) ≤ (n.natAbs : ℚ) / ((1 : Nat) : ℚ) := by
    have h : (1 : ℚ) ≤ (n.natAbs : ℚ) := by exact_mod_cast hpos
    have h0 : (2 : ℚ) ^ (-1022 : Int) ≤ (2 : ℚ) ^ (0 : Int) :=
      zpow_le_zpow_right₀ (by norm_num) (by norm_num)
    calc (2 : ℚ) ^ (-1022 : Int) ≤ (2 : ℚ) ^ (0 : Int) := h0
      _ = 1 := by norm_num
      _ ≤ (n.natAbs : ℚ) := h
      _ = (n.natAbs : ℚ) / ((1 : Nat) : ℚ) := by simp
  have h2 : ((2 ^ j * n.natAbs : Nat) : ℚ) / ((1 : Nat) : ℚ) ≤ (2 : ℚ) ^ (63 : Int) := by
    have : ((2 ^ j * n.natAbs : Nat) : ℚ) ≤ ((2 ^ 63 : Nat) : ℚ) := by exact_mod_cast hab
    calc ((2 ^ j * n.natAbs : Nat) : ℚ) / ((1 : Nat) : ℚ) = ((2 ^ j * n.natAbs : Nat) : ℚ) := by simp
      _ ≤ ((2 ^ 63 : Nat) : ℚ) := this
      _ = (2 : ℚ) ^ (63 : Int) := by norm_num
  have hr : ((2 ^ j * n.natAbs : Nat) : ℚ) / ((1 : Nat) : ℚ)
      = (2 : ℚ) ^ j * ((n.natAbs : ℚ) / ((1 : Nat) : ℚ)) := by
    push_cast
    ring
  obtain ⟨m, e, hf, _⟩ := round_fin_le (decide (n < 0)) (2 ^ j * n.natAbs) 1 63 (by norm_num)
    (by norm_num) (by norm_num) h2
  obtain ⟨r, e0, hp, hp'⟩ := round_scale (decide (n < 0)) n.natAbs 1 (2 ^ j * n.natAbs) 1 j hpos
    (by norm_num) (by positivity) (by norm_num) hr h1
  rw [hp'] at hf
  have hx := pack_unshift _ r m e0 e j hf
  have hm0 : m ≠ 0 := by
    intro h0
    have h74 : (2 : ℚ) ^ (-1074 : Int) ≤ (n.natAbs : ℚ) / ((1 : Nat) : ℚ) :=
      le_trans (zpow_le_zpow_right₀ (by norm_num) (by norm_num)) h1
    apply round_ne_zero (decide (n < 0)) n.natAbs 1 hpos (by norm_num) h74 (decide (n < 0)) (e - j)
    rw [hp, hx, h0]
  refine ⟨m, e - j, by omega, ?_, ?_⟩
  · unfold F64.ofInt
    rw [hp, hx]
  · unfold F64.ofInt
    rw [hs, hna, hp', hf]
    congr 1
    omega

/-- The result of `pack` is an infinity or a finite number, of the given
sign. -/
theorem pack_cases (neg : Bool) (r : Nat) (e : Int) :
    F64.pack neg r e = F64.inf neg ∨
    ∃ (m : Nat) (e' : Int), F64.pack neg r e = F64.fin neg m e' := by
  unfold F64.pack
  split_ifs
  · exact Or.inl rfl
  · exact Or.inr ⟨_, _, rfl⟩
  · exact Or.inl rfl
  · exact Or.inr ⟨_, _, rfl⟩

/-- Raising the exponent of the left factor by `j` multiplies the exact
product by `2^j`: in the normal range the rounded significand stays and the
exponent handed to `pack` rises by `j`. -/
theorem mul_scale (a b : Bool) (m1 m2 : Nat) (e1 e2 : Int) (j : Nat) (h1 : 0 < m1) (h2 : 0 < m2)
    (hlo : (2 : ℚ) ^ (-1022 : Int) ≤ ((m1 : ℚ) * (2 : ℚ) ^ e1) * ((m2 : ℚ) * (2 : ℚ) ^ e2)) :
    ∃ (r : Nat) (e0 : Int),
      F64.mul (F64.fin a m1 e1) (F64.fin b m2 e2) = F64.pack (xor a b) r e0 ∧
      F64.mul (F64.fin a m1 (e1 + j)) (F64.fin b m2 e2) = F64.pack (xor a b) r (e0 + j) := by
  simp only [F64.mul]
  apply round_scale (xor a b) _ _ _ _ j (by positivity) (by positivity) (by positivity)
    (by positivity)
  · rw [mul_ratio, mul_ratio, zpow_add₀ (by norm_num : (2 : ℚ) ≠ 0), zpow_natCast]
    ring
  · rw [mul_ratio]
    exact hlo

/-- Raising the exponent of the dividend by `j` multiplies the exact quotient
by `2^j`: in the normal range the rounded significand stays and the exponent
handed to `pack` rises by `j`. -/
theorem div_scale (a b : Bool) (m1 m2 : Nat) (e1 e2 : Int) (j : Nat) (h1 : 0 < m1) (h2 : 0 < m2)
    (hlo : (2 : ℚ) ^ (-1022 : Int) ≤ ((m1 : ℚ) * (2 : ℚ) ^ e1) / ((m2 : ℚ) * (2 : ℚ) ^ e2)) :
    ∃ (r : Nat) (e0 : Int),
      F64.div (F64.fin a m1 e1) (F64.fin b m2 e2) = F64.pack (xor a b) r e0 ∧
      F64.div (F64.fin a m1 (e1 + j)) (F64.fin b m2 e2) = F64.pack (xor a b) r (e0 + j) := by
  have hm : ¬ (m2 = 0) := by omega
  simp only [F64.div, hm, if_false]
  apply round_scale (xor a b) _ _ _ _ j (by positivity) (by positivity) (by positivity)
    (by positivity)
  · rw [div_ratio _ _ _ _ h2, div_ratio _ _ _ _ h2, zpow_add₀ (by norm_num : (2 : ℚ) ≠ 0),
      zpow_natCast]
    ring
  · rw [div_ratio _ _ _ _ h2]
    exact hlo

/-- A product of non-zero finite numbers whose exact value is at least
`2^(-1074)` is not zero. -/
theorem mul_ne_zero_of_le (a b : Bool) (m1 m2 : Nat) (e1 e2 : Int) (h1 : 0 < m1) (h2 : 0 < m2)
    (hlo : (2 : ℚ) ^ (-1074 : Int) ≤ ((m1 : ℚ) * (2 : ℚ) ^ e1) * ((m2 : ℚ) * (2 : ℚ) ^ e2))
    (s : Bool) (e : Int) :
    F64.mul (F64.fin a m1 e1) (F64.fin b m2 e2) ≠ F64.fin s 0 e := by
  simp only [F64.mul]
  apply round_ne_zero _ _ _ (by positivity) (by positivity)
  rw [mul_ratio]
  exact hlo

/-- A quotient of non-zero finite numbers whose exact value is at least
`2^(-1074)` is not zero. -/
theorem div_ne_zero_of_le (a b : Bool) (m1 m2 : Nat) (e1 e2 : Int) (h1 : 0 < m1) (h2 : 0 < m2)
    (hlo : (2 : ℚ) ^ (-1074 : Int) ≤ ((m1 : ℚ) * (2 : ℚ) ^ e1) / ((m2 : ℚ) * (2 : ℚ) ^ e2))
    (s : Bool) (e : Int) :
    F64.div (F64.fin a m1 e1) (F64.fin b m2 e2) ≠ F64.fin s 0 e := by
  have hm : ¬ (m2 = 0) := by omega
  simp only [F64.div, hm, if_false]
  apply round_ne_zero _ _ _ (by positivity) (by positivity)
  rw [div_ratio _ _ _ _ h2]
  exact hlo

/-- A finite quotient of finite numbers, the divisor not zero, is in canonical
form. -/
theorem div_fin_canonical (a b : Bool) (m1 m2 : Nat) (e1 e2 : Int) (h2 : 0 < m2)
    (s : Bool) (m : Nat) (e : Int)
    (h : F64.div (F64.fin a m1 e1) (F64.fin b m2 e2) = F64.fin s m e) :
    (m < 2 ^ 52 ∧ e = -1074) ∨ (2 ^ 52 ≤ m ∧ m < 2 ^ 53 ∧ -1074 ≤ e ∧ e ≤ 971) := by
  have hm : ¬ (m2 = 0) := by omega
  simp only [F64.div, hm, if_false] at h
  rcases Nat.eq_zero_or_pos (m1 * 2 ^ (e1 - e2).toNat) with h0 | hpos
  · simp only [h0, F64.round, if_true] at h
    injection h with _ hm1 hm2
    left
    constructor
    · rw [← hm1]
      norm_num
    · exact hm2.symm
  · rcases round_canonical (xor a b) _ _ hpos (by positivity : 0 < m2 * 2 ^ (e2 - e1).toNat)
      with hi | ⟨m', e', hf, hc⟩
    · rw [hi] at h
      exact F64.noConfusion h
    · rw [hf] at h
      injection h with _ hm1 hm2
      rw [← hm1, ← hm2]
      exact hc

/-- Multiplying by the conversion of `2^j` adds `j` to the exponent when the
result is in canonical form. -/
theorem mul_two_pow_exact (s : Bool) (m : Nat) (e : Int) (j : Nat) (hm : 0 < m)
    (hc : (m < 2 ^ 52 ∧ e + j = -1074) ∨
      (2 ^ 52 ≤ m ∧ m < 2 ^ 53 ∧ -1074 ≤ e + j ∧ e + j ≤ 971)) :
    F64.mul (F64.fin false 4503599627370496 ((j : Int) - 52)) (F64.fin s m e)
      = F64.fin s m (e + j) := by
  have h20 : (2 : ℚ) ≠ 0 := by norm_num
  simp only [F64.mul, Bool.false_xor]
  apply round_exact s _ _ m (e + j) (by positivity) (by positivity) hc
  rw [mul_ratio]
  have h52 : ((4503599627370496 : Nat) : ℚ) = (2 : ℚ) ^ (52 : Int) := by norm_num
  rw [h52, ← zpow_add₀ h20, zpow_add₀ h20 e j]
  have : (52 : Int) + ((j : Int) - 52) = (j : Int) := by ring
  rw [this]
  ring

/-- Rounding to an integer does not exceed `k` when the quotient is below
`k + 1/2`. -/
theorem roundEven_le_half (N D k : Nat) (hD : 0 < D) (h : 2 * N < (2 * k + 1) * D) :
    F64.roundEven N D ≤ k := by
  have hdm : D * (N / D) + N % D = N := Nat.div_add_mod N D
  have hr : N % D < D := Nat.mod_lt N hD
  have hq : N / D ≤ k := by
    by_contra hc
    have h1 : k + 1 ≤ N / D := by omega
    have h2 : D * (k + 1) ≤ D * (N / D) := Nat.mul_le_mul_left D h1
    have h3 : (2 * k + 1) * D = 2 * (D * (k + 1)) - D := by
      have : 2 * (D * (k + 1)) = (2 * k + 1) * D + D := by ring
      omega
    omega
  unfold F64.roundEven
  simp only
  rcases Nat.lt_or_ge (N / D) k with h3 | h3
  · split_ifs <;> omega
  · have h4 : N / D = k := le_antisymm hq h3
    have h5 : 2 * (N % D) < D := by
      have h6 : (2 * k + 1) * D = 2 * (D * k) + D := by ring
      rw [h4] at hdm
      omega
    simp [h5, h4]

/-- A quotient below `2^(-1022) - 2^(-1075)` rounds to zero or a subnormal
number. -/
theorem round_below_min (neg : Bool) (n d : Nat) (hd : 0 < d)
    (h : (n : ℚ) / (d : ℚ) * (2 : ℚ) ^ (1074 : Int) < (4503599627370495 : ℚ) + 1 / 2) :
    ∃ (m : Nat), F64.round neg n d = F64.fin neg m (-1074) ∧ m < 2 ^ 52 := by
  have h20 : (2 : ℚ) ≠ 0 := by norm_num
  rcases Nat.eq_zero_or_pos n with hn0 | hn
  · subst hn0
    exact ⟨0, by simp [F64.round], by norm_num⟩
  obtain ⟨r, e0, hr, he0, hr1, _, _⟩ := round_shape neg n d hn hd
  obtain ⟨g1, _⟩ := floorLog2_spec n d hn hd
  have hq : (n : ℚ) / (d : ℚ) < (2 : ℚ) ^ (-1022 : Int) := by
    have h1 : (n : ℚ) / (d : ℚ) * (2 : ℚ) ^ (1074 : Int) < (2 : ℚ) ^ (52 : Int) :=
      lt_trans h (by norm_num)
    have h2 : (2 : ℚ) ^ (-1022 : Int) = (2 : ℚ) ^ (52 : Int) * (2 : ℚ) ^ (-1074 : Int) := by
      rw [← zpow_add₀ h20]
      norm_num
    have h3 : (n : ℚ) / (d : ℚ)
        = (n : ℚ) / (d : ℚ) * (2 : ℚ) ^ (1074 : Int) * (2 : ℚ) ^ (-1074 : Int) := by
      rw [mul_assoc, ← zpow_add₀ h20]
      norm_num
    rw [h2, h3]
    exact mul_lt_mul_of_pos_right h1 (by positivity)
  have hfl : F64.floorLog2 n d < -1022 :=
    (zpow_lt_zpow_iff_right₀ (by norm_num : (1 : ℚ) < 2)).mp (lt_of_le_of_lt g1 hq)
  have hee : e0 = -1074 := by
    rw [he0]
    exact max_eq_right (by omega)
  have hr2 : r ≤ 4503599627370495 := by
    rw [hr1]
    apply roundEven_le_half _ _ _ (by positivity)
    have hD : (0 : ℚ) < ((d * 2 ^ e0.toNat : Nat) : ℚ) := by
      have : 0 < d * 2 ^ e0.toNat := by positivity
      exact_mod_cast this
    have hs := scaled_ratio n d e0 hd
    rw [hee] at hs
    have hs2 : ((n * 2 ^ (-(-1074 : Int)).toNat : Nat) : ℚ) / ((d * 2 ^ (-1074 : Int).toNat : Nat) : ℚ)
        < (4503599627370495 : ℚ) + 1 / 2 := by
      rw [hs]
      have : (-(-1074 : Int)) = 1074 := by norm_num
      rw [this]
      exact h
    rw [hee]
    rw [div_lt_iff₀ (by rw [← hee]; exact hD)] at hs2
    have hs3 : (2 : ℚ) * ((n * 2 ^ (-(-1074 : Int)).toNat : Nat) : ℚ)
        < ((2 * 4503599627370495 + 1 : Nat) : ℚ) * ((d * 2 ^ (-1074 : Int).toNat : Nat) : ℚ) := by
      have : ((2 * 4503599627370495 + 1 : Nat) : ℚ) = 2 * ((4503599627370495 : ℚ) + 1 / 2) := by
        norm_num
      rw [this, mul_assoc]
      exact mul_lt_mul_of_pos_left hs2 (by norm_num)
    exact_mod_cast hs3
  refine ⟨r, ?_, by omega⟩
  rw [hr, hee]
  unfold F64.pack
  have c1 : ¬ (r = 2 ^ 53) := by omega
  have c2 : ¬ ((-1074 : Int) > 971) := by norm_num
  simp only [c1, c2, if_false]

/-- A finite product of finite numbers is in canonical form. -/
theorem mul_result_canonical (a b : Bool) (m1 m2 : Nat) (e1 e2 : Int)
    (s : Bool) (m : Nat) (e : Int)
    (h : F64.mul (F64.fin a m1 e1) (F64.fin b m2 e2) = F64.fin s m e) :
    (m < 2 ^ 52 ∧ e = -1074) ∨ (2 ^ 52 ≤ m ∧ m < 2 ^ 53 ∧ -1074 ≤ e ∧ e ≤ 971) := by
  simp only [F64.mul] at h
  rcases Nat.eq_zero_or_pos (m1 * m2 * 2 ^ (e1 + e2).toNat) with h0 | hpos
  · simp only [h0, F64.round, if_true] at h
    injection h with _ hm1 hm2
    left
    constructor
    · rw [← hm1]
      norm_num
    · exact hm2.symm
  · rcases round_canonical (xor a b) _ _ hpos (by positivity : 0 < 2 ^ (-(e1 + e2)).toNat)
      with hi | ⟨m', e', hf, hc⟩
    · rw [hi] at h
      exact F64.noConfusion h
    · rw [hf] at h
      injection h with _ hm1 hm2
      rw [← hm1, ← hm2]
      exact hc

/-- A number in canonical form whose exact quotient by `1000` is below
`2^(-1022)` has a quotient that rounds to zero or a subnormal number: no
quotient of a `float64` by `1000` rounds up to the smallest normal number. -/
theorem div_thousand_below_min (c : Bool) (my : Nat) (ey : Int)
    (hc : (my < 2 ^ 52 ∧ ey = -1074) ∨ (2 ^ 52 ≤ my ∧ my < 2 ^ 53 ∧ -1074 ≤ ey ∧ ey ≤ 971))
    (hq : ((my : ℚ) * (2 : ℚ) ^ ey) / (((8796093022208000 : Nat) : ℚ) * (2 : ℚ) ^ (-43 : Int))
      < (2 : ℚ) ^ (-1022 : Int)) :
    ∃ (m : Nat), F64.div (F64.fin c my ey) (F64.fin false 8796093022208000 (-43))
      = F64.fin (xor c false) m (-1074) ∧ m < 2 ^ 52 := by
  have h20 : (2 : ℚ) ≠ 0 := by norm_num
  have hK : ((8796093022208000 : Nat) : ℚ) * (2 : ℚ) ^ (-43 : Int) = 1000 := by norm_num
  have hKpos : 0 < 8796093022208000 := by norm_num
  have hK0 : ¬ ((8796093022208000 : Nat) = 0) := by norm_num
  have hu : (0 : ℚ) < (2 : ℚ) ^ (-1075 : Int) := by positivity
  have p22 : (2 : ℚ) ^ (-1022 : Int) = 9007199254740992 * (2 : ℚ) ^ (-1075 : Int) := by
    have : (9007199254740992 : ℚ) = (2 : ℚ) ^ (53 : Int) := by norm_num
    rw [this, ← zpow_add₀ h20]
    norm_num
  have p12 : (2 : ℚ) ^ (-1012 : Int) = 9223372036854775808 * (2 : ℚ) ^ (-1075 : Int) := by
    have : (9223372036854775808 : ℚ) = (2 : ℚ) ^ (63 : Int) := by norm_num
    rw [this, ← zpow_add₀ h20]
    norm_num
  have p65 : (2 : ℚ) ^ (-1065 : Int) = 1024 * (2 : ℚ) ^ (-1075 : Int) := by
    have : (1024 : ℚ) = (2 : ℚ) ^ (10 : Int) := by norm_num
    rw [this, ← zpow_add₀ h20]
    norm_num
  have p66 : (2 : ℚ) ^ (-1066 : Int) = 512 * (2 : ℚ) ^ (-1075 : Int) := by
    have : (512 : ℚ) = (2 : ℚ) ^ (9 : Int) := by norm_num
    rw [this, ← zpow_add₀ h20]
    norm_num
  have p74 : (2 : ℚ) ^ (1074 : Int) * (2 : ℚ) ^ (-1075 : Int) = 1 / 2 := by
    rw [← zpow_add₀ h20]
    norm_num
  rw [hK, div_lt_iff₀ (by norm_num)] at hq
  have hm53 : (my : ℚ) < 9007199254740992 := by
    have h53 : my < 2 ^ 53 := by
      rcases hc with ⟨hm, _⟩ | ⟨_, hm, _, _⟩ <;> omega
    have : (my : ℚ) < ((2 ^ 53 : Nat) : ℚ) := by exact_mod_cast h53
    calc (my : ℚ) < ((2 ^ 53 : Nat) : ℚ) := this
      _ = 9007199254740992 := by norm_num
  -- the exponent is at most -1065
  have hey : ey ≤ -1065 := by
    by_contra hcon
    have hge : -1064 ≤ ey := by omega
    rcases hc with ⟨_, he⟩ | ⟨hm, _, _, _⟩
    · omega
    · have hm52 : (4503599627370496 : ℚ) ≤ (my : ℚ) := by
        have : ((2 ^ 52 : Nat) : ℚ) ≤ (my : ℚ) := by exact_mod_cast hm
        calc (4503599627370496 : ℚ) = ((2 ^ 52 : Nat) : ℚ) := by norm_num
          _ ≤ (my : ℚ) := this
      have h64 : (2 : ℚ) ^ (-1064 : Int) ≤ (2 : ℚ) ^ ey :=
        zpow_le_zpow_right₀ (by norm_num) hge
      have p64 : (2 : ℚ) ^ (-1064 : Int) = 2048 * (2 : ℚ) ^ (-1075 : Int) := by
        have : (2048 : ℚ) = (2 : ℚ) ^ (11 : Int) := by norm_num
        rw [this, ← zpow_add₀ h20]
        norm_num
      have hv : (4503599627370496 : ℚ) * (2 : ℚ) ^ (-1064 : Int) ≤ (my : ℚ) * (2 : ℚ) ^ ey :=
        mul_le_mul hm52 h64 (by positivity) (by positivity)
      rw [p64] at hv
      rw [p22] at hq
      nlinarith
  -- the exact quotient is below 2^(-1022) - 2^(-1075)
  have hv2 : (my : ℚ) * (2 : ℚ) ^ ey
      < 1000 * ((4503599627370495 : ℚ) + 1 / 2) * (2 * (2 : ℚ) ^ (-1075 : Int)) := by
    rcases lt_or_eq_of_le hey with hlt | heq
    · have hle : ey ≤ -1066 := by omega
      have h66 : (2 : ℚ) ^ ey ≤ (2 : ℚ) ^ (-1066 : Int) :=
        zpow_le_zpow_right₀ (by norm_num) hle
      have hv : (my : ℚ) * (2 : ℚ) ^ ey ≤ 9007199254740992 * (2 : ℚ) ^ (-1066 : Int) :=
        mul_le_mul (le_of_lt hm53) h66 (by positivity) (by positivity)
      rw [p66] at hv
      generalize (my : ℚ) * (2 : ℚ) ^ ey = X at hv ⊢
      generalize (2 : ℚ) ^ (-1075 : Int) = u at hv hu ⊢
      linarith
    · rw [heq] at hq ⊢
      rw [p65, p22] at hq
      rw [p65]
      have hq2 : (my : ℚ) * 1024 < 9007199254740992 * 1000 := by
        have e1 : (my : ℚ) * (1024 * (2 : ℚ) ^ (-1075 : Int))
            = ((my : ℚ) * 1024) * (2 : ℚ) ^ (-1075 : Int) := by ring
        have e2 : 9007199254740992 * (2 : ℚ) ^ (-1075 : Int) * 1000
            = (9007199254740992 * 1000) * (2 : ℚ) ^ (-1075 : Int) := by ring
        rw [e1, e2] at hq
        exact lt_of_mul_lt_mul_right hq (le_of_lt hu)
      have hq3 : my * 1024 < 9007199254740992 * 1000 := by exact_mod_cast hq2
      have hq4 : my * 1024 + 1024 ≤ 9007199254740992 * 1000 := by omega
      have hq5 : (my : ℚ) * 1024 + 1024 ≤ 9007199254740992 * 1000 := by exact_mod_cast hq4
      have e3 : (my : ℚ) * (1024 * (2 : ℚ) ^ (-1075 : Int))
          = ((my : ℚ) * 1024) * (2 : ℚ) ^ (-1075 : Int) := by ring
      have e4 : 1000 * ((4503599627370495 : ℚ) + 1 / 2) * (2 * (2 : ℚ) ^ (-1075 : Int))
          = (9007199254740992 * 1000 - 1000) * (2 : ℚ) ^ (-1075 : Int) := by ring
      rw [e3, e4]
      apply mul_lt_mul_of_pos_right _ hu
      linarith
  simp only [F64.div, hK0, if_false]
  apply round_below_min _ _ _ (by positivity)
  rw [div_ratio _ _ _ _ hKpos, hK, div_mul_eq_mul_div, div_lt_iff₀ (by norm_num)]
  have hx : (my : ℚ) * (2 : ℚ) ^ ey * (2 : ℚ) ^ (1074 : Int)
      < 1000 * ((4503599627370495 : ℚ) + 1 / 2) * (2 * (2 : ℚ) ^ (-1075 : Int))
        * (2 : ℚ) ^ (1074 : Int) :=
    mul_lt_mul_of_pos_right hv2 (by positivity)
  have hy : 1000 * ((4503599627370495 : ℚ) + 1 / 2) * (2 * (2 : ℚ) ^ (-1075 : Int))
        * (2 : ℚ) ^ (1074 : Int)
      = ((4503599627370495 : ℚ) + 1 / 2) * 1000 := by
    have : 1000 * ((4503599627370495 : ℚ) + 1 / 2) * (2 * (2 : ℚ) ^ (-1075 : Int))
        * (2 : ℚ) ^ (1074 : Int)
        = 1000 * ((4503599627370495 : ℚ) + 1 / 2) * 2
          * ((2 : ℚ) ^ (1074 : Int) * (2 : ℚ) ^ (-1075 : Int)) := by ring
    rw [this, p74]
    ring
  rw [hy] at hx
  exact hx

/-- A number in canonical form whose quotient by `1000` is a normal number or
an infinity has an exact quotient of at least `2^(-1022)`. -/
theorem div_thousand_normal (c : Bool) (my : Nat) (ey : Int)
    (hc : (my < 2 ^ 52 ∧ ey = -1074) ∨ (2 ^ 52 ≤ my ∧ my < 2 ^ 53 ∧ -1074 ≤ ey ∧ ey ≤ 971))
    (h : F64.le (F64.fin false 4503599627370496 (-1074))
      (F64.abs (F64.div (F64.fin c my ey) (F64.fin false 8796093022208000 (-43)))) = true) :
    (2 : ℚ) ^ (-1022 : Int)
      ≤ ((my : ℚ) * (2 : ℚ) ^ ey) / (((8796093022208000 : Nat) : ℚ) * (2 : ℚ) ^ (-43 : Int)) := by
  by_contra hcon
  push_neg at hcon
  obtain ⟨m, hz, hm⟩ := div_thousand_below_min c my ey hc hcon
  rw [hz] at h
  simp [F64.abs, F64.le, F64.lt, F64.signed] at h
  omega

/-- The two roundings of `distance` commute with a scaling of the repetition
count by `2^j` when the smaller distance is a normal number (or an infinity)
and the larger distance is finite. -/
theorem distance_scale_normal (a b : Bool) (mx mL : Nat) (ex eL : Int) (j : Nat) (hmx : 0 < mx)
    (h1 : F64.le (F64.fin false 4503599627370496 (-1074))
      (F64.abs (F64.div (F64.mul (F64.fin a mx ex) (F64.fin b mL eL))
        (F64.fin false 8796093022208000 (-43)))) = true)
    (h2 : F64.lt (F64.abs (F64.div (F64.mul (F64.fin a mx (ex + j)) (F64.fin b mL eL))
        (F64.fin false 8796093022208000 (-43)))) (F64.inf false) = true) :
    F64.div (F64.mul (F64.fin a mx (ex + j)) (F64.fin b mL eL))
        (F64.fin false 8796093022208000 (-43))
      = F64.mul (F64.fin false 4503599627370496 ((j : Int) - 52))
          (F64.div (F64.mul (F64.fin a mx ex) (F64.fin b mL eL))
            (F64.fin false 8796093022208000 (-43))) := by
  have h20 : (2 : ℚ) ≠ 0 := by norm_num
  have hK : ((8796093022208000 : Nat) : ℚ) * (2 : ℚ) ^ (-43 : Int) = 1000 := by norm_num
  have hKpos : 0 < 8796093022208000 := by norm_num
  have h74 : (2 : ℚ) ^ (-1074 : Int) ≤ (2 : ℚ) ^ (-1022 : Int) :=
    zpow_le_zpow_right₀ (by norm_num) (by norm_num)
  rcases Nat.eq_zero_or_pos mL with hL0 | hmL
  · subst hL0
    rw [mul_zero_right] at h1
    simp [F64.div, F64.round, F64.abs, F64.le, F64.lt, F64.signed] at h1
  by_cases hρ : (2 : ℚ) ^ (-1022 : Int) ≤ ((mx : ℚ) * (2 : ℚ) ^ ex) * ((mL : ℚ) * (2 : ℚ) ^ eL)
  swap
  · exfalso
    push_neg at hρ
    obtain ⟨my, ey, hy, hvy⟩ := mul_fin_le a b mx mL ex eL (-1022) (by norm_num) (by norm_num)
      (le_of_lt hρ)
    have hc := mul_result_canonical _ _ _ _ _ _ _ _ _ hy
    rw [hy] at h1
    have hq := div_thousand_normal _ my ey hc h1
    rw [hK, le_div_iff₀ (by norm_num)] at hq
    have hpos : (0 : ℚ) < (2 : ℚ) ^ (-1022 : Int) := by positivity
    generalize (2 : ℚ) ^ (-1022 : Int) = u at hq hvy hpos
    generalize (my : ℚ) * (2 : ℚ) ^ ey = X at hq hvy
    linarith
  · obtain ⟨r, e0, hp, hp'⟩ := mul_scale a b mx mL ex eL j hmx hmL hρ
    rcases pack_cases (xor a b) r (e0 + j) with hinf | ⟨my, ey, hfin⟩
    · rw [hp', hinf] at h2
      simp [F64.div, F64.abs, F64.lt] at h2
    have hy' : F64.mul (F64.fin a mx (ex + j)) (F64.fin b mL eL) = F64.fin (xor a b) my ey := by
      rw [hp', hfin]
    have hy : F64.mul (F64.fin a mx ex) (F64.fin b mL eL) = F64.fin (xor a b) my (ey - j) := by
      rw [hp]
      exact pack_unshift _ r my e0 ey j hfin
    have hmy : 0 < my := by
      rcases Nat.eq_zero_or_pos my with h0 | hpos
      · exfalso
        apply mul_ne_zero_of_le a b mx mL ex eL hmx hmL (le_trans h74 hρ) (xor a b) (ey - j)
        rw [hy, h0]
      · exact hpos
    have hcy := mul_result_canonical _ _ _ _ _ _ _ _ _ hy
    rw [hy] at h1
    rw [hy'] at h2
    rw [hy, hy']
    have hρz := div_thousand_normal _ my (ey - j) hcy h1
    obtain ⟨r2, e2, hq, hq'⟩ := div_scale (xor a b) false my 8796093022208000 (ey - j) (-43) j
      hmy hKpos hρz
    rw [sub_add_cancel] at hq'
    rcases pack_cases (xor (xor a b) false) r2 (e2 + j) with hinf | ⟨mz, ez, hfin2⟩
    · rw [hq', hinf] at h2
      simp [F64.abs, F64.lt] at h2
    have hz' : F64.div (F64.fin (xor a b) my ey) (F64.fin false 8796093022208000 (-43))
        = F64.fin (xor (xor a b) false) mz ez := by
      rw [hq', hfin2]
    have hz : F64.div (F64.fin (xor a b) my (ey - j)) (F64.fin false 8796093022208000 (-43))
        = F64.fin (xor (xor a b) false) mz (ez - j) := by
      rw [hq]
      exact pack_unshift _ r2 mz e2 ez j hfin2
    have hmz : 0 < mz := by
      rcases Nat.eq_zero_or_pos mz with h0 | hpos
      · exfalso
        apply div_ne_zero_of_le (xor a b) false my 8796093022208000 (ey - j) (-43) hmy hKpos
          (le_trans h74 hρz) (xor (xor a b) false) (ez - j)
        rw [hz, h0]
      · exact hpos
    have hc := div_fin_canonical _ _ _ _ _ _ hKpos _ _ _ hz'
    rw [hz, hz']
    have hc2 : (mz < 2 ^ 52 ∧ ez - j + j = -1074) ∨
        (2 ^ 52 ≤ mz ∧ mz < 2 ^ 53 ∧ -1074 ≤ ez - j + j ∧ ez - j + j ≤ 971) := by
      rw [sub_add_cancel]
      exact hc
    rw [mul_two_pow_exact _ mz (ez - j) j hmz hc2, sub_add_cancel]

/-- An infinite distance stays the same infinity when the repetition count is
scaled by `2^j`. -/
theorem distance_scale_inf (a b : Bool) (mx mL : Nat) (ex eL : Int) (j : Nat) (hmx : 0 < mx)
    (s : Bool)
    (h : F64.div (F64.mul (F64.fin a mx ex) (F64.fin b mL eL))
        (F64.fin false 8796093022208000 (-43)) = F64.inf s) :
    F64.div (F64.mul (F64.fin a mx (ex + j)) (F64.fin b mL eL))
        (F64.fin false 8796093022208000 (-43))
      = F64.mul (F64.fin false 4503599627370496 ((j : Int) - 52))
          (F64.div (F64.mul (F64.fin a mx ex) (F64.fin b mL eL))
            (F64.fin false 8796093022208000 (-43))) := by
  have h20 : (2 : ℚ) ≠ 0 := by norm_num
  have hK : ((8796093022208000 : Nat) : ℚ) * (2 : ℚ) ^ (-43 : Int) = 1000 := by norm_num
  have hKpos : 0 < 8796093022208000 := by norm_num
  rcases Nat.eq_zero_or_pos mL with hL0 | hmL
  · subst hL0
    rw [mul_zero_right] at h
    simp [F64.div, F64.round] at h
  have hyc : F64.mul (F64.fin a mx ex) (F64.fin b mL eL) = F64.inf (xor a b) := by
    have hn : 0 < mx * mL * 2 ^ (ex + eL).toNat := by positivity
    have hd : 0 < 2 ^ (-(ex + eL)).toNat := by positivity
    rcases round_canonical (xor a b) _ _ hn hd with hi | ⟨my, ey, hf, hc⟩
    · simp only [F64.mul]
      exact hi
    · exfalso
      have hy : F64.mul (F64.fin a mx ex) (F64.fin b mL eL) = F64.fin (xor a b) my ey := by
        simp only [F64.mul]
        exact hf
      rw [hy] at h
      have hv : (my : ℚ) * (2 : ℚ) ^ ey ≤ (2 : ℚ) ^ (1024 : Int) := by
        have hm53 : (my : ℚ) ≤ (2 : ℚ) ^ (53 : Int) := by
          have h53 : my ≤ 2 ^ 53 := by
            rcases hc with ⟨hm, _⟩ | ⟨_, hm, _, _⟩ <;> omega
          have : (my : ℚ) ≤ ((2 ^ 53 : Nat) : ℚ) := by exact_mod_cast h53
          calc (my : ℚ) ≤ ((2 ^ 53 : Nat) : ℚ) := this
            _ = (2 : ℚ) ^ (53 : Int) := by norm_num
        have he971 : ey ≤ 971 := by
          rcases hc with ⟨_, he⟩ | ⟨_, _, _, he⟩ <;> omega
        calc (my : ℚ) * (2 : ℚ) ^ ey ≤ (2 : ℚ) ^ (53 : Int) * (2 : ℚ) ^ ey :=
              mul_le_mul_of_nonneg_right hm53 (by positivity)
          _ = (2 : ℚ) ^ (53 + ey) := (zpow_add₀ h20 _ _).symm
          _ ≤ (2 : ℚ) ^ (1024 : Int) := zpow_le_zpow_right₀ (by norm_num) (by omega)
      have hq : ((my : ℚ) * (2 : ℚ) ^ ey)
          / (((8796093022208000 : Nat) : ℚ) * (2 : ℚ) ^ (-43 : Int)) ≤ (2 : ℚ) ^ (1022 : Int) := by
        rw [hK, div_le_iff₀ (by norm_num)]
        calc (my : ℚ) * (2 : ℚ) ^ ey ≤ (2 : ℚ) ^ (1024 : Int) := hv
          _ = (2 : ℚ) ^ (1022 : Int) * (2 : ℚ) ^ (2 : Int) := by
              rw [← zpow_add₀ h20]
              norm_num
          _ ≤ (2 : ℚ) ^ (1022 : Int) * 1000 :=
              mul_le_mul_of_nonneg_left (by norm_num) (by positivity)
      obtain ⟨mz, ez, hz, _⟩ := div_fin_le (xor a b) false my 8796093022208000 ey (-43) 1022
        hKpos (by norm_num) (by norm_num) hq
      rw [hz] at h
      exact F64.noConfusion h
  have hρ : (2 : ℚ) ^ (-1022 : Int) ≤ ((mx : ℚ) * (2 : ℚ) ^ ex) * ((mL : ℚ) * (2 : ℚ) ^ eL) := by
    have hyc' := hyc
    simp only [F64.mul] at hyc'
    have := round_inf_ratio _ _ _ (by positivity) _ hyc'
    rw [mul_ratio] at this
    exact this
  obtain ⟨r, e0, hp, hp'⟩ := mul_scale a b mx mL ex eL j hmx hmL hρ
  rw [hp] at hyc
  rw [hp', pack_inf_shift _ r e0 j hyc, hp, hyc]
  simp [F64.div, F64.mul]

/-! ## Properties -/

/-- C1 (the code departs from the claim): the 30-minute swim passes the
zero-duration guard, its truncated hour count is `0`, and `Swimming.meanSpeed`
stops with an integer division by zero instead of yielding `0`; so do
`Swimming.Calories` and `ReadData`. -/
theorem C1_half_hour_swim_divides_by_zero :
    F64.lt (F64.abs (Duration.Hours halfHourSwimming.Training.Duration)) eps = false ∧
    F64.toInt (Duration.Hours halfHourSwimming.Training.Duration) = 0 ∧
    Swimming.meanSpeed halfHourSwimming = none ∧
    Swimming.Calories halfHourSwimming = none ∧
    ReadDataInfo (CaloriesCalculator.swimming halfHourSwimming) = none := by
  decide!

/-- C2: when `|Duration.Hours()| < 1e-8`, the mean speed is exactly `0` for
every activity kind, whatever the other fields are: `Training.meanSpeed`
(running, walking) returns `0` and `Swimming.meanSpeed` returns `0`. -/
theorem C2_speed_zero_under_guard (t : Training) (lengthPool countPool : Int)
    (h : F64.lt (F64.abs (Duration.Hours t.Duration)) eps = true) :
    Training.meanSpeed t = F64.zero ∧
    Swimming.meanSpeed { Training := t, LengthPool := lengthPool, CountPool := countPool }
      = some F64.zero := by
  constructor
  · simp [Training.meanSpeed, h]
  · simp [Swimming.meanSpeed, h]

/-- C2 at a workout of 35999 ns, which is under the guard. -/
theorem C2_speed_zero_under_guard_witness :
    F64.lt (F64.abs (Duration.Hours 35999)) eps = true ∧
    Training.meanSpeed { mainRunning.Training with Duration := 35999 } = F64.zero ∧
    Swimming.meanSpeed
      { Training := { mainRunning.Training with Duration := 35999 },
        LengthPool := 50, CountPool := 5 } = some F64.zero :=
  ⟨by decide!,
   C2_speed_zero_under_guard { mainRunning.Training with Duration := 35999 } 50 5 (by decide!)⟩

/-- C3 (the code departs from the claim): for the walking workout of `main`
the code returns `18*85 + (v^2/(185*100)*0.029*85*3.75*60)`, about `1530.36`,
where the claimed `(18*85 + v^2/(185*100)*0.029*85) * 3.75 * 60` is about
`344250.36`: the factor `hours * 60` reaches only the second summand. -/
theorem C3_walking_calories_of_main :
    F64.toRat mainWalking.Training.distance = some 13 ∧
    Walking.Calories mainWalking = F64.fin false 6730595732977944 (-42) ∧
    F64.hundredths (Walking.Calories mainWalking) = some 153036 ∧
    F64.hundredths
      (F64.mul
        (F64.mul
          (F64.add
            (F64.mul (F64.ofInt 18) mainWalking.Training.Weight)
            (F64.mul
              (F64.mul
                (F64.div (F64.powTwo mainWalking.Training.meanSpeed)
                  (F64.mul mainWalking.Height (F64.ofInt 100)))
                (F64.ofRatio 29 1000))
              mainWalking.Training.Weight))
          (Duration.Hours mainWalking.Training.Duration))
        (F64.ofInt 60)) = some 34425036 := by
  refine ⟨?_, by decide!, by decide!, by decide!⟩
  have h : mainWalking.Training.distance = F64.fin false 7318349394477056 (-49) := by decide!
  rw [h]
  norm_num [F64.toRat, F64.signed]

/-- C4, the claim as stated fails: the calories of the running workout of
`main` do not round to `309.76`. -/
theorem C4_running_calories_not_309_76 :
    F64.hundredths (Running.Calories mainRunning) ≠ some 30976 := by
  decide!

/-- C4 as amended: for the running workout of `main`, `Training.distance`
returns `3.25`, `Training.meanSpeed` returns `6.5`, and `Running.Calories`
returns the `float64` value of `(18*6.5+1.79)*85/1000*0.5*60`, which rounds to
`302.91` at two decimal places. -/
theorem C4_running_example :
    F64.toRat mainRunning.Training.distance = some (13 / 4) ∧
    F64.toRat mainRunning.Training.meanSpeed = some (13 / 2) ∧
    Running.Calories mainRunning =
      F64.mul
        (F64.mul
          (F64.div
            (F64.mul
              (F64.add (F64.mul (F64.ofInt 18) (F64.ofRatio 65 10)) (F64.ofRatio 179 100))
              (F64.ofInt 85))
            (F64.ofInt 1000))
          (F64.ofRatio 5 10))
        (F64.ofInt 60) ∧
    F64.hundredths (Running.Calories mainRunning) = some 30291 := by
  refine ⟨?_, ?_, by decide!, by decide!⟩
  · have h : mainRunning.Training.distance = F64.fin false 7318349394477056 (-51) := by decide!
    rw [h]
    norm_num [F64.toRat, F64.signed]
  · have h : mainRunning.Training.meanSpeed = F64.fin false 7318349394477056 (-50) := by decide!
    rw [h]
    norm_num [F64.toRat, F64.signed]

/-- C5: for every running workout, `Running.Calories` is
`(18 * v + 1.79) * Weight / 1000 * hours * 60`, evaluated from left to right,
where `v` is the base speed: `0` under the zero-duration guard and
`distance / hours` otherwise, with `distance = Action * LenStep / 1000`. -/
theorem C5_running_calories_formula (r : Running) :
    Running.Calories r =
      F64.mul
        (F64.mul
          (F64.div
            (F64.mul
              (F64.add
                (F64.mul (F64.ofInt 18)
                  (if F64.lt (F64.abs (Duration.Hours r.Training.Duration))
                        (F64.ofRatio 1 100000000) = true then
                    F64.zero
                  else
                    F64.div
                      (F64.div (F64.mul (F64.ofInt r.Training.Action) r.Training.LenStep)
                        (F64.ofInt 1000))
                      (Duration.Hours r.Training.Duration)))
                (F64.ofRatio 179 100))
              r.Training.Weight)
            (F64.ofInt 1000))
          (Duration.Hours r.Training.Duration))
        (F64.ofInt 60) := by
  simp only [Running.Calories, Training.meanSpeed, Training.distance, eps,
    CaloriesMeanSpeedMultiplier, CaloriesMeanSpeedShift, MInKm, MinInHours]

/-- C6, the claim as stated fails: the calories of the swimming workout of
`main` are not exactly `280.5`; the `float64` result is the next number above
it, `280.5 + 2^(-44)`. -/
theorem C6_swimming_calories_not_280_5 :
    (Swimming.Calories mainSwimming).bind F64.toRat ≠ some (561 / 2) := by
  have h : Swimming.Calories mainSwimming = some (F64.fin false 4934608185458689 (-44)) := by
    decide!
  rw [h]
  norm_num [F64.toRat, F64.signed]

/-- C6 as amended: for the swimming workout of `main` the truncated hour
count is `1`, `Swimming.meanSpeed` returns `0`, and `Swimming.Calories`
returns the `float64` value of `(0+1.1)*2*85*1.5`, which is `280.5 + 2^(-44)`
and rounds to `280.50` at two decimal places. -/
theorem C6_swimming_example :
    F64.toInt (Duration.Hours mainSwimming.Training.Duration) = 1 ∧
    intDiv (wrap64 (mainSwimming.LengthPool * mainSwimming.CountPool)) 1000 = 0 ∧
    Swimming.meanSpeed mainSwimming = some F64.zero ∧
    Swimming.Calories mainSwimming =
      some (F64.mul
        (F64.mul (F64.mul (F64.add F64.zero (F64.ofRatio 11 10)) (F64.ofInt 2)) (F64.ofInt 85))
        (F64.ofRatio 15 10)) ∧
    (Swimming.Calories mainSwimming).bind F64.toRat = some (561 / 2 + 1 / 2 ^ 44) ∧
    (Swimming.Calories mainSwimming).bind F64.hundredths = some 28050 := by
  refine ⟨by decide!, by decide!, by decide!, by decide!, ?_, by decide!⟩
  have h : Swimming.Calories mainSwimming = some (F64.fin false 4934608185458689 (-44)) := by
    decide!
  rw [h]
  norm_num [F64.toRat, F64.signed]

/-- C7, the claim as stated fails at the edge of the `int` range.  For one
crossing of a pool of `2^63 - 1` metres in one hour the quotient is
`9223372036854775`, which `float64` cannot hold: `Swimming.meanSpeed` returns
`9223372036854776`.  For `2^32` crossings of `2^32` metres the product wraps
around to `0` and the returned speed is `0`, not `18446744073709551`. -/
theorem C7_quotient_not_returned :
    Int.tdiv (Int.tdiv (longPoolSwimming.LengthPool * longPoolSwimming.CountPool) 1000)
      (F64.toInt (Duration.Hours longPoolSwimming.Training.Duration)) = 9223372036854775 ∧
    (Swimming.meanSpeed longPoolSwimming).bind F64.toRat = some 9223372036854776 ∧
    Int.tdiv (Int.tdiv (squarePoolSwimming.LengthPool * squarePoolSwimming.CountPool) 1000)
      (F64.toInt (Duration.Hours squarePoolSwimming.Training.Duration)) = 18446744073709551 ∧
    Swimming.meanSpeed squarePoolSwimming = some F64.zero := by
  refine ⟨by decide!, ?_, by decide!, by decide!⟩
  have h : Swimming.meanSpeed longPoolSwimming = some (F64.fin false 4611686018427388 1) := by
    decide!
  rw [h]
  norm_num [F64.toRat, F64.signed]

/-- C7 as amended: for every swimming workout with non-negative `LengthPool`
and `CountPool` whose product is below `2^63` and a duration of at least one
hour, the truncated hour count `n = int(hours)` is at least `1` and
`Swimming.meanSpeed` returns `float64(q)` for the whole number
`q = ((LengthPool * CountPool) div 1000) div n`, both divisions truncating;
the returned value is `q` itself whenever `q < 2^53`. -/
theorem C7_swimming_meanSpeed_truncates (s : Swimming)
    (hL : 0 ≤ s.LengthPool) (hC : 0 ≤ s.CountPool)
    (hprod : s.LengthPool * s.CountPool < 2 ^ 63)
    (hd : Hour ≤ s.Training.Duration) (hd63 : s.Training.Duration < 2 ^ 63) :
    1 ≤ F64.toInt (Duration.Hours s.Training.Duration) ∧
    Swimming.meanSpeed s =
      some (F64.ofInt
        (Int.tdiv (Int.tdiv (s.LengthPool * s.CountPool) 1000)
          (F64.toInt (Duration.Hours s.Training.Duration)))) ∧
    (Int.tdiv (Int.tdiv (s.LengthPool * s.CountPool) 1000)
        (F64.toInt (Duration.Hours s.Training.Duration)) < 2 ^ 53 →
      (Swimming.meanSpeed s).bind F64.toRat =
        some ((Int.tdiv (Int.tdiv (s.LengthPool * s.CountPool) 1000)
          (F64.toInt (Duration.Hours s.Training.Duration)) : Int) : ℚ)) := by
  obtain ⟨m, a, hh, hl, hu⟩ := hours_bounds s.Training.Duration hd hd63
  obtain ⟨ht, ht1, ht2⟩ := toInt_bounds m a 23 hl hu (by norm_num)
  have hguard := not_lt_eps m a hl
  rw [hh, ht]
  set n : Nat := m / 2 ^ a with hn
  have hn1 : (1 : Int) ≤ (n : Int) := by exact_mod_cast ht1
  have hP : (0 : Int) ≤ s.LengthPool * s.CountPool := mul_nonneg hL hC
  have hw1 : wrap64 (s.LengthPool * s.CountPool) = s.LengthPool * s.CountPool :=
    wrap64_of_range _ (by norm_num; omega) hprod
  have hq1 : Int.tdiv (s.LengthPool * s.CountPool) 1000 = s.LengthPool * s.CountPool / 1000 :=
    Int.tdiv_eq_ediv hP (by norm_num)
  have hq1n : (0 : Int) ≤ s.LengthPool * s.CountPool / 1000 := Int.ediv_nonneg hP (by norm_num)
  have hq1u : s.LengthPool * s.CountPool / 1000 ≤ s.LengthPool * s.CountPool :=
    Int.ediv_le_self _ hP
  have hq2 : Int.tdiv (s.LengthPool * s.CountPool / 1000) (n : Int)
      = s.LengthPool * s.CountPool / 1000 / (n : Int) :=
    Int.tdiv_eq_ediv hq1n (by omega)
  have hq2n : (0 : Int) ≤ s.LengthPool * s.CountPool / 1000 / (n : Int) :=
    Int.ediv_nonneg hq1n (by omega)
  have hq2u : s.LengthPool * s.CountPool / 1000 / (n : Int) ≤ s.LengthPool * s.CountPool / 1000 :=
    Int.ediv_le_self _ hq1n
  have hms : Swimming.meanSpeed s =
      some (F64.ofInt (s.LengthPool * s.CountPool / 1000 / (n : Int))) := by
    have hne : ¬ ((n : Int) = 0) := by omega
    simp only [Swimming.meanSpeed, hh, hguard, Bool.false_eq_true, if_false, ht, hne, intDiv,
      MInKm, hw1, hq1]
    rw [wrap64_of_range (s.LengthPool * s.CountPool / 1000) (by norm_num; omega) (by omega), hq2,
      wrap64_of_range _ (by norm_num; omega) (by omega)]
  rw [hq1, hq2]
  refine ⟨hn1, hms, ?_⟩
  intro h53
  rw [hms, Option.some_bind, ofInt_exact _ hq2n h53]

/-- C7 as amended, at a swim of 100 crossings of a 50-metre pool in 2 h 30 min:
the hour count is `2` and the speed `(5000 div 1000) div 2 = 2`. -/
theorem C7_swimming_meanSpeed_truncates_witness :
    (0 ≤ poolSwimming.LengthPool ∧ 0 ≤ poolSwimming.CountPool ∧
      poolSwimming.LengthPool * poolSwimming.CountPool < 2 ^ 63 ∧
      Hour ≤ poolSwimming.Training.Duration ∧ poolSwimming.Training.Duration < 2 ^ 63) ∧
    F64.toInt (Duration.Hours poolSwimming.Training.Duration) = 2 ∧
    Int.tdiv (Int.tdiv (poolSwimming.LengthPool * poolSwimming.CountPool) 1000)
      (F64.toInt (Duration.Hours poolSwimming.Training.Duration)) = 2 ∧
    (1 ≤ F64.toInt (Duration.Hours poolSwimming.Training.Duration) ∧
      Swimming.meanSpeed poolSwimming =
        some (F64.ofInt
          (Int.tdiv (Int.tdiv (poolSwimming.LengthPool * poolSwimming.CountPool) 1000)
            (F64.toInt (Duration.Hours poolSwimming.Training.Duration)))) ∧
      (Int.tdiv (Int.tdiv (poolSwimming.LengthPool * poolSwimming.CountPool) 1000)
          (F64.toInt (Duration.Hours poolSwimming.Training.Duration)) < 2 ^ 53 →
        (Swimming.meanSpeed poolSwimming).bind F64.toRat =
          some ((Int.tdiv (Int.tdiv (poolSwimming.LengthPool * poolSwimming.CountPool) 1000)
            (F64.toInt (Duration.Hours poolSwimming.Training.Duration)) : Int) : ℚ))) :=
  ⟨by decide, by decide!, by decide!,
    C7_swimming_meanSpeed_truncates poolSwimming (by decide) (by decide) (by decide) (by decide)
      (by decide)⟩

/-- C8: whenever `Swimming.meanSpeed` returns a speed `v`, `Swimming.Calories`
returns `(v + 1.1) * 2 * Weight * hours` for that `v`; and `v` is the truncated
pool speed, not the base speed of the embedded record: for the workout of
`main` the two differ, and so do the calories computed from them. -/
theorem C8_swimming_calories_formula (s : Swimming) (v : F64)
    (h : Swimming.meanSpeed s = some v) :
    Swimming.Calories s =
        some (F64.mul
          (F64.mul (F64.mul (F64.add v (F64.ofRatio 11 10)) (F64.ofInt 2)) s.Training.Weight)
          (Duration.Hours s.Training.Duration)) ∧
    Swimming.meanSpeed mainSwimming ≠ some (Training.meanSpeed mainSwimming.Training) ∧
    Swimming.Calories mainSwimming ≠
        some (F64.mul
          (F64.mul
            (F64.mul (F64.add (Training.meanSpeed mainSwimming.Training) (F64.ofRatio 11 10))
              (F64.ofInt 2))
            mainSwimming.Training.Weight)
          (Duration.Hours mainSwimming.Training.Duration)) := by
  refine ⟨?_, by decide!, by decide!⟩
  simp only [Swimming.Calories, h, Option.map_some', SwimmingCaloriesMeanSpeedShift,
    SwimmingCaloriesWeightMultiplier]

/-- C8 at the swimming workout of `main`, whose speed is `0`. -/
theorem C8_swimming_calories_formula_witness :
    Swimming.meanSpeed mainSwimming = some F64.zero ∧
    Swimming.Calories mainSwimming =
        some (F64.mul
          (F64.mul (F64.mul (F64.add F64.zero (F64.ofRatio 11 10)) (F64.ofInt 2))
            mainSwimming.Training.Weight)
          (Duration.Hours mainSwimming.Training.Duration)) :=
  ⟨by decide!, (C8_swimming_calories_formula mainSwimming F64.zero (by decide!)).1⟩

/-- C9: for every activity value `a` whose `Calories()` returns `c`, the
summary that `ReadData` renders has calorie field `c` and takes its label,
duration, distance and speed from `a.TrainingInfo()`. -/
theorem C9_readData_summary (a : CaloriesCalculator) (c : F64)
    (h : CaloriesCalculator.Calories a = some c) :
    ∃ info, ReadDataInfo a = some info ∧
      info.Calories = c ∧
      info.TrainingType = (CaloriesCalculator.TrainingInfo a).TrainingType ∧
      info.Duration = (CaloriesCalculator.TrainingInfo a).Duration ∧
      info.Distance = (CaloriesCalculator.TrainingInfo a).Distance ∧
      info.Speed = (CaloriesCalculator.TrainingInfo a).Speed := by
  refine ⟨{ CaloriesCalculator.TrainingInfo a with Calories := c }, ?_, rfl, rfl, rfl, rfl, rfl⟩
  simp only [ReadDataInfo, h, Option.map_some']

/-- C9 at the running workout of `main`: the rendered summary carries the
calories of `Running.Calories`. -/
theorem C9_readData_summary_witness :
    CaloriesCalculator.Calories (CaloriesCalculator.running mainRunning)
      = some (Running.Calories mainRunning) ∧
    ∃ info, ReadDataInfo (CaloriesCalculator.running mainRunning) = some info ∧
      info.Calories = Running.Calories mainRunning ∧
      info.TrainingType = (CaloriesCalculator.TrainingInfo
        (CaloriesCalculator.running mainRunning)).TrainingType ∧
      info.Duration = (CaloriesCalculator.TrainingInfo
        (CaloriesCalculator.running mainRunning)).Duration ∧
      info.Distance = (CaloriesCalculator.TrainingInfo
        (CaloriesCalculator.running mainRunning)).Distance ∧
      info.Speed = (CaloriesCalculator.TrainingInfo
        (CaloriesCalculator.running mainRunning)).Speed :=
  ⟨rfl, C9_readData_summary (CaloriesCalculator.running mainRunning)
    (Running.Calories mainRunning) rfl⟩

/-- C10, the claim as stated fails: for the running workout of `main` the
calorie field of `Running.TrainingInfo` is `0`, not `Running.Calories`. -/
theorem C10_trainingInfo_calories_not_running_calories :
    (Running.TrainingInfo mainRunning).Calories = F64.zero ∧
    (Running.TrainingInfo mainRunning).Calories ≠ Running.Calories mainRunning := by
  decide!

/-- C10 as amended: for every running workout `r`, `Running.TrainingInfo`
copies label and duration from the base record, takes distance and speed from
the base methods, and has calorie field `0`, the base default
`Training.Calories`; the value of `Running.Calories` enters the summary only
in `ReadData`. -/
theorem C10_running_trainingInfo (r : Running) :
    Running.TrainingInfo r =
      { TrainingType := r.Training.TrainingType
        Duration := r.Training.Duration
        Distance := Training.distance r.Training
        Speed := Training.meanSpeed r.Training
        Calories := F64.zero } ∧
    ReadDataInfo (CaloriesCalculator.running r) =
      some { Running.TrainingInfo r with Calories := Running.Calories r } :=
  ⟨rfl, rfl⟩

/-- C11: for every record whose duration does not pass the guard
`|Duration.Hours()| < 1e-8`, `Training.meanSpeed` returns
`distance() / Duration.Hours()`, with `distance() = Action * LenStep / 1000`. -/
theorem C11_meanSpeed_is_distance_over_hours (t : Training)
    (h : F64.lt (F64.abs (Duration.Hours t.Duration)) eps = false) :
    Training.meanSpeed t = F64.div (Training.distance t) (Duration.Hours t.Duration) ∧
    Training.distance t =
      F64.div (F64.mul (F64.ofInt t.Action) t.LenStep) (F64.ofInt 1000) := by
  constructor
  · simp [Training.meanSpeed, h]
  · rfl

/-- C11 at the walking workout of `main`: the distance is `13`, the hours are
`3.75`, and the speed is the `float64` quotient `13 / 3.75`, which is
`3.466666666666667`. -/
theorem C11_meanSpeed_is_distance_over_hours_witness :
    F64.lt (F64.abs (Duration.Hours mainWalking.Training.Duration)) eps = false ∧
    F64.toRat (Training.distance mainWalking.Training) = some 13 ∧
    F64.toRat (Duration.Hours mainWalking.Training.Duration) = some (15 / 4) ∧
    Training.meanSpeed mainWalking.Training = F64.fin false 7806239354108860 (-51) ∧
    (Training.meanSpeed mainWalking.Training
        = F64.div (Training.distance mainWalking.Training)
            (Duration.Hours mainWalking.Training.Duration) ∧
      Training.distance mainWalking.Training =
        F64.div (F64.mul (F64.ofInt mainWalking.Training.Action) mainWalking.Training.LenStep)
          (F64.ofInt 1000)) := by
  refine ⟨by decide!, ?_, ?_, by decide!,
    C11_meanSpeed_is_distance_over_hours mainWalking.Training (by decide!)⟩
  · have h : mainWalking.Training.distance = F64.fin false 7318349394477056 (-49) := by decide!
    rw [h]
    norm_num [F64.toRat, F64.signed]
  · have h : Duration.Hours mainWalking.Training.Duration
        = F64.fin false 8444249301319680 (-51) := by decide!
    rw [h]
    norm_num [F64.toRat, F64.signed]

/-- C12, the claim as stated fails.  With step length `0.65`, three steps give
the distance `0.0019500000000000001` while three times the distance of one
step is `0.00195`; the multipliers `5`, `6` and `7` fail in the same way.
With the subnormal step length `700 * 2^(-1074)` the distance of two steps
equals the distance of one step, and with the step length `2^1023` the
distance of two steps overflows to `+Inf` while twice the distance of one
step is finite. -/
theorem C12_distance_not_linear :
    Training.distance { mainRunning.Training with Action := 3 }
      ≠ F64.mul (F64.ofInt 3) (Training.distance { mainRunning.Training with Action := 1 }) ∧
    Training.distance { mainRunning.Training with Action := 3 }
      = F64.fin false 8992787735933407 (-62) ∧
    F64.mul (F64.ofInt 3) (Training.distance { mainRunning.Training with Action := 1 })
      = F64.fin false 8992787735933406 (-62) ∧
    Training.distance { mainSwimming.Training with Action := 5 * 3 }
      ≠ F64.mul (F64.ofInt 5) (Training.distance { mainSwimming.Training with Action := 3 }) ∧
    Training.distance { mainRunning.Training with Action := 6 * 1 }
      ≠ F64.mul (F64.ofInt 6) (Training.distance { mainRunning.Training with Action := 1 }) ∧
    Training.distance { mainSwimming.Training with Action := 7 * 3 }
      ≠ F64.mul (F64.ofInt 7) (Training.distance { mainSwimming.Training with Action := 3 }) ∧
    Training.distance { mainRunning.Training with Action := 2, LenStep := F64.fin false 700 (-1074) }
      ≠ F64.mul (F64.ofInt 2)
          (Training.distance
            { mainRunning.Training with Action := 1, LenStep := F64.fin false 700 (-1074) }) ∧
    Training.distance
        { mainRunning.Training with Action := 2, LenStep := F64.fin false 4503599627370496 971 }
      = F64.inf false ∧
    F64.mul (F64.ofInt 2)
        (Training.distance
          { mainRunning.Training with Action := 1, LenStep := F64.fin false 4503599627370496 971 })
      = F64.fin false 4611686018427388 962 := by
  refine ⟨by decide!, by decide!, by decide!, by decide!, by decide!, by decide!, by decide!,
    by decide!, by decide!⟩

/-- C12 as amended: `Training.distance` scales exactly with the repetition
count for the multipliers `k = 2^j` (doubling is `j = 1`).  For a record with
repetition count `n` and step length `L` and `k = 2^j ≤ 2^62` with `k * n` in
the `int` range, the distance of the record with `Action = k * n` equals
`float64(k) * distance(n, L)` whenever `L` is zero, or `n` is zero and `L` is
finite, or `distance(n, L)` is a normal number (magnitude at least
`2^(-1022)`) and `distance(k * n, L)` is finite, or `distance(n, L)` is
infinite. -/
theorem C12_distance_scales (t : Training) (j : Nat) (hj : j ≤ 62)
    (hk1 : -2 ^ 63 ≤ 2 ^ j * t.Action) (hk2 : 2 ^ j * t.Action < 2 ^ 63)
    (h : (∃ (s : Bool) (e : Int), t.LenStep = F64.fin s 0 e) ∨
      (t.Action = 0 ∧ ∃ (s : Bool) (m : Nat) (e : Int), t.LenStep = F64.fin s m e) ∨
      (F64.le (F64.fin false 4503599627370496 (-1074)) (F64.abs (Training.distance t)) = true ∧
        F64.lt (F64.abs (Training.distance { t with Action := 2 ^ j * t.Action }))
          (F64.inf false) = true) ∨
      (∃ (s : Bool), Training.distance t = F64.inf s)) :
    Training.distance { t with Action := 2 ^ j * t.Action }
      = F64.mul (F64.ofInt (2 ^ j)) (Training.distance t) := by
  have hK : F64.ofInt 1000 = F64.fin false 8796093022208000 (-43) := by decide!
  have hk := ofInt_two_pow j hj
  have h0 : F64.ofInt 0 = F64.fin false 0 (-1074) := by decide
  simp only [Training.distance, MInKm, hK, hk] at h ⊢
  by_cases hn0 : t.Action = 0
  · rw [hn0, mul_zero, h0]
    cases t.LenStep <;> simp [F64.mul, F64.div, F64.round]
  · obtain ⟨mx, ex, hmx, hx, hx'⟩ := ofInt_scale t.Action j hn0 hk1 hk2
    rw [hx, hx'] at h ⊢
    generalize decide (t.Action < 0) = a at h ⊢
    cases hL : t.LenStep with
    | nan => simp [F64.mul, F64.div]
    | inf b =>
      have hm : ¬ (mx = 0) := by omega
      simp [F64.mul, F64.div, hm]
    | fin b mL eL =>
      rw [hL] at h
      rcases h with ⟨s, e, hz⟩ | ⟨hn, _⟩ | ⟨h1, h2⟩ | ⟨s, hs⟩
      · injection hz with _ hm _
        subst hm
        rw [mul_zero_right, mul_zero_right]
        simp [F64.mul, F64.div, F64.round]
      · exact absurd hn hn0
      · exact distance_scale_normal a b mx mL ex eL j hmx h1 h2
      · exact distance_scale_inf a b mx mL ex eL j hmx s hs

/-- C12 at the running workout of `main`, doubled (`j = 1`): 5000 steps of
`0.65` m are `3.25` km and 10000 steps are `6.5` km, twice as much. -/
theorem C12_distance_scales_witness :
    ((1 ≤ 62 ∧ -2 ^ 63 ≤ 2 ^ 1 * mainRunning.Training.Action ∧
        2 ^ 1 * mainRunning.Training.Action < 2 ^ 63) ∧
      F64.le (F64.fin false 4503599627370496 (-1074))
        (F64.abs (Training.distance mainRunning.Training)) = true ∧
      F64.lt (F64.abs (Training.distance
        { mainRunning.Training with Action := 2 ^ 1 * mainRunning.Training.Action }))
        (F64.inf false) = true) ∧
    Training.distance
        { mainRunning.Training with Action := 2 ^ 1 * mainRunning.Training.Action }
      = F64.mul (F64.ofInt (2 ^ 1)) (Training.distance mainRunning.Training) ∧
    (2 : Int) ^ 1 * mainRunning.Training.Action = 10000 ∧
    F64.ofInt (2 ^ 1) = F64.ofInt 2 ∧
    F64.toRat (Training.distance mainRunning.Training) = some (13 / 4) ∧
    F64.toRat (Training.distance
      { mainRunning.Training with Action := 2 ^ 1 * mainRunning.Training.Action })
      = some (13 / 2) :=
  ⟨⟨⟨by decide, by decide, by decide⟩, by decide!, by decide!⟩,
    C12_distance_scales mainRunning.Training 1 (by decide) (by decide) (by decide)
      (Or.inr (Or.inr (Or.inl ⟨by decide!, by decide!⟩))),
    by decide, by decide!,
    by
      have h : Training.distance mainRunning.Training = F64.fin false 7318349394477056 (-51) := by
        decide!
      rw [h]
      norm_num [F64.toRat, F64.signed],
    by
      have h : Training.distance
          { mainRunning.Training with Action := 2 ^ 1 * mainRunning.Training.Action }
          = F64.fin false 7318349394477056 (-50) := by
        decide!
      rw [h]
      norm_num [F64.toRat, F64.signed]⟩

/-- C13, the claim as stated fails: in the report of the running workout of
`main` the distance line is `Дистанция: 3.25 км. ` with a space between the
full stop and the newline, so the output is not the template with every line
ending directly in a newline; and a calorie figure that is not a number is
printed as `NaN`, without decimals (a walk of zero duration and zero height). -/
theorem C13_distance_line_ends_in_space :
    ReadData (CaloriesCalculator.running mainRunning) =
      some "Тип тренировки: Бег\nДлительность: 30 мин\nДистанция: 3.25 км. \nСр.скорость: 6.50 км/ч\nПотрачено ккал: 302.91\n" ∧
    ReadData (CaloriesCalculator.running mainRunning) ≠
      some "Тип тренировки: Бег\nДлительность: 30 мин\nДистанция: 3.25 км.\nСр.скорость: 6.50 км/ч\nПотрачено ккал: 302.91\n" ∧
    ReadData (CaloriesCalculator.walking zeroWalking) =
      some "Тип тренировки: Ходьба\nДлительность: 0 мин\nДистанция: 13.00 км. \nСр.скорость: 0.00 км/ч\nПотрачено ккал: NaN\n" := by
  decide!

/-- C13 as amended: `InfoMessage.String` renders five lines in the order
label, duration, distance, speed, calories, each ending in a newline, the
distance line with a space before it (`км. `).  The duration is
`Duration.Minutes()` in the `%v` form; distance, speed and calories are in the
`%.2f` form, which for a finite value is the sign, the integer part, a point
and exactly two decimals of the value rounded to hundredths.  The three
reports of `main` are as listed. -/
theorem C13_string_template (i : InfoMessage) :
    InfoMessage.String i =
      "Тип тренировки: " ++ i.TrainingType ++ "\n"
        ++ "Длительность: " ++ String.mk (F64.fmtV (Duration.Minutes i.Duration)) ++ " мин" ++ "\n"
        ++ "Дистанция: " ++ String.mk (F64.fmtF2 i.Distance) ++ " км. " ++ "\n"
        ++ "Ср.скорость: " ++ String.mk (F64.fmtF2 i.Speed) ++ " км/ч" ++ "\n"
        ++ "Потрачено ккал: " ++ String.mk (F64.fmtF2 i.Calories) ++ "\n" ∧
    (∀ (neg : Bool) (m : Nat) (e : Int),
      F64.fmtF2 (F64.fin neg m e) =
        (if neg then ['-'] else [])
          ++ natDigits (F64.roundEven (100 * m * 2 ^ e.toNat) (2 ^ (-e).toNat) / 100)
          ++ ['.', digitChar (F64.roundEven (100 * m * 2 ^ e.toNat) (2 ^ (-e).toNat) % 100 / 10),
              digitChar (F64.roundEven (100 * m * 2 ^ e.toNat) (2 ^ (-e).toNat) % 10)]) ∧
    ReadData (CaloriesCalculator.swimming mainSwimming) =
      some "Тип тренировки: Плавание\nДлительность: 90 мин\nДистанция: 2.76 км. \nСр.скорость: 1.84 км/ч\nПотрачено ккал: 280.50\n" ∧
    ReadData (CaloriesCalculator.walking mainWalking) =
      some "Тип тренировки: Ходьба\nДлительность: 225 мин\nДистанция: 13.00 км. \nСр.скорость: 3.47 км/ч\nПотрачено ккал: 1530.36\n" ∧
    ReadData (CaloriesCalculator.running mainRunning) =
      some "Тип тренировки: Бег\nДлительность: 30 мин\nДистанция: 3.25 км. \nСр.скорость: 6.50 км/ч\nПотрачено ккал: 302.91\n" := by
  refine ⟨?_, ?_, by decide!, by decide!, by decide!⟩
  · have h1 : "\nДлительность: " = "\n" ++ "Длительность: " := by decide
    have h2 : " мин\nДистанция: " = " мин" ++ ("\n" ++ "Дистанция: ") := by decide
    have h3 : " км. \nСр.скорость: " = " км. " ++ ("\n" ++ "Ср.скорость: ") := by decide
    have h4 : " км/ч\nПотрачено ккал: " = " км/ч" ++ ("\n" ++ "Потрачено ккал: ") := by decide
    simp only [InfoMessage.String, h1, h2, h3, h4, String.append_assoc]
  · intro neg m e
    have hpad : ∀ k, k < 100 → natDigitsPad 2 k = [digitChar (k / 10), digitChar (k % 10)] := by
      decide
    simp only [F64.fmtF2]
    rw [hpad _ (Nat.mod_lt _ (by norm_num))]
    have hmod : ∀ h : Nat, h % 100 % 10 = h % 10 := by
      intro h
      omega
    rw [hmod]
    simp

/-- C14: for every activity value of every kind, the draft summary returned by
its own `TrainingInfo` has calorie field `0`: each `TrainingInfo` calls the
base default `Training.Calories`, never the `Calories` of the variant. -/
theorem C14_draft_calories_zero (a : CaloriesCalculator) :
    (CaloriesCalculator.TrainingInfo a).Calories = F64.zero ∧
    (∀ r : Running, (Running.TrainingInfo r).Calories = Training.Calories r.Training) ∧
    (∀ w : Walking, (Walking.TrainingInfo w).Calories = Training.Calories w.Training) ∧
    (∀ s : Swimming, (Swimming.TrainingInfo s).Calories = Training.Calories s.Training) ∧
    (∀ t : Training, Training.Calories t = F64.zero) := by
  refine ⟨?_, fun _ => rfl, fun _ => rfl, fun _ => rfl, fun _ => rfl⟩
  cases a <;> rfl

/-- C15, the claim as stated fails.  For a swim of zero duration the summary
speed is `0` while `Action * LenStep / 1000 / Duration.Hours()` is `+Inf`; and
for the swim of `main` the summary speed is the `float64` quotient
`1.8399999999999999`, one unit in the last place below `1.84`. -/
theorem C15_summary_speed_not_plain_quotient :
    (Swimming.TrainingInfo zeroSwimming).Speed = F64.zero ∧
    F64.div
        (F64.div (F64.mul (F64.ofInt zeroSwimming.Training.Action) zeroSwimming.Training.LenStep)
          (F64.ofInt 1000))
        (Duration.Hours zeroSwimming.Training.Duration) = F64.inf false ∧
    F64.toRat (Swimming.TrainingInfo mainSwimming).Speed ≠ some (184 / 100) ∧
    (Swimming.TrainingInfo mainSwimming).Speed ≠ F64.ofRatio 184 100 := by
  refine ⟨by decide!, by decide!, ?_, by decide!⟩
  have h : (Swimming.TrainingInfo mainSwimming).Speed = F64.fin false 8286623314361712 (-52) := by
    decide!
  rw [h]
  norm_num [F64.toRat, F64.signed]

/-- C15 as amended: for every swimming workout the speed field of the summary
produced by `Swimming.TrainingInfo`, which `ReadData` keeps, is the base speed
`Training.meanSpeed` of the embedded record: `0` under the zero-duration guard
and `Action * LenStep / 1000 / Duration.Hours()` otherwise.  It does not depend
on `LengthPool` or `CountPool` and can differ from `Swimming.meanSpeed`: for
the swim of `main` it is `1.8399999999999999`, printed as `1.84`, while the
speed used for the calories is `0`. -/
theorem C15_swimming_summary_speed (s : Swimming) :
    (Swimming.TrainingInfo s).Speed =
      (if F64.lt (F64.abs (Duration.Hours s.Training.Duration)) eps = true then F64.zero
       else
        F64.div
          (F64.div (F64.mul (F64.ofInt s.Training.Action) s.Training.LenStep) (F64.ofInt 1000))
          (Duration.Hours s.Training.Duration)) ∧
    (∀ lengthPool countPool : Int,
      (Swimming.TrainingInfo { s with LengthPool := lengthPool, CountPool := countPool }).Speed
        = (Swimming.TrainingInfo s).Speed) ∧
    (∀ info, ReadDataInfo (CaloriesCalculator.swimming s) = some info →
      info.Speed = (Swimming.TrainingInfo s).Speed) ∧
    (Swimming.TrainingInfo mainSwimming).Speed = F64.fin false 8286623314361712 (-52) ∧
    F64.hundredths (Swimming.TrainingInfo mainSwimming).Speed = some 184 ∧
    Swimming.meanSpeed mainSwimming = some F64.zero := by
  refine ⟨rfl, fun _ _ => rfl, ?_, by decide!, by decide!, by decide!⟩
  intro info h
  simp only [ReadDataInfo, CaloriesCalculator.Calories, CaloriesCalculator.TrainingInfo,
    Option.map_eq_some'] at h
  obtain ⟨c, _, hc⟩ := h
  rw [← hc]

/-- C16: `Swimming.meanSpeed` stops with an integer division by zero (and with
it `Swimming.Calories` and `ReadData`) exactly when
`1e-8 ≤ |Duration.Hours()| < 1`; for `|hours| < 1e-8` it returns `0`, and for
`1 ≤ |hours|` it returns the converted quotient by the non-zero hour count. -/
theorem C16_division_by_zero_iff (s : Swimming) :
    (Swimming.meanSpeed s = none ↔
      (F64.le eps (F64.abs (Duration.Hours s.Training.Duration)) = true ∧
        F64.lt (F64.abs (Duration.Hours s.Training.Duration)) (F64.ofInt 1) = true)) ∧
    (Swimming.Calories s = none ↔ Swimming.meanSpeed s = none) ∧
    (ReadDataInfo (CaloriesCalculator.swimming s) = none ↔ Swimming.meanSpeed s = none) ∧
    (F64.lt (F64.abs (Duration.Hours s.Training.Duration)) eps = true →
      Swimming.meanSpeed s = some F64.zero) ∧
    (F64.le (F64.ofInt 1) (F64.abs (Duration.Hours s.Training.Duration)) = true →
      F64.toInt (Duration.Hours s.Training.Duration) ≠ 0 ∧
      Swimming.meanSpeed s =
        some (F64.ofInt (intDiv (intDiv (wrap64 (s.LengthPool * s.CountPool)) 1000)
          (F64.toInt (Duration.Hours s.Training.Duration))))) := by
  obtain ⟨h1, h2⟩ := swimming_meanSpeed_cases s
  refine ⟨h1, ?_, ?_, ?_, h2⟩
  · simp [Swimming.Calories]
  · simp [ReadDataInfo, CaloriesCalculator.Calories, Swimming.Calories]
  · intro h
    simp [Swimming.meanSpeed, h]

/-- C17, the claim as stated fails.  A walk of zero duration whose height is
`0` has `0 / (0 * 100) = NaN` in the speed term, so `Walking.Calories` is `NaN`
and not `18 * Weight = 1530`; and a run of zero duration with the weight `+Inf`
has the calories `NaN`, not `0`. -/
theorem C17_zero_duration_not_a_number :
    Walking.Calories zeroWalking = F64.nan ∧
    F64.toRat (F64.mul (F64.ofInt 18) zeroWalking.Training.Weight) = some 1530 ∧
    Running.Calories infWeightRunning = F64.nan := by
  refine ⟨by decide!, ?_, by decide!⟩
  have h : F64.mul (F64.ofInt 18) zeroWalking.Training.Weight
      = F64.fin false 6729011161989120 (-42) := by decide!
  rw [h]
  norm_num [F64.toRat, F64.signed]

/-- C17 as amended: for a workout whose duration is exactly zero, whose weight
is a number of magnitude below `1e300` and (for walking) whose height is a
non-zero number, `Running.Calories` and `Swimming.Calories` are `0` and
`Walking.Calories` has the value of `18 * Weight`, non-zero for a positive
weight.  In `Walking.Calories` the factor `Duration.Hours() * 60` multiplies
only the speed-squared term: for every walking workout the result is
`18 * Weight + meanSpeed()^2 / (Height * 100) * 0.029 * Weight * hours * 60`,
about `1530.36` for the walk of `main`. -/
theorem C17_zero_duration_calories (t : Training) (height : F64) (lengthPool countPool : Int)
    (hd : t.Duration = 0)
    (hW : F64.lt (F64.abs t.Weight) (F64.ofRatio (10 ^ 300) 1) = true)
    (hH : F64.lt F64.zero (F64.abs height) = true) (hwf : F64.wf height = true) :
    F64.toRat (Running.Calories { Training := t }) = some 0 ∧
    (Swimming.Calories { Training := t, LengthPool := lengthPool, CountPool := countPool }).bind
      F64.toRat = some 0 ∧
    F64.toRat (Walking.Calories { Training := t, Height := height })
      = F64.toRat (F64.mul (F64.ofInt 18) t.Weight) ∧
    (F64.lt F64.zero t.Weight = true → F64.wf t.Weight = true →
      ∃ v : ℚ, F64.toRat (Walking.Calories { Training := t, Height := height }) = some v ∧ 0 < v) ∧
    (∀ w : Walking, Walking.Calories w =
      F64.add (F64.mul (F64.ofInt 18) w.Training.Weight)
        (F64.mul
          (F64.mul
            (F64.mul
              (F64.mul
                (F64.div (F64.powTwo (Training.meanSpeed w.Training))
                  (F64.mul w.Height (F64.ofInt 100)))
                (F64.ofRatio 29 1000))
              w.Training.Weight)
            (Duration.Hours w.Training.Duration))
          (F64.ofInt 60))) ∧
    F64.hundredths (Walking.Calories mainWalking) = some 153036 := by
  have h20 : (2 : ℚ) ≠ 0 := by norm_num
  have h0 : Duration.Hours 0 = F64.fin false 0 (-1074) := by decide!
  have hg : F64.lt (F64.abs (F64.fin false 0 (-1074))) eps = true := by decide!
  have hbig : F64.ofRatio (10 ^ 300) 1 = F64.fin false 6724873095247260 944 := by decide!
  have hc1 : F64.add (F64.mul (F64.ofInt CaloriesMeanSpeedMultiplier) F64.zero)
      CaloriesMeanSpeedShift = F64.fin false 8061443332993188 (-52) := by decide!
  have hc2 : F64.mul (F64.add F64.zero SwimmingCaloriesMeanSpeedShift)
      (F64.ofInt SwimmingCaloriesWeightMultiplier) = F64.fin false 4953959590107546 (-51) := by
    decide!
  have h18 : F64.ofInt CaloriesMeanSpeedMultiplier = F64.fin false 5066549580791808 (-48) := by
    decide!
  have h18' : F64.ofInt 18 = F64.fin false 5066549580791808 (-48) := by decide!
  have hK : F64.ofInt MInKm = F64.fin false 8796093022208000 (-43) := by decide!
  have h60 : F64.ofInt MinInHours = F64.fin false 8444249301319680 (-47) := by decide!
  have h29 : CaloriesSpeedHeightMultiplier = F64.fin false 8358680908399641 (-58) := by decide!
  have hp0 : F64.powTwo F64.zero = F64.zero := by decide
  have hms : Training.meanSpeed t = F64.zero := by
    simp [Training.meanSpeed, hd, h0, hg]
  have hfin : ∃ (sW : Bool) (mW : Nat) (eW : Int), t.Weight = F64.fin sW mW eW := by
    rw [hbig] at hW
    cases hWt : t.Weight with
    | nan =>
      rw [hWt] at hW
      simp [F64.abs, F64.lt] at hW
    | inf b =>
      rw [hWt] at hW
      simp [F64.abs, F64.lt] at hW
    | fin sW mW eW => exact ⟨sW, mW, eW, rfl⟩
  obtain ⟨sW, mW, eW, hWt⟩ := hfin
  rw [hWt, hbig] at hW
  have hv := (lt_fin_iff false false mW 6724873095247260 eW 944).mp hW
  have hvW : (mW : ℚ) * (2 : ℚ) ^ eW ≤ (2 : ℚ) ^ (997 : Int) := by
    have hb : ((F64.signed false 6724873095247260 : Int) : ℚ) * (2 : ℚ) ^ (944 : Int)
        ≤ (2 : ℚ) ^ (997 : Int) := by
      have : (2 : ℚ) ^ (997 : Int) = (2 : ℚ) ^ (53 : Int) * (2 : ℚ) ^ (944 : Int) := by
        rw [← zpow_add₀ h20]
        norm_num
      rw [this]
      apply mul_le_mul_of_nonneg_right _ (by positivity)
      norm_num [F64.signed]
    have hs : ((F64.signed false mW : Int) : ℚ) = (mW : ℚ) := by simp [F64.signed]
    rw [hs] at hv
    exact le_trans (le_of_lt hv) hb
  have hvW0 : (0 : ℚ) ≤ (mW : ℚ) * (2 : ℚ) ^ eW := by positivity
  obtain ⟨sQ, hQ⟩ := zero_div_height height hH hwf
  obtain ⟨mX, eX, hX, hXc, hXne⟩ := mul_fin_canonical false sW 5066549580791808 mW (-48) eW 1002
    (by norm_num) (by norm_num) (by
      calc ((5066549580791808 : Nat) : ℚ) * (2 : ℚ) ^ (-48 : Int) * ((mW : ℚ) * (2 : ℚ) ^ eW)
          ≤ (2 : ℚ) ^ (5 : Int) * (2 : ℚ) ^ (997 : Int) :=
            mul_le_mul (by norm_num) hvW hvW0 (by positivity)
        _ = (2 : ℚ) ^ (1002 : Int) := by
            rw [← zpow_add₀ h20]
            norm_num)
  have hwalk : Walking.Calories { Training := t, Height := height }
      = F64.add (F64.fin (xor false sW) mX eX)
          (F64.fin (xor (xor (xor (xor sQ false) sW) false) false) 0 (-1074)) := by
    simp only [Walking.Calories, hms, hp0, hQ, h29, hWt, hd, h0, h60, h18, hX, mul_zero_left,
      mul_zero_right]
  refine ⟨?_, ?_, ?_, ?_, fun _ => rfl, by decide!⟩
  · -- running
    obtain ⟨m1, e1, h1, hb1⟩ := mul_fin_le false sW 8061443332993188 mW (-52) eW 998
      (by norm_num) (by norm_num) (by
        calc ((8061443332993188 : Nat) : ℚ) * (2 : ℚ) ^ (-52 : Int) * ((mW : ℚ) * (2 : ℚ) ^ eW)
            ≤ (2 : ℚ) ^ (1 : Int) * (2 : ℚ) ^ (997 : Int) :=
              mul_le_mul (by norm_num) hvW hvW0 (by positivity)
          _ = (2 : ℚ) ^ (998 : Int) := by
              rw [← zpow_add₀ h20]
              norm_num)
    obtain ⟨m2, e2, h2, _⟩ := div_fin_le (xor false sW) false m1 8796093022208000 e1 (-43) 998
      (by norm_num) (by norm_num) (by norm_num) (by
        have hk : (1 : ℚ) ≤ ((8796093022208000 : Nat) : ℚ) * (2 : ℚ) ^ (-43 : Int) := by norm_num
        calc ((m1 : ℚ) * (2 : ℚ) ^ e1) / (((8796093022208000 : Nat) : ℚ) * (2 : ℚ) ^ (-43 : Int))
            ≤ (m1 : ℚ) * (2 : ℚ) ^ e1 := div_le_self (by positivity) hk
          _ ≤ (2 : ℚ) ^ (998 : Int) := hb1)
    simp only [Running.Calories, hms, hd, h0, hc1, hWt, hK, h60, h1, h2, mul_zero_right,
      mul_zero_left]
    simp [F64.toRat, F64.signed]
  · -- swimming
    have hsw : Swimming.meanSpeed
        { Training := t, LengthPool := lengthPool, CountPool := countPool } = some F64.zero := by
      simp [Swimming.meanSpeed, hd, h0, hg]
    obtain ⟨m1, e1, h1, _⟩ := mul_fin_le false sW 4953959590107546 mW (-51) eW 999
      (by norm_num) (by norm_num) (by
        calc ((4953959590107546 : Nat) : ℚ) * (2 : ℚ) ^ (-51 : Int) * ((mW : ℚ) * (2 : ℚ) ^ eW)
            ≤ (2 : ℚ) ^ (2 : Int) * (2 : ℚ) ^ (997 : Int) :=
              mul_le_mul (by norm_num) hvW hvW0 (by positivity)
          _ = (2 : ℚ) ^ (999 : Int) := by
              rw [← zpow_add₀ h20]
              norm_num)
    simp only [Swimming.Calories, hsw, Option.map_some', Option.some_bind, hc2, hWt, hd, h0, h1,
      mul_zero_right]
    simp [F64.toRat, F64.signed]
  · -- walking: value
    rw [hwalk, h18', hWt, hX]
    exact add_zero_right _ _ mX eX hXc
  · -- walking: positive
    intro hpos hwfW
    rw [hWt] at hpos hwfW
    have hlt := (lt_fin_iff false sW 0 mW (-1074) eW).mp hpos
    have hsW : sW = false := by
      cases sW
      · rfl
      · exfalso
        simp only [F64.signed, Bool.false_eq_true, if_false, if_true] at hlt
        have : ((-(mW : Int) : Int) : ℚ) * (2 : ℚ) ^ eW ≤ 0 := by
          apply mul_nonpos_of_nonpos_of_nonneg _ (by positivity)
          push_cast
          simp
        simp at hlt
        linarith
    subst hsW
    have hmpos : 0 < mW := by
      rcases Nat.eq_zero_or_pos mW with h0' | h
      · subst h0'
        simp [F64.signed] at hlt
      · exact h
    have he : -1074 ≤ eW := by
      simp only [F64.wf, Bool.or_eq_true, Bool.and_eq_true, decide_eq_true_eq] at hwfW
      rcases hwfW with ⟨_, h⟩ | ⟨⟨⟨_, _⟩, h⟩, _⟩ <;> omega
    have hXm : mX ≠ 0 := by
      apply hXne
      have h1 : (1 : ℚ) ≤ (mW : ℚ) := by exact_mod_cast hmpos
      have h2 : (2 : ℚ) ^ (-1074 : Int) ≤ (2 : ℚ) ^ eW := zpow_le_zpow_right₀ (by norm_num) he
      have h3 : (1 : ℚ) ≤ ((5066549580791808 : Nat) : ℚ) * (2 : ℚ) ^ (-48 : Int) := by norm_num
      calc (2 : ℚ) ^ (-1074 : Int) = 1 * (1 * (2 : ℚ) ^ (-1074 : Int)) := by ring
        _ ≤ (((5066549580791808 : Nat) : ℚ) * (2 : ℚ) ^ (-48 : Int)) * ((mW : ℚ) * (2 : ℚ) ^ eW) :=
            mul_le_mul h3 (mul_le_mul h1 h2 (by positivity) (by positivity)) (by positivity)
              (by positivity)
    refine ⟨(mX : ℚ) * (2 : ℚ) ^ eX, ?_, ?_⟩
    · rw [hwalk, add_zero_right _ _ mX eX hXc]
      simp [F64.toRat, F64.signed]
    · have : (0 : ℚ) < (mX : ℚ) := by exact_mod_cast Nat.pos_of_ne_zero hXm
      positivity

/-- C17 as amended, at the walk of `main` cut to zero duration (weight `85`,
height `185`): running and swimming calories are `0`, walking calories are
`18 * 85 = 1530`. -/
theorem C17_zero_duration_calories_witness :
    (zeroDurationTraining.Duration = 0 ∧
      F64.lt (F64.abs zeroDurationTraining.Weight) (F64.ofRatio (10 ^ 300) 1) = true ∧
      F64.lt F64.zero (F64.abs (F64.ofInt 185)) = true ∧ F64.wf (F64.ofInt 185) = true) ∧
    F64.toRat (Running.Calories { Training := zeroDurationTraining }) = some 0 ∧
    (Swimming.Calories { Training := zeroDurationTraining, LengthPool := 50, CountPool := 5 }).bind
      F64.toRat = some 0 ∧
    F64.toRat (Walking.Calories { Training := zeroDurationTraining, Height := F64.ofInt 185 })
      = some 1530 := by
  have h := C17_zero_duration_calories zeroDurationTraining (F64.ofInt 185) 50 5 rfl
    (by decide!) (by decide!) (by decide!)
  refine ⟨⟨rfl, by decide!, by decide!, by decide!⟩, h.1, h.2.1, ?_⟩
  rw [h.2.2.1]
  have h18 : F64.mul (F64.ofInt 18) zeroDurationTraining.Weight
      = F64.fin false 6729011161989120 (-42) := by decide!
  rw [h18]
  norm_num [F64.toRat, F64.signed]

/-- C18, the claim as stated fails when the `int` product wraps around.  For
`2^32` crossings of a pool of `2^32` metres in one hour the product `2^64`
is non-negative and the hour count is `1`, the single floor is
`18446744073709551`, yet the two divisions of the code give `0` and
`Swimming.meanSpeed` returns `0` although the product is not below
`1000 * 1`.  For two crossings of a pool of `2^62` metres the floor is
`9223372036854775` and the method returns `-9223372036854775`. -/
theorem C18_product_wraps_around :
    (0 ≤ squarePoolSwimming.LengthPool * squarePoolSwimming.CountPool ∧
      1 ≤ F64.toInt (Duration.Hours squarePoolSwimming.Training.Duration)) ∧
    Int.floor (((squarePoolSwimming.LengthPool * squarePoolSwimming.CountPool : Int) : ℚ)
      / (1000 * ((F64.toInt (Duration.Hours squarePoolSwimming.Training.Duration) : Int) : ℚ)))
      = 18446744073709551 ∧
    intDiv (intDiv (wrap64 (squarePoolSwimming.LengthPool * squarePoolSwimming.CountPool)) MInKm)
      (F64.toInt (Duration.Hours squarePoolSwimming.Training.Duration)) = 0 ∧
    Swimming.meanSpeed squarePoolSwimming = some F64.zero ∧
    ¬ (squarePoolSwimming.LengthPool * squarePoolSwimming.CountPool
        < 1000 * F64.toInt (Duration.Hours squarePoolSwimming.Training.Duration)) ∧
    (0 ≤ twoLengthSwimming.LengthPool * twoLengthSwimming.CountPool ∧
      1 ≤ F64.toInt (Duration.Hours twoLengthSwimming.Training.Duration)) ∧
    Int.floor (((twoLengthSwimming.LengthPool * twoLengthSwimming.CountPool : Int) : ℚ)
      / (1000 * ((F64.toInt (Duration.Hours twoLengthSwimming.Training.Duration) : Int) : ℚ)))
      = 9223372036854775 ∧
    intDiv (intDiv (wrap64 (twoLengthSwimming.LengthPool * twoLengthSwimming.CountPool)) MInKm)
      (F64.toInt (Duration.Hours twoLengthSwimming.Training.Duration)) = -9223372036854775 ∧
    Swimming.meanSpeed twoLengthSwimming = some (F64.ofInt (-9223372036854775)) := by
  have h1 : F64.toInt (Duration.Hours squarePoolSwimming.Training.Duration) = 1 := by decide!
  have h2 : F64.toInt (Duration.Hours twoLengthSwimming.Training.Duration) = 1 := by decide!
  have hp1 : squarePoolSwimming.LengthPool * squarePoolSwimming.CountPool
      = 18446744073709551616 := by decide
  have hp2 : twoLengthSwimming.LengthPool * twoLengthSwimming.CountPool
      = 9223372036854775808 := by decide
  have hm1 : Swimming.meanSpeed squarePoolSwimming = some F64.zero := by decide!
  have hm2 : Swimming.meanSpeed twoLengthSwimming = some (F64.ofInt (-9223372036854775)) := by
    decide!
  rw [h1, h2, hp1, hp2]
  refine ⟨⟨by norm_num, le_refl _⟩, ?_, by decide!, hm1, by norm_num,
    ⟨by norm_num, le_refl _⟩, ?_, by decide!, hm2⟩
  · rw [Int.floor_eq_iff]
    norm_num
  · rw [Int.floor_eq_iff]
    norm_num

/-- C18 as amended: for every swimming workout whose product
`LengthPool * CountPool` is non-negative and below `2^63`, so that the `int`
product does not wrap around, and whose whole-hour count `n = int(hours)` is
at least `1`, the two truncating divisions of `Swimming.meanSpeed` equal the
single floor `⌊LengthPool * CountPool / (1000 * n)⌋`, the method returns the
conversion of that floor, and the returned speed is `0` exactly when
`LengthPool * CountPool < 1000 * n`. -/
theorem C18_two_divisions_one_floor (s : Swimming)
    (hP : 0 ≤ s.LengthPool * s.CountPool) (hP2 : s.LengthPool * s.CountPool < 2 ^ 63)
    (hn : 1 ≤ F64.toInt (Duration.Hours s.Training.Duration)) :
    Int.tdiv (Int.tdiv (s.LengthPool * s.CountPool) 1000)
        (F64.toInt (Duration.Hours s.Training.Duration))
      = Int.floor (((s.LengthPool * s.CountPool : Int) : ℚ)
          / (1000 * ((F64.toInt (Duration.Hours s.Training.Duration) : Int) : ℚ))) ∧
    intDiv (intDiv (wrap64 (s.LengthPool * s.CountPool)) MInKm)
        (F64.toInt (Duration.Hours s.Training.Duration))
      = Int.floor (((s.LengthPool * s.CountPool : Int) : ℚ)
          / (1000 * ((F64.toInt (Duration.Hours s.Training.Duration) : Int) : ℚ))) ∧
    Swimming.meanSpeed s =
      some (F64.ofInt (Int.floor (((s.LengthPool * s.CountPool : Int) : ℚ)
        / (1000 * ((F64.toInt (Duration.Hours s.Training.Duration) : Int) : ℚ))))) ∧
    (Swimming.meanSpeed s = some F64.zero ↔
      s.LengthPool * s.CountPool
        < 1000 * F64.toInt (Duration.Hours s.Training.Duration)) := by
  obtain ⟨_, hms⟩ := (swimming_meanSpeed_cases s).2 (le_one_of_toInt_pos _ hn)
  obtain ⟨_, hn2⟩ := toInt_range (Duration.Hours s.Training.Duration)
  have hwP : wrap64 (s.LengthPool * s.CountPool) = s.LengthPool * s.CountPool :=
    wrap64_of_range _ (by norm_num; omega) hP2
  rw [hwP] at hms
  simp only [MInKm]
  rw [hwP]
  generalize s.LengthPool * s.CountPool = P at *
  generalize F64.toInt (Duration.Hours s.Training.Duration) = n at *
  have hq1 : Int.tdiv P 1000 = P / 1000 := Int.tdiv_eq_ediv hP (by norm_num)
  have hq1n : (0 : Int) ≤ P / 1000 := Int.ediv_nonneg hP (by norm_num)
  have hq1u : P / 1000 ≤ P := Int.ediv_le_self _ hP
  have hq2 : Int.tdiv (P / 1000) n = P / 1000 / n := Int.tdiv_eq_ediv hq1n (by omega)
  have hq2n : (0 : Int) ≤ P / 1000 / n := Int.ediv_nonneg hq1n (by omega)
  have hq2u : P / 1000 / n ≤ P / 1000 := Int.ediv_le_self _ hq1n
  have hq3 : P / 1000 / n = P / (1000 * n) := by
    obtain ⟨p, rfl⟩ := Int.eq_ofNat_of_zero_le hP
    obtain ⟨k, rfl⟩ := Int.eq_ofNat_of_zero_le (by omega : (0 : Int) ≤ n)
    exact_mod_cast Nat.div_div_eq_div_mul p 1000 k
  have hw1 : intDiv P 1000 = P / 1000 := by
    rw [intDiv, hq1]
    exact wrap64_of_range _ (by norm_num; omega) (by omega)
  have hw2 : intDiv (P / 1000) n = P / (1000 * n) := by
    rw [intDiv, hq2, ← hq3]
    exact wrap64_of_range _ (by norm_num; omega) (by omega)
  have hfl : Int.floor ((P : ℚ) / (1000 * (n : ℚ))) = P / (1000 * n) := by
    have hc : (1000 * (n : ℚ)) = (((1000 * n.toNat : Nat)) : ℚ) := by
      push_cast
      congr 1
      exact_mod_cast (Int.toNat_of_nonneg (by omega : (0 : Int) ≤ n)).symm
    rw [hc, Rat.floor_intCast_div_natCast]
    congr 1
    push_cast
    rw [Int.toNat_of_nonneg (by omega)]
  have hms2 : Swimming.meanSpeed s = some (F64.ofInt (P / (1000 * n))) := by
    rw [hms, hw1, hw2]
  have hz : F64.ofInt 0 = F64.zero := by decide
  rw [hfl]
  refine ⟨by rw [hq1, hq2, hq3], by rw [hw1, hw2], hms2, ?_⟩
  rw [hms2]
  constructor
  · intro h
    by_contra hc
    have hge : 1000 * n ≤ P := by omega
    have h1 : 1 ≤ P / (1000 * n) :=
      (Int.le_ediv_iff_mul_le (by omega)).mpr (by omega)
    have h2 := ofInt_ne_zero (P / (1000 * n)) (by omega) false
    apply h2
    have h3 := Option.some.inj h
    rw [h3]
    rfl
  · intro h
    rw [Int.ediv_eq_zero_of_lt hP h, hz]

/-- C18 at the swimming workout of `main`: the product is `250`, the hour
count `1`, and the speed `⌊250 / 1000⌋ = 0`. -/
theorem C18_two_divisions_one_floor_witness :
    (0 ≤ mainSwimming.LengthPool * mainSwimming.CountPool ∧
      mainSwimming.LengthPool * mainSwimming.CountPool < 2 ^ 63 ∧
      1 ≤ F64.toInt (Duration.Hours mainSwimming.Training.Duration)) ∧
    mainSwimming.LengthPool * mainSwimming.CountPool = 250 ∧
    F64.toInt (Duration.Hours mainSwimming.Training.Duration) = 1 ∧
    (Swimming.meanSpeed mainSwimming = some F64.zero ↔
      mainSwimming.LengthPool * mainSwimming.CountPool
        < 1000 * F64.toInt (Duration.Hours mainSwimming.Training.Duration)) :=
  ⟨⟨by decide, by decide, by decide!⟩, by decide, by decide!,
    (C18_two_divisions_one_floor mainSwimming (by decide) (by decide) (by decide!)).2.2.2⟩
